import Mathlib

/-!
# CareFlow backend (server.js): request handlers over an explicit store

The Express handlers of `server.js` are embedded as pure functions
`Store → request → response × Store`.  Request bodies carry JavaScript
values (`JsVal`); every SQL statement is a function on the lists of rows of
the tables it names.  A statement that PostgreSQL rejects (an INTEGER out of
range, a text that is not an integer, a violated constraint) makes the
enclosing `try` block take its `catch` branch.
-/

namespace CareFlow

/-! ## JavaScript values -/

/-- A JavaScript number: an integer value, a finite non-integer value
(identified by a tag), NaN, or an infinity. -/
inductive JsNum where
  | int (i : Int)
  | frac (tag : Nat)
  | nan
  | inf (negative : Bool)
  deriving DecidableEq, Repr

/-- A value found in a parsed JSON body.  An array or object is carried by
what the handlers can observe of it: `String(v)`, `Number(v)` and the text
node-postgres sends for it. -/
inductive JsVal where
  | undefined
  | null
  | bool (b : Bool)
  | num (n : JsNum)
  | str (s : String)
  | obj (asString : String) (asNumber : JsNum) (asParam : String)
  deriving DecidableEq, Repr

/-- What a `try` block caught: a statement PostgreSQL rejected (a text that
is not an integer, an INTEGER out of range, a violated key), a statement
that failed for a reason outside the store, or a JavaScript TypeError. -/
inductive Thrown where
  | invalidInteger
  | outOfRange
  | uniqueViolation
  | injected
  | typeError
  deriving DecidableEq, Repr

/-- Library functions the handlers call whose code is not part of server.js:
`Number.prototype.toString`, `Number(s)` on a string,
`String.prototype.toLowerCase`, `bcrypt.hash(s, 10)` and the `message` of
the error a rejected statement throws. -/
structure Lib where
  numToString : JsNum → String
  stringToNumber : String → JsNum
  toLowerCase : String → String
  bcryptHash : String → String
  errorMessage : Thrown → String

/-- JavaScript truthiness (`!v`, `v || w`, `v && w`, `Boolean(v)`). -/
def truthy : JsVal → Bool
  | .undefined => false
  | .null => false
  | .bool b => b
  | .num (.int i) => i != 0
  | .num .nan => false
  | .num _ => true
  | .str s => s != ""
  | .obj _ _ _ => true

/-- The test `typeof v === 'number'`. -/
def isNumber : JsVal → Bool
  | .num _ => true
  | _ => false

/-- The test `typeof v === 'string'`. -/
def isString : JsVal → Bool
  | .str _ => true
  | _ => false

/-- The test `typeof v === 'boolean'`. -/
def isBoolean : JsVal → Bool
  | .bool _ => true
  | _ => false

/-- The operand test of `v ?? w`: `v` is `undefined` or `null`. -/
def nullish : JsVal → Bool
  | .undefined => true
  | .null => true
  | _ => false

/-- The expression `v || null`. -/
def orNull (v : JsVal) : JsVal := if truthy v then v else .null

/-- The conversion `String(v)`. -/
def jsString (lib : Lib) : JsVal → String
  | .undefined => "undefined"
  | .null => "null"
  | .bool true => "true"
  | .bool false => "false"
  | .num n => lib.numToString n
  | .str s => s
  | .obj s _ _ => s

/-- The conversion `Number(v)`. -/
def jsNumber (lib : Lib) : JsVal → JsNum
  | .undefined => .nan
  | .null => .int 0
  | .bool true => .int 1
  | .bool false => .int 0
  | .num n => n
  | .str s => lib.stringToNumber s
  | .obj _ n _ => n

/-- The test `Number.isFinite(n)`. -/
def jsIsFinite : JsNum → Bool
  | .int _ => true
  | .frac _ => true
  | _ => false

/-- The characters matched by `\s` and removed by `trim()`: WhiteSpace and
LineTerminator of ECMAScript. -/
def isJsSpace (c : Char) : Bool :=
  let n := c.toNat
  (9 ≤ n && n ≤ 13) || n == 32 || n == 160 || n == 5760 ||
  (8192 ≤ n && n ≤ 8202) || n == 8232 || n == 8233 || n == 8239 ||
  n == 8287 || n == 12288 || n == 65279

/-- The characters `.` does not match: LineTerminator of ECMAScript. -/
def isLineTerminator (c : Char) : Bool :=
  let n := c.toNat
  n == 10 || n == 13 || n == 8232 || n == 8233

/-- The characters of `s.trim()`. -/
def trimChars (cs : List Char) : List Char :=
  ((cs.dropWhile isJsSpace).reverse.dropWhile isJsSpace).reverse

/-- The method `s.trim()`. -/
def jsTrim (s : String) : String := String.mk (trimChars s.data)

/-! ## The regular expression of the combined inventory name -/

/-- A greedy `\s*` followed by the rest of the pattern `k`: the longest run
of white space is tried first. -/
def greedySpace {β : Type} (k : List Char → Option β) : List Char → Option β
  | [] => k []
  | c :: cs =>
    if isJsSpace c then
      match greedySpace k cs with
      | some r => some r
      | none => k (c :: cs)
    else k (c :: cs)

/-- A lazy `(.*?)` followed by the rest of the pattern `k`: the shortest
capture is tried first; `acc` is the capture so far. -/
def lazyDot {β : Type} (k : List Char → List Char → Option β) :
    List Char → List Char → Option β
  | acc, [] => k acc []
  | acc, c :: cs =>
    match k acc (c :: cs) with
    | some r => some r
    | none => if isLineTerminator c then none else lazyDot k (acc ++ [c]) cs

/-- The end of the pattern, `\s*$`. -/
def spaceThenEnd {β : Type} (r : β) (cs : List Char) : Option β :=
  greedySpace (fun rest => if rest.isEmpty then some r else none) cs

/-- The optional group `(?:\((.*?)\))?` followed by `\s*$`, after the first
capture `g1`: the group is tried before its omission. -/
def brandGroup (g1 : List Char) (cs : List Char) :
    Option (List Char × Option (List Char)) :=
  let withGroup : Option (List Char × Option (List Char)) :=
    match cs with
    | '(' :: r4 =>
      lazyDot (fun g2 r5 =>
        match r5 with
        | ')' :: r6 => spaceThenEnd (g1, some g2) r6
        | _ => none) [] r4
    | _ => none
  match withGroup with
  | some r => some r
  | none => spaceThenEnd (g1, none) cs

/-- The call `name.match(/^\s*(.*?)\s*(?:\((.*?)\))?\s*$/)`: the two
captures, the second absent when the group did not take part. -/
def matchName (name : List Char) : Option (List Char × Option (List Char)) :=
  greedySpace (fun r1 =>
    lazyDot (fun g1 r2 => greedySpace (fun r3 => brandGroup g1 r3) r2) [] r1) name

/-! ## Parameters sent to PostgreSQL -/

/-- The range of the INTEGER (and SERIAL) columns. -/
def inInt4 (i : Int) : Bool := decide (-2147483648 ≤ i) && decide (i ≤ 2147483647)

/-- The text node-postgres sends for a parameter bound to a TEXT column;
`none` is SQL NULL. -/
def pgText (lib : Lib) : JsVal → Option String
  | .undefined => none
  | .null => none
  | .bool true => some "true"
  | .bool false => some "false"
  | .num n => some (lib.numToString n)
  | .str s => some s
  | .obj _ _ p => some p

/-- A JavaScript number bound to an INTEGER parameter: PostgreSQL accepts
the text of an integer in range and raises on every other text. -/
def pgInt4 : JsNum → Except Thrown Int
  | .int i => if inInt4 i then .ok i else .error .outOfRange
  | _ => .error .invalidInteger

/-- A path parameter `:id` denoting the integer `id`, bound to an INTEGER
column. -/
def pgId (id : Int) : Except Thrown Int :=
  if inInt4 id then .ok id else .error .outOfRange

/-- SQL `COALESCE(a, b)`. -/
def coalesce {α : Type} : Option α → Option α → Option α
  | some a, _ => some a
  | none, b => b

/-- SQL `GREATEST(0, x)`: a NULL argument is ignored. -/
def greatest0 : Option Int → Int
  | some x => max 0 x
  | none => 0

/-! ## Tables -/

/-- A row of `inventory`. -/
structure InventoryItem where
  id : Int
  category : Option String
  brand_name : Option String
  generic_name : String
  dosage_type : Option String
  strength : Option String
  unit : Option String
  expiration_date : Option String
  stock : Option Int
  description : Option String
  created_at : Nat
  deriving DecidableEq, Repr

/-- A row of `users`. -/
structure User where
  id : Int
  full_name : Option String
  role : Option String
  email : Option String
  password_hash : Option String
  created_at : Nat
  active : Option Bool
  phone : Option String
  address : Option String
  birthdate : Option String
  gender : Option String
  deriving DecidableEq, Repr

/-- A row of `profile`. -/
structure Profile where
  id : Int
  fullname : Option String
  role : Option String
  email : Option String
  phone : Option String
  address : Option String
  gender : Option String
  birthdate : Option String
  created_at : Nat
  last_edited : Nat
  deriving DecidableEq, Repr

/-- A row of `appointments`, the primary table. -/
structure Appointment where
  id : Int
  patient : String
  date : String
  time : String
  notes : Option String
  done : Option Bool
  created_by_name : Option String
  created_at : Nat
  deriving DecidableEq, Repr

/-- A row of `appointment`, the mirror table. -/
structure AppointmentMirror where
  full_name : Option String
  date : Option String
  time : Option String
  status : Option String
  appointment_id : Option Int
  deriving DecidableEq, Repr

/-- A row of `patient_records`. -/
structure PatientRecord where
  id : Int
  patient : String
  date : Option String
  time : Option String
  notes : Option String
  doctor : Option String
  medicine : Option String
  dosage : Option String
  created_at : Nat
  deriving DecidableEq, Repr

/-- The database: the rows of each table and, for each SERIAL column, the
last value its sequence handed out. -/
structure Store where
  users : List User
  usersSeq : Int
  profile : List Profile
  appointments : List Appointment
  appointmentsSeq : Int
  appointment : List AppointmentMirror
  inventory : List InventoryItem
  inventorySeq : Int
  patient_records : List PatientRecord
  patientRecordsSeq : Int
  deriving DecidableEq, Repr

/-- The store with no rows and unused sequences. -/
def Store.empty : Store :=
  { users := [], usersSeq := 0, profile := [], appointments := [], appointmentsSeq := 0,
    appointment := [], inventory := [], inventorySeq := 0, patient_records := [],
    patientRecordsSeq := 0 }

/-! ## Responses -/

/-- A JSON response body. -/
inductive Body where
  | empty
  | message (m : String)
  | failure (m : String)
  | row (fields : List (String × JsVal))
  | rows (rs : List (List (String × JsVal)))
  | user (fields : List (String × JsVal))
  deriving DecidableEq, Repr

/-- The status and body a handler sends. -/
structure Response where
  status : Nat
  body : Body
  deriving DecidableEq, Repr

/-- A nullable TEXT column in a JSON row. -/
def jsText : Option String → JsVal
  | some s => .str s
  | none => .null

/-- A nullable INTEGER column in a JSON row. -/
def jsInt : Option Int → JsVal
  | some i => .num (.int i)
  | none => .null

/-- A nullable BOOLEAN column in a JSON row. -/
def jsBool : Option Bool → JsVal
  | some b => .bool b
  | none => .null

/-- A timestamp column in a JSON row. -/
def jsTime (t : Nat) : JsVal := .num (.int t)

/-- The body of the `catch` blocks that answer 500 with a message. -/
def serverError : Response := ⟨500, .message "Server error"⟩

/-- An UPDATE with a WHERE clause `p` and SET list `f`: the table afterwards. -/
def updateRows {α : Type} (p : α → Bool) (f : α → α) (rows : List α) : List α :=
  rows.map (fun r => if p r then f r else r)

/-- The rows an UPDATE with WHERE clause `p` and SET list `f` returns. -/
def returning {α : Type} (p : α → Bool) (f : α → α) (rows : List α) : List α :=
  (rows.filter p).map f

/-- The next value of a SERIAL sequence whose last value is `seq`. -/
def nextval (seq : Int) : Except Thrown Int :=
  if inInt4 (seq + 1) then .ok (seq + 1) else .error .outOfRange

/-! ## Inventory handlers -/

/-- The RETURNING list shared by the inventory statements. -/
def inventoryJson (r : InventoryItem) : List (String × JsVal) :=
  [("id", .num (.int r.id)), ("category", jsText r.category),
   ("brandName", jsText r.brand_name), ("genericName", .str r.generic_name),
   ("dosageType", jsText r.dosage_type), ("strength", jsText r.strength),
   ("unit", jsText r.unit), ("expirationDate", jsText r.expiration_date),
   ("stock", jsInt r.stock), ("description", jsText r.description),
   ("created_at", jsTime r.created_at)]

/-- The fields `PATCH /api/inventory/:id/stock` reads from the body. -/
structure StockBody where
  stock : JsVal
  delta : JsVal
  deriving DecidableEq, Repr

/-- The INTEGER addition `stock + d`: NULL when `stock` is NULL, an error
when the sum leaves the INTEGER range. -/
def int4Add (stock : Option Int) (d : Int) : Except Thrown (Option Int) :=
  match stock with
  | none => .ok none
  | some s => if inInt4 (s + d) then .ok (some (s + d)) else .error .outOfRange

/-- The SET list of the delta statement on one row, once the sum is known
to be in range. -/
def setStockDelta (d : Int) (r : InventoryItem) : InventoryItem :=
  { r with stock := some (greatest0 (r.stock.map (· + d))) }

/-- The statement
`UPDATE inventory SET stock = GREATEST(0, stock + $1) WHERE id = $2 RETURNING ...`:
the returned rows and the table afterwards. -/
def updateStockDelta (inv : List InventoryItem) (delta : JsNum) (id : Int) :
    Except Thrown (List InventoryItem × List InventoryItem) :=
  match pgInt4 delta, pgId id with
  | .ok d, .ok i =>
    if inv.all (fun r => r.id != i || (int4Add r.stock d).toBool) then
      .ok (returning (fun r => r.id == i) (setStockDelta d) inv,
           updateRows (fun r => r.id == i) (setStockDelta d) inv)
    else .error .outOfRange
  | .error e, _ => .error e
  | _, .error e => .error e

/-- The SET list of the absolute statement on one row. -/
def setStockAbs (t : Int) (r : InventoryItem) : InventoryItem :=
  { r with stock := some (greatest0 (some t)) }

/-- The statement
`UPDATE inventory SET stock = GREATEST(0, $1) WHERE id = $2 RETURNING ...`. -/
def updateStockAbs (inv : List InventoryItem) (target : JsNum) (id : Int) :
    Except Thrown (List InventoryItem × List InventoryItem) :=
  match pgInt4 target, pgId id with
  | .ok t, .ok i =>
    .ok (returning (fun r => r.id == i) (setStockAbs t) inv,
         updateRows (fun r => r.id == i) (setStockAbs t) inv)
  | .error e, _ => .error e
  | _, .error e => .error e

/-- The handler `app.patch('/api/inventory/:id/stock')`. -/
def adjustStock (lib : Lib) (st : Store) (id : Int) (body : StockBody) : Response × Store :=
  if !isNumber body.stock && !isNumber body.delta then
    (⟨400, .message "Provide stock or delta as a number"⟩, st)
  else
    let result :=
      match body.delta with
      | .num d => updateStockDelta st.inventory d id
      | _ => updateStockAbs st.inventory (jsNumber lib body.stock) id
    match result with
    | .error _ => (serverError, st)
    | .ok ([], inv) => (⟨404, .message "Inventory item not found"⟩, { st with inventory := inv })
    | .ok (r :: _, inv) => (⟨200, .row (inventoryJson r)⟩, { st with inventory := inv })

/-- The fields `PUT /api/inventory/:id` reads from the body. -/
structure InventoryUpdateBody where
  genericName : JsVal
  brandName : JsVal
  category : JsVal
  stock : JsVal
  name : JsVal
  deriving DecidableEq, Repr

/-- The generic and brand names `PUT /api/inventory/:id` uses: the supplied
fields, or the two parts of a combined `name` when no generic name came. -/
def splitName (lib : Lib) (body : InventoryUpdateBody) : JsVal × JsVal :=
  if !truthy body.genericName && isString body.name then
    let name := jsString lib body.name
    match matchName name.data with
    | some (g1, g2) =>
      let brand := jsTrim (String.mk (g2.getD []))
      (.str (jsTrim (String.mk g1)), if brand != "" then .str brand else .null)
    | none => (.str (jsTrim name), .null)
  else (body.genericName, body.brandName)

/-- The parameter `Number.isFinite(Number(stock)) ? Number(stock) : dflt`
bound to the INTEGER column. -/
def stockParam (lib : Lib) (stock : JsVal) (dflt : Option Int) : Except Thrown (Option Int) :=
  if jsIsFinite (jsNumber lib stock) then
    match pgInt4 (jsNumber lib stock) with
    | .ok i => .ok (some i)
    | .error e => .error e
  else .ok dflt

/-- The SET list of `PUT /api/inventory/:id` on one row. -/
def setDetails (g b c : Option String) (s : Option Int) (r : InventoryItem) : InventoryItem :=
  { r with
    generic_name := g.getD r.generic_name
    brand_name := coalesce b r.brand_name
    category := coalesce c r.category
    stock := coalesce s r.stock }

/-- The handler `app.put('/api/inventory/:id')`. -/
def putInventory (lib : Lib) (st : Store) (id : Int) (body : InventoryUpdateBody) :
    Response × Store :=
  let names := splitName lib body
  match stockParam lib body.stock none, pgId id with
  | .ok s, .ok i =>
    let set := setDetails (pgText lib names.1) (pgText lib names.2) (pgText lib body.category) s
    let inv := updateRows (fun r => r.id == i) set st.inventory
    match returning (fun r => r.id == i) set st.inventory with
    | [] => (⟨404, .message "Inventory item not found"⟩, { st with inventory := inv })
    | r :: _ => (⟨200, .row (inventoryJson r)⟩, { st with inventory := inv })
  | _, _ => (serverError, st)

/-- The fields `POST /api/inventory` reads from the body. -/
structure InventoryCreateBody where
  category : JsVal
  brandName : JsVal
  genericName : JsVal
  dosageType : JsVal
  strength : JsVal
  unit : JsVal
  expirationDate : JsVal
  stock : JsVal
  description : JsVal
  deriving DecidableEq, Repr

/-- The handler `app.post('/api/inventory')`, at time `now`. -/
def postInventory (lib : Lib) (st : Store) (now : Nat) (body : InventoryCreateBody) :
    Response × Store :=
  if !truthy body.genericName then (⟨400, .message "Missing genericName"⟩, st)
  else
    match stockParam lib body.stock (some 0), nextval st.inventorySeq with
    | .ok s, .ok id =>
      let r : InventoryItem :=
        { id := id
          category := pgText lib (orNull body.category)
          brand_name := pgText lib (orNull body.brandName)
          generic_name := jsTrim (jsString lib body.genericName)
          dosage_type := pgText lib (orNull body.dosageType)
          strength := pgText lib (orNull body.strength)
          unit := pgText lib (orNull body.unit)
          expiration_date := pgText lib (orNull body.expirationDate)
          stock := s
          description := pgText lib (orNull body.description)
          created_at := now }
      if st.inventory.any (fun x => x.id == id) then
        (serverError, { st with inventorySeq := id })
      else
        (⟨201, .row (inventoryJson r)⟩,
         { st with inventorySeq := id, inventory := st.inventory ++ [r] })
    | _, _ => (serverError, st)

/-! ## User handlers -/

/-- The expression `String(email).toLowerCase().trim()`. -/
def normalizeEmail (lib : Lib) (email : String) : String := jsTrim (lib.toLowerCase email)

/-- The body `{ message: err?.message || "Server error" }` of the user
handlers' `catch` blocks. -/
def errorResponse (lib : Lib) (e : Thrown) : Response :=
  ⟨500, .message (if lib.errorMessage e != "" then lib.errorMessage e else "Server error")⟩

/-- The rows `SELECT id FROM users WHERE email = $1` finds: whether there
is one. -/
def emailExists (users : List User) (email : String) : Bool :=
  users.any (fun u => u.email == some email)

/-- An INSERT into `users`: `id` is the PRIMARY KEY and `email` is UNIQUE. -/
def insertUser (users : List User) (u : User) : Except Thrown (List User) :=
  if users.any (fun x => x.id == u.id) then .error .uniqueViolation
  else if u.email.isSome && users.any (fun x => x.email == u.email) then .error .uniqueViolation
  else .ok (users ++ [u])

/-- The fields `POST /api/users` reads from the body. -/
structure UserCreateBody where
  name : JsVal
  email : JsVal
  role : JsVal
  active : JsVal
  password : JsVal
  deriving DecidableEq, Repr

/-- The RETURNING list `id, full_name AS name, role, email, active`. -/
def userJson (u : User) : List (String × JsVal) :=
  [("id", .num (.int u.id)), ("name", jsText u.full_name), ("role", jsText u.role),
   ("email", jsText u.email), ("active", jsBool u.active)]

/-- The parameter `Boolean(active)` after the default `active = true` of the
destructuring, which applies to `undefined` only. -/
def activeParam : JsVal → Bool
  | .undefined => true
  | v => truthy v

/-- The handler `app.post("/api/users")`, at time `now`. -/
def postUsers (lib : Lib) (st : Store) (now : Nat) (body : UserCreateBody) : Response × Store :=
  if !truthy body.name || !truthy body.email || !truthy body.role || !truthy body.password then
    (⟨400, .message "Missing required fields"⟩, st)
  else
    let normalizedEmail := normalizeEmail lib (jsString lib body.email)
    if emailExists st.users normalizedEmail then
      (⟨409, .message "Email already exists"⟩, st)
    else
      match nextval st.usersSeq with
      | .error e => (errorResponse lib e, st)
      | .ok id =>
        let u : User :=
          { id := id
            full_name := pgText lib body.name
            role := pgText lib body.role
            email := some normalizedEmail
            password_hash := some (lib.bcryptHash (jsString lib body.password))
            created_at := now
            active := some (activeParam body.active)
            phone := none, address := none, birthdate := none, gender := none }
        match insertUser st.users u with
        | .error e => (errorResponse lib e, { st with usersSeq := id })
        | .ok users => (⟨201, .row (userJson u)⟩, { st with usersSeq := id, users := users })

/-- The fields `POST /api/register` reads from the body. -/
structure RegisterBody where
  fullName : JsVal
  role : JsVal
  email : JsVal
  password : JsVal
  deriving DecidableEq, Repr

/-- The RETURNING list `id, full_name, role, email, created_at`. -/
def registeredJson (u : User) : List (String × JsVal) :=
  [("id", .num (.int u.id)), ("full_name", jsText u.full_name), ("role", jsText u.role),
   ("email", jsText u.email), ("created_at", jsTime u.created_at)]

/-- The handler `app.post("/api/register")`, at time `now`.  The calls
`email.toLowerCase()` and `bcrypt.hash(password, 10)` throw when their
argument is not a string. -/
def postRegister (lib : Lib) (st : Store) (now : Nat) (body : RegisterBody) : Response × Store :=
  if !truthy body.fullName || !truthy body.role || !truthy body.email || !truthy body.password then
    (⟨400, .failure "Missing required fields"⟩, st)
  else
    match body.email with
    | .str email =>
      let normalizedEmail := normalizeEmail lib email
      if emailExists st.users normalizedEmail then
        (⟨409, .failure "Email already registered"⟩, st)
      else
        match body.password with
        | .str password =>
          match nextval st.usersSeq with
          | .error _ => (⟨500, .failure "Server error"⟩, st)
          | .ok id =>
            let u : User :=
              { id := id
                full_name := pgText lib body.fullName
                role := pgText lib body.role
                email := some normalizedEmail
                password_hash := some (lib.bcryptHash password)
                created_at := now
                active := some true
                phone := none, address := none, birthdate := none, gender := none }
            match insertUser st.users u with
            | .error _ => (⟨500, .failure "Server error"⟩, { st with usersSeq := id })
            | .ok users => (⟨200, .user (registeredJson u)⟩, { st with usersSeq := id, users := users })
        | _ => (⟨500, .failure "Server error"⟩, st)
    | _ => (⟨500, .failure "Server error"⟩, st)

/-- A request that creates a user, through either route. -/
inductive CreateRequest where
  | users (body : UserCreateBody)
  | register (body : RegisterBody)
  deriving DecidableEq, Repr

/-- The handler a user-creating request reaches. -/
def createUser (lib : Lib) (st : Store) (now : Nat) : CreateRequest → Response × Store
  | .users body => postUsers lib st now body
  | .register body => postRegister lib st now body

/-- The email field of a user-creating request. -/
def CreateRequest.email : CreateRequest → JsVal
  | .users body => body.email
  | .register body => body.email

/-- The required fields of the request are present: none of them is falsy,
so the handler's first test does not answer 400. -/
def CreateRequest.requiredPresent : CreateRequest → Bool
  | .users body =>
    truthy body.name && truthy body.email && truthy body.role && truthy body.password
  | .register body =>
    truthy body.fullName && truthy body.role && truthy body.email && truthy body.password

/-- The request was answered with the created user: 201 from
`POST /api/users`, 200 from `POST /api/register`. -/
def created (r : Response) : Bool := r.status == 201 || r.status == 200

/-! ## Mirrored writes -/

/-- What a handler with a mirror write produces: the response, the store
afterwards, and whether a statement of the mirror `try` block threw. -/
structure Outcome where
  resp : Response
  store : Store
  mirrorFailed : Bool
  deriving DecidableEq, Repr

/-- A mirror statement, the `k`-th of its handler, under the failure
schedule `fault`: it throws when the schedule says so, and otherwise does
what the statement does. -/
def mirrorStatement {α : Type} (fault : Nat → Bool) (k : Nat) (run : Except Thrown α) :
    Except Thrown α :=
  if fault k then .error .injected else run

/-! ## Appointment handlers -/

/-- The fields the appointment handlers read from the body. -/
structure AppointmentBody where
  patient : JsVal
  date : JsVal
  time : JsVal
  notes : JsVal
  done : JsVal
  createdByName : JsVal
  deriving DecidableEq, Repr

/-- The RETURNING list of the appointment statements. -/
def appointmentJson (a : Appointment) : List (String × JsVal) :=
  [("id", .num (.int a.id)), ("patient", .str a.patient), ("date", .str a.date),
   ("time", .str a.time), ("notes", jsText a.notes), ("done", jsBool a.done),
   ("created_by_name", jsText a.created_by_name), ("created_at", jsTime a.created_at)]

/-- The mirror status of a completion flag: `flag ? 'done' : 'pending'`. -/
def statusOf (flag : Bool) : String := if flag then "done" else "pending"

/-- An INSERT into `appointments`: `id` is the PRIMARY KEY. -/
def insertAppointment (rows : List Appointment) (a : Appointment) :
    Except Thrown (List Appointment) :=
  if rows.any (fun x => x.id == a.id) then .error .uniqueViolation else .ok (rows ++ [a])

/-- An INSERT into `appointment`: `appointment_id` is UNIQUE. -/
def insertMirror (rows : List AppointmentMirror) (m : AppointmentMirror) :
    Except Thrown (List AppointmentMirror) :=
  if m.appointment_id.isSome && rows.any (fun x => x.appointment_id == m.appointment_id) then
    .error .uniqueViolation
  else .ok (rows ++ [m])

/-- The parameter `Boolean(done)` after the default `done = false` of the
destructuring. -/
def doneParam : JsVal → Bool
  | .undefined => false
  | v => truthy v

/-- The parameter `v ? String(v).trim() : null`. -/
def trimOrNull (lib : Lib) (v : JsVal) : Option String :=
  if truthy v then some (jsTrim (jsString lib v)) else none

/-- The handler `app.post('/api/appointments')`, at time `now`. -/
def postAppointment (lib : Lib) (fault : Nat → Bool) (st : Store) (now : Nat)
    (body : AppointmentBody) : Outcome :=
  if !truthy body.patient || !truthy body.date || !truthy body.time then
    ⟨⟨400, .message "Missing required fields"⟩, st, false⟩
  else
    match nextval st.appointmentsSeq with
    | .error _ => ⟨serverError, st, false⟩
    | .ok id =>
      let a : Appointment :=
        { id := id
          patient := jsTrim (jsString lib body.patient)
          date := jsTrim (jsString lib body.date)
          time := jsTrim (jsString lib body.time)
          notes := pgText lib (orNull body.notes)
          done := some (doneParam body.done)
          created_by_name := trimOrNull lib body.createdByName
          created_at := now }
      match insertAppointment st.appointments a with
      | .error _ => ⟨serverError, { st with appointmentsSeq := id }, false⟩
      | .ok rows =>
        let st1 : Store := { st with appointmentsSeq := id, appointments := rows }
        let m : AppointmentMirror :=
          { full_name := some (jsTrim (jsString lib body.patient))
            date := some (jsTrim (jsString lib body.date))
            time := some (jsTrim (jsString lib body.time))
            status := some (statusOf (doneParam body.done))
            appointment_id := some id }
        match mirrorStatement fault 0 (insertMirror st1.appointment m) with
        | .ok mirror => ⟨⟨201, .row (appointmentJson a)⟩, { st1 with appointment := mirror }, false⟩
        | .error _ => ⟨⟨201, .row (appointmentJson a)⟩, st1, true⟩

/-- The parameter `typeof done === 'boolean' ? done : null`. -/
def boolOrNull : JsVal → Option Bool
  | .bool b => some b
  | _ => none

/-- The SET list of the primary appointment UPDATE on one row. -/
def setAppointment (lib : Lib) (body : AppointmentBody) (a : Appointment) : Appointment :=
  { a with
    patient := (pgText lib body.patient).getD a.patient
    date := (pgText lib body.date).getD a.date
    time := (pgText lib body.time).getD a.time
    notes := coalesce (pgText lib body.notes) a.notes
    done := coalesce (boolOrNull body.done) a.done
    created_by_name := coalesce (pgText lib body.createdByName) a.created_by_name }

/-- The SET list of the mirror UPDATE on one row, from the updated primary
row. -/
def setMirror (updated : Appointment) (m : AppointmentMirror) : AppointmentMirror :=
  { m with
    full_name := coalesce (some updated.patient) m.full_name
    date := coalesce (some updated.date) m.date
    time := coalesce (some updated.time) m.time
    status := some (statusOf (updated.done == some true)) }

/-- The handler `app.put('/api/appointments/:id')`. -/
def putAppointment (lib : Lib) (fault : Nat → Bool) (st : Store) (id : Int)
    (body : AppointmentBody) : Outcome :=
  match pgId id with
  | .error _ => ⟨serverError, st, false⟩
  | .ok i =>
    let st1 : Store :=
      { st with appointments := updateRows (fun a => a.id == i) (setAppointment lib body) st.appointments }
    match returning (fun a => a.id == i) (setAppointment lib body) st.appointments with
    | [] => ⟨⟨404, .message "Appointment not found"⟩, st1, false⟩
    | updated :: _ =>
      let run : Except Thrown (List AppointmentMirror) :=
        match pgId updated.id with
        | .error e => .error e
        | .ok k =>
          .ok (updateRows (fun m => m.appointment_id == some k) (setMirror updated) st1.appointment)
      match mirrorStatement fault 0 run with
      | .ok mirror => ⟨⟨200, .row (appointmentJson updated)⟩, { st1 with appointment := mirror }, false⟩
      | .error _ => ⟨⟨200, .row (appointmentJson updated)⟩, st1, true⟩

/-- The handler `app.delete('/api/appointments/:id')`. -/
def deleteAppointment (fault : Nat → Bool) (st : Store) (id : Int) : Outcome :=
  match pgId id with
  | .error _ => ⟨serverError, st, false⟩
  | .ok i =>
    if st.appointments.all (fun a => a.id != i) then
      ⟨⟨404, .message "Appointment not found"⟩, st, false⟩
    else
      let st1 : Store := { st with appointments := st.appointments.filter (fun a => a.id != i) }
      let run : Except Thrown (List AppointmentMirror) :=
        .ok (st1.appointment.filter (fun m => m.appointment_id != some i))
      match mirrorStatement fault 0 run with
      | .ok mirror => ⟨⟨204, .empty⟩, { st1 with appointment := mirror }, false⟩
      | .error _ => ⟨⟨204, .empty⟩, st1, true⟩

/-- A request to one of the three appointment handlers. -/
inductive AppointmentRequest where
  | create (now : Nat) (body : AppointmentBody)
  | update (id : Int) (body : AppointmentBody)
  | delete (id : Int)
  deriving DecidableEq, Repr

/-- The handler an appointment request reaches. -/
def appointmentStep (lib : Lib) (fault : Nat → Bool) (st : Store) : AppointmentRequest → Outcome
  | .create now body => postAppointment lib fault st now body
  | .update id body => putAppointment lib fault st id body
  | .delete id => deleteAppointment fault st id

/-- The mirror row that corresponds to a primary row. -/
def mirrorOf (a : Appointment) : AppointmentMirror :=
  { full_name := some a.patient, date := some a.date, time := some a.time,
    status := some (statusOf (a.done == some true)), appointment_id := some a.id }

/-- The stores reached from empty `appointments` and `appointment` tables by
successful appointment requests in which no mirror statement failed. -/
inductive AppointmentsReachable (lib : Lib) : Store → Prop where
  | start (st : Store) (h1 : st.appointments = []) (h2 : st.appointment = []) :
      AppointmentsReachable lib st
  | step (st : Store) (fault : Nat → Bool) (req : AppointmentRequest)
      (h : AppointmentsReachable lib st)
      (hok : (appointmentStep lib fault st req).resp.status < 300)
      (hmirror : (appointmentStep lib fault st req).mirrorFailed = false) :
      AppointmentsReachable lib (appointmentStep lib fault st req).store

/-- Mirror consistency: the primary identifiers are pairwise distinct, and
the mirror rows are, up to order, exactly the rows `mirrorOf a` of the
primary rows `a`. -/
def mirrorConsistent (st : Store) : Prop :=
  (st.appointments.map (fun a => a.id)).Nodup ∧
  List.Perm st.appointment (st.appointments.map mirrorOf)

/-- No injected failure. -/
def noFault : Nat → Bool := fun _ => false

/-- Every mirror statement is made to throw. -/
def allFault : Nat → Bool := fun _ => true

/-! ## User update, lookup and deletion -/

/-- The fields `PUT /api/users/:id` reads from the body. -/
structure UserUpdateBody where
  name : JsVal
  email : JsVal
  role : JsVal
  active : JsVal
  password : JsVal
  phone : JsVal
  address : JsVal
  birthdate : JsVal
  gender : JsVal
  deriving DecidableEq, Repr

/-- The list `id, full_name AS name, role, email, active, phone, address,
birthdate, gender` the user UPDATE returns and the user lookup selects. -/
def userDetailJson (u : User) : List (String × JsVal) :=
  [("id", .num (.int u.id)), ("name", jsText u.full_name), ("role", jsText u.role),
   ("email", jsText u.email), ("active", jsBool u.active), ("phone", jsText u.phone),
   ("address", jsText u.address), ("birthdate", jsText u.birthdate),
   ("gender", jsText u.gender)]

/-- The SET list of the user UPDATE without a password on one row. -/
def setUser (lib : Lib) (body : UserUpdateBody) (u : User) : User :=
  { u with
    full_name := pgText lib body.name
    email := some (normalizeEmail lib (jsString lib body.email))
    role := pgText lib body.role
    active := coalesce (boolOrNull body.active) u.active
    phone := coalesce (pgText lib body.phone) u.phone
    address := coalesce (pgText lib body.address) u.address
    birthdate := coalesce (pgText lib body.birthdate) u.birthdate
    gender := coalesce (pgText lib body.gender) u.gender }

/-- The SET list of the user UPDATE with a password on one row: the same
and `password_hash = $5`. -/
def setUserWithPassword (lib : Lib) (body : UserUpdateBody) (u : User) : User :=
  { setUser lib body u with
    password_hash := some (lib.bcryptHash (jsString lib body.password)) }

/-- An UPDATE of `users` that sets `email`: the column is UNIQUE, so the
statement raises when it would give a row the email of another row. -/
def updateUsers (users : List User) (i : Int) (email : String) (set : User → User) :
    Except Thrown (List User × List User) :=
  if users.any (fun u => u.id == i) && users.any (fun u => u.id != i && u.email == some email) then
    .error .uniqueViolation
  else
    .ok (returning (fun u => u.id == i) set users, updateRows (fun u => u.id == i) set users)

/-- The expression `v && v.trim() ? v.trim() : null` of the profile sync: a
falsy value gives null, a string its trimmed text or null when that is
empty, and any other value has no `trim` method, so the call throws. -/
def cleanField : JsVal → Except Thrown (Option String)
  | .str s => if s != "" && jsTrim s != "" then .ok (some (jsTrim s)) else .ok none
  | v => if truthy v then .error .typeError else .ok none

/-- The SET list of the profile UPDATE on one row, at time `now`. -/
def setProfile (lib : Lib) (body : UserUpdateBody) (phone address birthdate gender : Option String)
    (now : Nat) (p : Profile) : Profile :=
  { p with
    fullname := pgText lib body.name
    email := some (normalizeEmail lib (jsString lib body.email))
    role := pgText lib body.role
    phone := coalesce phone p.phone
    address := coalesce address p.address
    birthdate := coalesce birthdate p.birthdate
    gender := coalesce gender p.gender
    last_edited := now }

/-- An INSERT into `profile`: `id` is the PRIMARY KEY. -/
def insertProfile (rows : List Profile) (p : Profile) : Except Thrown (List Profile) :=
  if rows.any (fun x => x.id == p.id) then .error .uniqueViolation else .ok (rows ++ [p])

/-- The `try` block "Also sync to profile table" of `PUT /api/users/:id`:
the `profile` table afterwards, or what the block threw. -/
def syncProfile (lib : Lib) (fault : Nat → Bool) (profile : List Profile) (now : Nat) (id : Int)
    (body : UserUpdateBody) : Except Thrown (List Profile) :=
  let select : Except Thrown Bool :=
    match pgId id with
    | .error e => .error e
    | .ok i => .ok (profile.any (fun p => p.id == i))
  match mirrorStatement fault 0 select with
  | .error e => .error e
  | .ok profileExists =>
    match cleanField body.phone, cleanField body.address, cleanField body.birthdate,
      cleanField body.gender with
    | .ok phone, .ok address, .ok birthdate, .ok gender =>
      if profileExists then
        mirrorStatement fault 1
          (.ok (updateRows (fun p => p.id == id)
            (setProfile lib body phone address birthdate gender now) profile))
      else
        mirrorStatement fault 1
          (insertProfile profile
            { id := id
              fullname := pgText lib body.name
              email := some (normalizeEmail lib (jsString lib body.email))
              role := pgText lib body.role
              phone := phone, address := address, birthdate := birthdate, gender := gender
              created_at := now, last_edited := now })
    | _, _, _, _ => .error .typeError

/-- The handler `app.put("/api/users/:id")`, at time `now`. -/
def putUser (lib : Lib) (fault : Nat → Bool) (st : Store) (now : Nat) (id : Int)
    (body : UserUpdateBody) : Outcome :=
  if !truthy body.name || !truthy body.email || !truthy body.role then
    ⟨⟨400, .message "Missing required fields"⟩, st, false⟩
  else
    let normalizedEmail := normalizeEmail lib (jsString lib body.email)
    let result : Except Thrown (List User × List User) :=
      match pgId id with
      | .error e => .error e
      | .ok i =>
        if truthy body.password then
          updateUsers st.users i normalizedEmail (setUserWithPassword lib body)
        else
          updateUsers st.users i normalizedEmail (setUser lib body)
    match result with
    | .error e => ⟨errorResponse lib e, st, false⟩
    | .ok ([], users) => ⟨⟨404, .message "User not found"⟩, { st with users := users }, false⟩
    | .ok (u :: _, users) =>
      let st1 : Store := { st with users := users }
      match syncProfile lib fault st1.profile now id body with
      | .ok profile => ⟨⟨200, .row (userDetailJson u)⟩, { st1 with profile := profile }, false⟩
      | .error _ => ⟨⟨200, .row (userDetailJson u)⟩, st1, true⟩

/-- The list `id, fullname AS name, role, email, phone, address, birthdate,
gender` the user lookup selects from `profile`. -/
def profileJson (p : Profile) : List (String × JsVal) :=
  [("id", .num (.int p.id)), ("name", jsText p.fullname), ("role", jsText p.role),
   ("email", jsText p.email), ("phone", jsText p.phone), ("address", jsText p.address),
   ("birthdate", jsText p.birthdate), ("gender", jsText p.gender)]

/-- The handler `app.get("/api/users/:id")`: the profile table first, then
the users table. -/
def getUser (st : Store) (id : Int) : Response :=
  match pgId id with
  | .error _ => ⟨500, .message "Database error"⟩
  | .ok i =>
    match st.profile.filter (fun p => p.id == i) with
    | p :: _ => ⟨200, .row (profileJson p)⟩
    | [] =>
      match st.users.filter (fun u => u.id == i) with
      | u :: _ => ⟨200, .row (userDetailJson u)⟩
      | [] => ⟨404, .message "User not found"⟩

/-- The handler `app.delete("/api/users/:id")`. -/
def deleteUser (st : Store) (id : Int) : Response × Store :=
  match pgId id with
  | .error _ => (serverError, st)
  | .ok i =>
    if st.users.all (fun u => u.id != i) then (⟨404, .message "User not found"⟩, st)
    else (⟨204, .empty⟩, { st with users := st.users.filter (fun u => u.id != i) })

/-! ## User listing, activation and login -/

/-- One step of `ORDER BY id DESC`: the row is placed before the first row
whose identifier is not greater. -/
def insertById (u : User) : List User → List User
  | [] => [u]
  | v :: vs => if v.id ≤ u.id then u :: v :: vs else v :: insertById u vs

/-- The rows of `users` in the order `ORDER BY id DESC`. -/
def sortByIdDesc (users : List User) : List User := users.foldr insertById []

/-- The list `id, full_name, role, email, active, created_at` of `GET /users`. -/
def legacyUserJson (u : User) : List (String × JsVal) :=
  [("id", .num (.int u.id)), ("full_name", jsText u.full_name), ("role", jsText u.role),
   ("email", jsText u.email), ("active", jsBool u.active), ("created_at", jsTime u.created_at)]

/-- The handler `app.get("/users")`. -/
def getUsers (st : Store) : Response :=
  ⟨200, .rows ((sortByIdDesc st.users).map legacyUserJson)⟩

/-- The handler `app.get("/api/users")`. -/
def listUsers (st : Store) : Response :=
  ⟨200, .rows ((sortByIdDesc st.users).map userJson)⟩

/-- The field `PATCH /api/users/:id/active` reads from the body. -/
structure ActiveBody where
  active : JsVal
  deriving DecidableEq, Repr

/-- The handler `app.patch("/api/users/:id/active")`. -/
def patchActive (st : Store) (id : Int) (body : ActiveBody) : Response × Store :=
  match body.active with
  | .bool b =>
    match pgId id with
    | .error _ => (serverError, st)
    | .ok i =>
      let st1 : Store :=
        { st with users :=
            (updateRows (fun u => u.id == i) (fun u => { u with active := some b }) st.users) }
      match returning (fun u => u.id == i) (fun u : User => { u with active := some b })
          st.users with
      | [] => (⟨404, .message "User not found"⟩, st1)
      | u :: _ => (⟨200, .row (userJson u)⟩, st1)
  | _ => (⟨400, .message "\x27active\x27 must be boolean"⟩, st)

/-- The fields `POST /api/login` reads from the body. -/
structure LoginBody where
  email : JsVal
  password : JsVal
  deriving DecidableEq, Repr

/-- A row of `SELECT * FROM users` as a JavaScript object. -/
def fullUserJson (u : User) : List (String × JsVal) :=
  [("id", .num (.int u.id)), ("full_name", jsText u.full_name), ("role", jsText u.role),
   ("email", jsText u.email), ("password_hash", jsText u.password_hash),
   ("created_at", jsTime u.created_at), ("active", jsBool u.active),
   ("phone", jsText u.phone), ("address", jsText u.address),
   ("birthdate", jsText u.birthdate), ("gender", jsText u.gender)]

/-- The statement `delete obj[key]`. -/
def deleteKey (key : String) (fields : List (String × JsVal)) : List (String × JsVal) :=
  fields.filter (fun f => f.1 != key)

/-- The call `bcrypt.compare(password, hash)`, with `compare` the
verification on strings: it rejects (`none`) unless both arguments are
strings. -/
def checkPassword (compare : String → String → Bool) (password : JsVal)
    (hash : Option String) : Option Bool :=
  match password, hash with
  | .str pw, some h => some (compare pw h)
  | _, _ => none

/-- The handler `app.post("/api/login")`.  The call `email.toLowerCase()`
throws when the email is not a string. -/
def login (lib : Lib) (compare : String → String → Bool) (st : Store) (body : LoginBody) :
    Response :=
  if !truthy body.email || !truthy body.password then
    ⟨400, .failure "Missing email or password"⟩
  else
    match body.email with
    | .str email =>
      match st.users.filter (fun u => u.email == some (normalizeEmail lib email)) with
      | [] => ⟨401, .failure "Invalid credentials"⟩
      | user :: _ =>
        if user.active == some false then
          ⟨403, .failure "Account is disabled. Contact an administrator."⟩
        else
          match checkPassword compare body.password user.password_hash with
          | none => ⟨500, .failure "Server error"⟩
          | some false => ⟨401, .failure "Invalid credentials"⟩
          | some true => ⟨200, .user (deleteKey "password_hash" (fullUserJson user))⟩
    | _ => ⟨500, .failure "Server error"⟩

/-- The keys of the JSON object, or of the objects of the JSON array, a
body consists of; the object under `user` is included. -/
def bodyKeys : Body → List String
  | .empty => []
  | .message _ => ["message"]
  | .failure _ => ["success", "message"]
  | .row fields => fields.map (fun f => f.1)
  | .rows rs => rs.foldr (fun fields acc => fields.map (fun f => f.1) ++ acc) []
  | .user fields => "success" :: "user" :: fields.map (fun f => f.1)

/-- The user row with its password hash replaced by `h`. -/
def setHash (h : User → Option String) (u : User) : User := { u with password_hash := h u }

/-- The store with the password hash of every user replaced by `h`. -/
def withHashes (h : User → Option String) (st : Store) : Store :=
  { st with users := st.users.map (setHash h) }

/-- A verification for the examples: the hash is the tagged password. -/
def demoCompare (password hash : String) : Bool := hash == "$2a$10$" ++ password

/-! ## Patient records -/

/-- The fields `PUT /api/patient-records/latest` reads from the body. -/
structure MergeBody where
  patient : JsVal
  doctor : JsVal
  medicine : JsVal
  dosage : JsVal
  notes : JsVal
  date : JsVal
  time : JsVal
  deriving DecidableEq, Repr

/-- The RETURNING list of the patient-record statements. -/
def recordJson (r : PatientRecord) : List (String × JsVal) :=
  [("id", .num (.int r.id)), ("patient", .str r.patient), ("date", jsText r.date),
   ("time", jsText r.time), ("notes", jsText r.notes), ("doctor", jsText r.doctor),
   ("medicine", jsText r.medicine), ("dosage", jsText r.dosage),
   ("created_at", jsTime r.created_at)]

/-- The subquery
`SELECT id FROM patient_records WHERE patient = $1 ORDER BY created_at DESC LIMIT 1`:
a row of the patient with the greatest `created_at`, the first such row in
table order. -/
def latestRecord (rows : List PatientRecord) (patient : String) : Option PatientRecord :=
  (rows.filter (fun r => r.patient == patient)).foldl
    (fun best r =>
      match best with
      | none => some r
      | some b => if b.created_at < r.created_at then some r else some b)
    none

/-- The SET list of the merge UPDATE on one row. -/
def setRecord (lib : Lib) (body : MergeBody) (r : PatientRecord) : PatientRecord :=
  { r with
    doctor := coalesce (pgText lib body.doctor) r.doctor
    medicine := coalesce (pgText lib body.medicine) r.medicine
    dosage := coalesce (pgText lib body.dosage) r.dosage
    notes := coalesce (pgText lib body.notes) r.notes
    date := coalesce (pgText lib body.date) r.date
    time := coalesce (pgText lib body.time) r.time }

/-- An INSERT into `patient_records`: `id` is the PRIMARY KEY. -/
def insertRecord (rows : List PatientRecord) (r : PatientRecord) :
    Except Thrown (List PatientRecord) :=
  if rows.any (fun x => x.id == r.id) then .error .uniqueViolation else .ok (rows ++ [r])

/-- The handler `app.put('/api/patient-records/latest')`, at time `now`. -/
def mergeLatest (lib : Lib) (st : Store) (now : Nat) (body : MergeBody) : Response × Store :=
  if !truthy body.patient then (⟨400, .message "Missing patient"⟩, st)
  else
    let patient := jsTrim (jsString lib body.patient)
    let latest := (latestRecord st.patient_records patient).map (fun r => r.id)
    let st1 : Store :=
      { st with patient_records :=
          updateRows (fun r => some r.id == latest) (setRecord lib body) st.patient_records }
    match returning (fun r => some r.id == latest) (setRecord lib body) st.patient_records with
    | r :: _ => (⟨200, .row (recordJson r)⟩, st1)
    | [] =>
      match nextval st1.patientRecordsSeq with
      | .error _ => (serverError, st1)
      | .ok id =>
        let r : PatientRecord :=
          { id := id
            patient := patient
            date := pgText lib body.date
            time := pgText lib body.time
            notes := pgText lib body.notes
            doctor := pgText lib body.doctor
            medicine := pgText lib body.medicine
            dosage := pgText lib body.dosage
            created_at := now }
        match insertRecord st1.patient_records r with
        | .error _ => (serverError, { st1 with patientRecordsSeq := id })
        | .ok rows => (⟨200, .row (recordJson r)⟩, { st1 with patientRecordsSeq := id, patient_records := rows })

/-- The patient records stored under the name `patient`. -/
def recordsOf (st : Store) (patient : String) : List PatientRecord :=
  st.patient_records.filter (fun r => r.patient == patient)

/-! ## Schema reconciliation -/

/-- The key a column declaration carries. -/
inductive ColumnKey where
  | none
  | unique
  | primaryKey
  deriving DecidableEq, Repr

/-- A column declaration of a CREATE TABLE or ADD COLUMN statement. -/
structure ColumnDef where
  name : String
  sqlType : String
  dflt : Option String
  notNull : Bool
  key : ColumnKey
  deriving DecidableEq, Repr

/-- A column of a live table. -/
structure Column where
  name : String
  sqlType : String
  dflt : Option String
  notNull : Bool
  deriving DecidableEq, Repr

/-- A row of a live table: each column name with its value, `none` for
NULL. -/
abbrev SchemaRow := List (String × Option String)

/-- A live table: its columns, the names of its constraints and its rows. -/
structure Table where
  name : String
  columns : List Column
  constraints : List String
  rows : List SchemaRow
  deriving DecidableEq, Repr

/-- The live schema. -/
abbrev Schema := List Table

/-- The statements the reconciler issues. -/
inductive Ddl where
  | createTable (table : String) (columns : List ColumnDef)
  | addColumn (table : String) (column : ColumnDef)
  | dropConstraint (table : String) (constraint : String)
  deriving DecidableEq, Repr

/-- Why a reconciliation statement raised: the table it alters does not
exist, or a reason outside the schema (permissions, concurrent DDL). -/
inductive DdlError where
  | undefinedTable
  | injected
  deriving DecidableEq, Repr

/-- The column a declaration creates. -/
def ColumnDef.column (c : ColumnDef) : Column :=
  { name := c.name, sqlType := c.sqlType, dflt := c.dflt, notNull := c.notNull }

/-- The constraints PostgreSQL names for a declaration in table `t`:
`t_pkey` for a PRIMARY KEY, `t_c_key` for a UNIQUE column `c`. -/
def columnConstraints (t : String) (c : ColumnDef) : List String :=
  match c.key with
  | .none => []
  | .unique => [t ++ "_" ++ c.name ++ "_key"]
  | .primaryKey => [t ++ "_pkey"]

/-- Whether a table named `t` exists. -/
def hasTable (s : Schema) (t : String) : Bool := s.any (fun tb => tb.name == t)

/-- Whether the table has a column named `c`. -/
def hasColumn (tb : Table) (c : String) : Bool := tb.columns.any (fun x => x.name == c)

/-- The table after `ADD COLUMN`: the column is appended, its constraints
are added, and every existing row gets the default. -/
def addColumnTo (tb : Table) (c : ColumnDef) : Table :=
  { tb with
    columns := tb.columns ++ [c.column]
    constraints := tb.constraints ++ columnConstraints tb.name c
    rows := tb.rows.map (fun r => r ++ [(c.name, c.dflt)]) }

/-- The effect of `ALTER TABLE t ADD COLUMN IF NOT EXISTS c` on one table:
a table named `t` that lacks the column gets it. -/
def addColumnIfMissing (t : String) (c : ColumnDef) (tb : Table) : Table :=
  if tb.name == t && !hasColumn tb c.name then addColumnTo tb c else tb

/-- The effect of `ALTER TABLE t DROP CONSTRAINT IF EXISTS k` on one table:
a table named `t` loses the constraint. -/
def dropConstraintIn (t k : String) (tb : Table) : Table :=
  if tb.name == t then { tb with constraints := tb.constraints.filter (fun x => x != k) }
  else tb

/-- One reconciliation statement on the schema.  `CREATE TABLE IF NOT
EXISTS` does nothing when the table exists; `ALTER TABLE` raises when the
table does not exist; `ADD COLUMN IF NOT EXISTS` does nothing when the
column exists; `DROP CONSTRAINT IF EXISTS` does nothing when the constraint
does not exist. -/
def exec : Ddl → Schema → Except DdlError Schema
  | .createTable t cols, s =>
    if hasTable s t then .ok s
    else
      .ok (s ++ [{ name := t, columns := cols.map ColumnDef.column,
                   constraints := cols.foldr (fun c acc => columnConstraints t c ++ acc) [],
                   rows := [] }])
  | .addColumn t c, s =>
    if hasTable s t then .ok (s.map (addColumnIfMissing t c)) else .error .undefinedTable
  | .dropConstraint t k, s =>
    if hasTable s t then .ok (s.map (dropConstraintIn t k)) else .error .undefinedTable

/-- A statement of a reconciliation block; `guarded` when the statement has
a `try`/`catch` of its own inside the block. -/
structure Step where
  ddl : Ddl
  guarded : Bool
  deriving DecidableEq, Repr

/-- A nullable column without default or key. -/
def plainColumn (name sqlType : String) : ColumnDef :=
  { name := name, sqlType := sqlType, dflt := none, notNull := false, key := .none }

/-- The column `id SERIAL PRIMARY KEY`. -/
def serialKey : ColumnDef :=
  { name := "id", sqlType := "SERIAL", dflt := none, notNull := true, key := .primaryKey }

/-- The column `created_at TIMESTAMP WITH TIME ZONE DEFAULT NOW()`. -/
def createdAt : ColumnDef :=
  { name := "created_at", sqlType := "TIMESTAMP WITH TIME ZONE", dflt := some "NOW()",
    notNull := false, key := .none }

/-- A statement `ALTER TABLE t ADD COLUMN IF NOT EXISTS c TEXT` of the
`try` block. -/
def addText (t c : String) : Step := ⟨.addColumn t (plainColumn c "TEXT"), false⟩

/-- The statements of the `try` block of `ensureSchema`, in order. -/
def ensureSchemaSteps : List Step :=
  [ ⟨.createTable "users"
      [serialKey, plainColumn "full_name" "TEXT", plainColumn "role" "TEXT",
       { plainColumn "email" "TEXT" with key := .unique },
       plainColumn "password_hash" "TEXT", createdAt], false⟩,
    ⟨.addColumn "users" { plainColumn "active" "BOOLEAN" with dflt := some "TRUE" }, false⟩,
    addText "users" "password_hash",
    ⟨.dropConstraint "users" "users_role_key", true⟩,
    addText "users" "phone",
    addText "users" "address",
    addText "users" "birthdate",
    addText "users" "gender",
    ⟨.createTable "appointments"
      [serialKey, { plainColumn "patient" "TEXT" with notNull := true },
       { plainColumn "date" "TEXT" with notNull := true },
       { plainColumn "time" "TEXT" with notNull := true },
       plainColumn "notes" "TEXT",
       { plainColumn "done" "BOOLEAN" with dflt := some "FALSE" },
       plainColumn "created_by_name" "TEXT", createdAt], false⟩,
    addText "appointments" "created_by_name",
    ⟨.createTable "appointment"
      [plainColumn "full_name" "TEXT", plainColumn "date" "TEXT", plainColumn "time" "TEXT",
       plainColumn "status" "TEXT",
       { plainColumn "appointment_id" "INTEGER" with key := .unique }], false⟩,
    addText "appointment" "date",
    addText "appointment" "time",
    addText "appointment" "status",
    ⟨.addColumn "appointment" { plainColumn "appointment_id" "INTEGER" with key := .unique },
      false⟩,
    ⟨.createTable "inventory"
      [serialKey, plainColumn "category" "TEXT", plainColumn "brand_name" "TEXT",
       { plainColumn "generic_name" "TEXT" with notNull := true },
       plainColumn "dosage_type" "TEXT", plainColumn "strength" "TEXT",
       plainColumn "unit" "TEXT", plainColumn "expiration_date" "TEXT",
       { plainColumn "stock" "INTEGER" with dflt := some "0" },
       plainColumn "description" "TEXT", createdAt], false⟩,
    ⟨.addColumn "inventory" { plainColumn "stock" "INTEGER" with dflt := some "0" }, false⟩,
    ⟨.createTable "profile"
      [serialKey, plainColumn "fullname" "TEXT", plainColumn "role" "TEXT",
       plainColumn "email" "TEXT", plainColumn "phone" "TEXT", plainColumn "address" "TEXT",
       plainColumn "gender" "TEXT", plainColumn "birthdate" "TEXT", createdAt,
       { createdAt with name := "last_edited" }], false⟩ ]

/-- The statements of the `try` block that ensures `patient_records`, in
order. -/
def patientRecordsSteps : List Step :=
  [ ⟨.createTable "patient_records"
      [serialKey, { plainColumn "patient" "TEXT" with notNull := true },
       plainColumn "date" "TEXT", plainColumn "time" "TEXT", plainColumn "notes" "TEXT",
       plainColumn "doctor" "TEXT", plainColumn "medicine" "TEXT", plainColumn "dosage" "TEXT",
       createdAt], false⟩,
    addText "patient_records" "doctor",
    addText "patient_records" "medicine",
    addText "patient_records" "dosage" ]

/-- The `k`-th statement of a run under the failure schedule `fault`. -/
def execAt (fault : Nat → Bool) (k : Nat) (d : Ddl) (s : Schema) : Except DdlError Schema :=
  if fault k then .error .injected else exec d s

/-- What a `try` block of statements leaves: the schema, the statements
attempted (by number, with whether each succeeded) and the error that left
the block, if one did. -/
structure BlockRun where
  schema : Schema
  trace : List (Nat × Bool)
  thrown : Option DdlError
  deriving DecidableEq, Repr

/-- A `try` block whose statements are numbered from `k`: the statements
run in order; a failing guarded statement is caught on the spot and the
block goes on; a failing unguarded statement leaves the block. -/
def runBlock (fault : Nat → Bool) : Nat → List Step → Schema → BlockRun
  | _, [], s => ⟨s, [], none⟩
  | k, step :: rest, s =>
    match execAt fault k step.ddl s with
    | .ok s1 =>
      let r := runBlock fault (k + 1) rest s1
      ⟨r.schema, (k, true) :: r.trace, r.thrown⟩
    | .error e =>
      if step.guarded then
        let r := runBlock fault (k + 1) rest s
        ⟨r.schema, (k, false) :: r.trace, r.thrown⟩
      else ⟨s, [(k, false)], some e⟩

/-- What a reconciliation leaves: the schema, the statements attempted, and
the error that reached the caller, if one did. -/
structure Reconciled where
  schema : Schema
  trace : List (Nat × Bool)
  escaped : Option DdlError
  deriving DecidableEq, Repr

/-- The function `ensureSchema`: its `try` block, whose `catch` logs the
error and returns. -/
def ensureSchema (fault : Nat → Bool) (s : Schema) : Reconciled :=
  let r := runBlock fault 0 ensureSchemaSteps s
  match r.thrown with
  | some _ => ⟨r.schema, r.trace, none⟩
  | none => ⟨r.schema, r.trace, none⟩

/-- The reconciliation at start-up: `ensureSchema` is awaited, then the
block that ensures `patient_records` runs, its `catch` logging the error;
its statements are numbered after those of `ensureSchema`. -/
def reconcile (fault : Nat → Bool) (s : Schema) : Reconciled :=
  let first := ensureSchema fault s
  match first.escaped with
  | some e => ⟨first.schema, first.trace, some e⟩
  | none =>
    let r := runBlock fault ensureSchemaSteps.length patientRecordsSteps first.schema
    match r.thrown with
    | some _ => ⟨r.schema, first.trace ++ r.trace, none⟩
    | none => ⟨r.schema, first.trace ++ r.trace, none⟩

/-- The statements of a reconciliation, in order. -/
def reconcileStatements : List Ddl :=
  (ensureSchemaSteps ++ patientRecordsSteps).map (fun st => st.ddl)

/-- No statement of the run failed. -/
def allSucceeded (r : Reconciled) : Prop := ∀ e ∈ r.trace, e.2 = true

/-- Whether some table named `t` has a column named `c`. -/
def hasColumnIn (s : Schema) (t c : String) : Bool :=
  s.any (fun tb => tb.name == t && hasColumn tb c)

/-- The number of rows held by the tables named `t`. -/
def rowCount (s : Schema) (t : String) : Nat :=
  ((s.filter (fun tb => tb.name == t)).map (fun tb => tb.rows.length)).sum

/-- Nothing was removed between `s` and `s2`: every table and every column
of `s` is in `s2`, and every table holds as many rows as before. -/
def nothingRemoved (s s2 : Schema) : Prop :=
  (∀ t, hasTable s t = true → hasTable s2 t = true) ∧
  (∀ t c, hasColumnIn s t c = true → hasColumnIn s2 t c = true) ∧
  (∀ t, rowCount s2 t = rowCount s t)

/-- A legacy schema: a `users` table of the old shape, without `active`,
holding one row and the unique constraint on `role`. -/
def legacySchema : Schema :=
  [{ name := "users"
     columns := [⟨"id", "SERIAL", none, true⟩, ⟨"full_name", "TEXT", none, false⟩,
                 ⟨"role", "TEXT", none, false⟩, ⟨"email", "TEXT", none, false⟩]
     constraints := ["users_pkey", "users_role_key", "users_email_key"]
     rows := [[("id", some "1"), ("full_name", some "Jane Doe"), ("role", some "nurse"),
               ("email", some "jane@x.com")]] }]

/-- The schedule in which only statement `k` fails. -/
def failOnly (k : Nat) : Nat → Bool := fun j => j == k

/-- What a statement leaves true of the schema once it has run: the table
exists; every table of that name has the column; no table of that name has
the constraint. -/
def satisfied : Ddl → Schema → Bool
  | .createTable t _, s => hasTable s t
  | .addColumn t c, s =>
    hasTable s t && s.all (fun tb => tb.name != t || hasColumn tb c.name)
  | .dropConstraint t k, s =>
    hasTable s t && s.all (fun tb => tb.name != t || !tb.constraints.contains k)

/-- A later statement `d2` cannot undo what `d` left true: only an added
column whose key is named like a dropped constraint of the same table
could. -/
def noClash : Ddl → Ddl → Bool
  | .dropConstraint t k, .addColumn t2 c => !(t2 == t && (columnConstraints t2 c).contains k)
  | _, _ => true

/-- A list of statements run in order, stopping at the first that raises. -/
def execAll : List Ddl → Schema → Except DdlError Schema
  | [], s => .ok s
  | d :: ds, s =>
    match exec d s with
    | .ok s1 => execAll ds s1
    | .error e => .error e

/-- Every table named `t` has the column `c`. -/
def allHaveColumn (s : Schema) (t c : String) : Prop :=
  ∀ tb ∈ s, tb.name = t → hasColumn tb c = true

/-- No table named `t` has the constraint `k`. -/
def noneHasConstraint (s : Schema) (t k : String) : Prop :=
  ∀ tb ∈ s, tb.name = t → k ∉ tb.constraints

/-- The column `active BOOLEAN DEFAULT TRUE`. -/
def activeColumn : Column :=
  { name := "active", sqlType := "BOOLEAN", dflt := some "TRUE", notNull := false }

/-- The table has the column `active BOOLEAN DEFAULT TRUE`, has no other
column of that name, and every row holds the default in it. -/
def hasActive (tb : Table) : Prop :=
  activeColumn ∈ tb.columns ∧
  (∀ c ∈ tb.columns, c.name = "active" → c = activeColumn) ∧
  (∀ r ∈ tb.rows, ("active", some "TRUE") ∈ r)

/-- In the list of statements every `ADD COLUMN` on a table comes after a
`CREATE TABLE` of that table. -/
def createdBeforeAltered (ds : List Ddl) : Prop :=
  ∀ (i : Nat) (t : String) (c : ColumnDef), ds[i]? = some (.addColumn t c) →
    ∃ j cols, j < i ∧ ds[j]? = some (.createTable t cols)

/-- A check of `createdBeforeAltered` along the list; `made` holds the
tables created so far. -/
def createdBefore : List String → List Ddl → Bool
  | _, [] => true
  | made, .createTable t _ :: rest => createdBefore (t :: made) rest
  | made, .addColumn t _ :: rest => made.contains t && createdBefore made rest
  | made, .dropConstraint _ _ :: rest => createdBefore made rest

/-- The first inventory row with identifier `id`. -/
def findItem (st : Store) (id : Int) : Option InventoryItem :=
  st.inventory.find? (fun r => r.id == id)

/-- Every stored stock is non-negative (a NULL stock counts as none). -/
def stockNonneg (st : Store) : Prop :=
  ∀ r ∈ st.inventory, 0 ≤ r.stock.getD 0

/-- The constraints of the `inventory` table: `id` is a PRIMARY KEY of
type INTEGER. -/
def inventoryKeyed (st : Store) : Prop :=
  (st.inventory.map (fun r => r.id)).Nodup ∧ ∀ r ∈ st.inventory, inInt4 r.id = true

/-- A library for the examples: decimal text of small integers, ASCII
lower-casing, and a hash that tags its input. -/
def demoLib : Lib :=
  { numToString := fun n =>
      match n with
      | .int i => toString i
      | .frac _ => "0.5"
      | .nan => "NaN"
      | .inf false => "Infinity"
      | .inf true => "-Infinity"
    stringToNumber := fun s =>
      match s.toInt? with
      | some i => .int i
      | none => .nan
    toLowerCase := fun s => String.mk (s.data.map Char.toLower)
    bcryptHash := fun s => "$2a$10$" ++ s
    errorMessage := fun e =>
      match e with
      | .invalidInteger => "invalid input syntax for type integer"
      | .outOfRange => "integer out of range"
      | .uniqueViolation => "duplicate key value violates unique constraint"
      | .injected => "connection terminated"
      | .typeError => "not a function" }

/-- An inventory row with the given identifier and stock. -/
def demoItem (id : Int) (stock : Int) : InventoryItem :=
  { id := id, category := none, brand_name := some "Advil", generic_name := "Ibuprofen",
    dosage_type := none, strength := none, unit := none, expiration_date := none,
    stock := some stock, description := none, created_at := 0 }

/-- A store holding one inventory row, identifier 1 and stock 5. -/
def demoStore : Store := { Store.empty with inventory := [demoItem 1 5], inventorySeq := 1 }

/-- The appointment of the examples. -/
def janeBody : AppointmentBody :=
  ⟨.str "Jane Doe", .str "2024-01-01", .str "09:00", .undefined, .undefined, .undefined⟩

/-- An update that only marks the appointment done. -/
def markDone : AppointmentBody :=
  ⟨.undefined, .undefined, .undefined, .undefined, .bool true, .undefined⟩

/-- The store after the appointment of the examples was created. -/
def janeCreated : Store :=
  (appointmentStep demoLib noFault Store.empty (.create 1 janeBody)).store

/-- The store after that appointment was marked done. -/
def janeDone : Store :=
  (appointmentStep demoLib noFault janeCreated (.update 1 markDone)).store

/-- A user row with identifier 1 and a stored phone. -/
def demoUser : User :=
  { id := 1, full_name := some "Jane Doe", role := some "nurse", email := some "jane@x.com",
    password_hash := some "$2a$10$secret", created_at := 0, active := some true,
    phone := some "555-0100", address := none, birthdate := none, gender := none }

/-- The profile row of that user. -/
def demoProfile : Profile :=
  { id := 1, fullname := some "Jane Doe", role := some "nurse", email := some "jane@x.com",
    phone := some "555-0100", address := none, gender := none, birthdate := none,
    created_at := 0, last_edited := 0 }

/-- A store holding that user and its profile. -/
def userStore : Store :=
  { Store.empty with users := [demoUser], usersSeq := 1, profile := [demoProfile] }

/-- An update of that user whose phone is the empty string. -/
def blankPhone : UserUpdateBody :=
  ⟨.str "Jane Doe", .str "jane@x.com", .str "nurse", .undefined, .undefined, .str "",
    .undefined, .undefined, .undefined⟩

/-- The text a non-blank supplied value stands for: the trimmed text of a
string that is not blank, and nothing for every other value. -/
def suppliedText : JsVal → Option String
  | .str s => if jsTrim s = "" then none else some (jsTrim s)
  | _ => none

/-- The profile row `PUT /api/users/:id` writes over the row `p`. -/
def syncedProfile (lib : Lib) (body : UserUpdateBody) (now : Nat) (p : Profile) : Profile :=
  { p with
    fullname := pgText lib body.name
    email := some (normalizeEmail lib (jsString lib body.email))
    role := pgText lib body.role
    phone := coalesce (suppliedText body.phone) p.phone
    address := coalesce (suppliedText body.address) p.address
    birthdate := coalesce (suppliedText body.birthdate) p.birthdate
    gender := coalesce (suppliedText body.gender) p.gender
    last_edited := now }

/-- The profile row `PUT /api/users/:id` inserts for the identifier `id`. -/
def freshProfile (lib : Lib) (body : UserUpdateBody) (now : Nat) (id : Int) : Profile :=
  { id := id
    fullname := pgText lib body.name
    email := some (normalizeEmail lib (jsString lib body.email))
    role := pgText lib body.role
    phone := suppliedText body.phone
    address := suppliedText body.address
    birthdate := suppliedText body.birthdate
    gender := suppliedText body.gender
    created_at := now, last_edited := now }

/-- The row the merge inserts for a patient without a record. -/
def firstRecord (lib : Lib) (body : MergeBody) (now : Nat) (id : Int) : PatientRecord :=
  { id := id
    patient := jsTrim (jsString lib body.patient)
    date := pgText lib body.date
    time := pgText lib body.time
    notes := pgText lib body.notes
    doctor := pgText lib body.doctor
    medicine := pgText lib body.medicine
    dosage := pgText lib body.dosage
    created_at := now }

/-- The first merge of the examples: a doctor for Jane Doe. -/
def drA : MergeBody :=
  ⟨.str "Jane Doe", .str "Dr. A", .undefined, .undefined, .undefined, .undefined, .undefined⟩

/-- The second merge of the examples: a medicine for Jane Doe. -/
def ibuprofen : MergeBody :=
  ⟨.str "Jane Doe", .undefined, .str "Ibuprofen", .undefined, .undefined, .undefined, .undefined⟩

/-- The invariant carried along appointment requests: distinct primary
identifiers, and the mirror table is the image of the primary table. -/
def mirrorExact (st : Store) : Prop :=
  (st.appointments.map (fun a => a.id)).Nodup ∧
  st.appointment = st.appointments.map mirrorOf

/-- The constraint of the `patient_records` table: `id` is a PRIMARY KEY. -/
def recordsKeyed (st : Store) : Prop :=
  (st.patient_records.map (fun r => r.id)).Nodup

/-- The sequence of `patient_records` can hand out its next value: the
value is in range and no row holds it yet. -/
def recordsSeqFresh (st : Store) : Prop :=
  inInt4 (st.patientRecordsSeq + 1) = true ∧
  ∀ x ∈ st.patient_records, x.id ≠ st.patientRecordsSeq + 1

/-- A store holding one patient record, stored under the name `Jane`. -/
def janeRecordStore : Store :=
  { Store.empty with
    patient_records :=
      [⟨1, "Jane", none, none, some "old note", some "Dr. Old", none, none, 1⟩]
    patientRecordsSeq := 1 }

/-- A merge whose patient name carries a leading blank. -/
def paddedJane : MergeBody :=
  ⟨.str " Jane", .str "Dr. B", .undefined, .undefined, .undefined, .undefined, .undefined⟩

/-- Every character of the list is white space. -/
def allSpace (cs : List Char) : Prop := ∀ c ∈ cs, isJsSpace c = true

/-- A value the profile sync can clean without throwing: a string, or a
falsy value (which `v && …` never calls `trim` on). -/
def textOrFalsy (v : JsVal) : Bool := isString v || !truthy v

/-- The four optional fields of the body can all be cleaned. -/
def cleanFields (body : UserUpdateBody) : Bool :=
  textOrFalsy body.phone && textOrFalsy body.address && textOrFalsy body.birthdate &&
    textOrFalsy body.gender

/-- A store holding the user of the examples and no profile row. -/
def userOnlyStore : Store := { userStore with profile := [] }

/-- A second merge under the padded name: a medicine. -/
def paddedIbuprofen : MergeBody :=
  ⟨.str " Jane", .undefined, .str "Ibuprofen", .undefined, .undefined, .undefined, .undefined⟩

/-- What `PUT /api/inventory/:id` answers and stores when its UPDATE makes
`set r` of the row `r` with the identifier `id`: 200 with the first such row
as rewritten, or 404 when there is none; every row with the identifier is
rewritten and no other row changes. -/
def detailsOutcome (st : Store) (id : Int) (set : InventoryItem → InventoryItem) :
    Response × Store :=
  (match findItem st id with
   | some r => ⟨200, .row (inventoryJson (set r))⟩
   | none => ⟨404, .message "Inventory item not found"⟩,
   { st with inventory := st.inventory.map (fun r => if r.id = id then set r else r) })

/-- A body whose generic name is the empty string, with a brand name and a
combined name. -/
def emptyGeneric : InventoryUpdateBody :=
  ⟨.str "", .str "Motrin", .undefined, .undefined, .str "Paracetamol (Tylenol)"⟩

/-! ## Theorems -/

/-! ### Statements on lists of rows -/

theorem find_updateRows {α : Type} (p : α → Bool) (f : α → α) (hf : ∀ r, p (f r) = p r)
    (rows : List α) : (updateRows p f rows).find? p = (rows.find? p).map f := by
  induction rows with
  | nil => rfl
  | cons r rs ih =>
    unfold updateRows at ih ⊢
    by_cases h : p r = true
    · simp [List.find?, h, hf]
    · simp [List.find?, h, ih]

theorem returning_of_find {α : Type} (p : α → Bool) (f : α → α) (rows : List α) (x : α)
    (h : rows.find? p = some x) : ∃ tl, returning p f rows = f x :: tl := by
  induction rows with
  | nil => simp at h
  | cons r rs ih =>
    unfold returning at ih ⊢
    by_cases hp : p r = true
    · simp [List.find?, hp] at h
      subst h
      exact ⟨(rs.filter p).map f, by simp [List.filter, hp]⟩
    · simp [List.find?, hp] at h
      obtain ⟨tl, htl⟩ := ih h
      exact ⟨tl, by simpa [List.filter, hp] using htl⟩

theorem returning_nil {α : Type} (p : α → Bool) (f : α → α) (rows : List α)
    (h : ∀ r ∈ rows, p r = false) : returning p f rows = [] := by
  unfold returning
  rw [List.filter_eq_nil_iff.mpr (fun r hr => by simp [h r hr])]
  rfl

theorem updateRows_none {α : Type} (p : α → Bool) (f : α → α) (rows : List α)
    (h : ∀ r ∈ rows, p r = false) : updateRows p f rows = rows := by
  unfold updateRows
  induction rows with
  | nil => rfl
  | cons r rs ih =>
    have hr : p r = false := h r (List.mem_cons_self _ _)
    simp only [List.map_cons, hr]
    rw [ih (fun x hx => h x (List.mem_cons_of_mem _ hx))]
    simp

theorem keyed_facts (st : Store) (id : Int) (it : InventoryItem) (hwf : inventoryKeyed st)
    (hfind : findItem st id = some it) :
    it ∈ st.inventory ∧ it.id = id ∧ inInt4 id = true ∧
      ∀ r ∈ st.inventory, r.id = id → r = it := by
  unfold findItem at hfind
  have hmem : it ∈ st.inventory := List.mem_of_find?_eq_some hfind
  have hid : it.id = id := by
    have := List.find?_some hfind
    simpa using this
  refine ⟨hmem, hid, ?_, ?_⟩
  · rw [← hid]; exact hwf.2 it hmem
  · intro r hr hrid
    exact List.inj_on_of_nodup_map hwf.1 hr hmem (by simp [hrid, hid])

theorem updateStockDelta_in_range (st : Store) (id : Int) (it : InventoryItem)
    (s d : Int) (hwf : inventoryKeyed st) (hfind : findItem st id = some it)
    (hs : it.stock = some s) (hd : inInt4 d = true) (hsum : inInt4 (s + d) = true) :
    ∃ tl, updateStockDelta st.inventory (.int d) id
      = .ok (setStockDelta d it :: tl,
          updateRows (fun r => r.id == id) (setStockDelta d) st.inventory) := by
  obtain ⟨hmem, hid, hin, huniq⟩ := keyed_facts st id it hwf hfind
  have hall : (st.inventory.all fun r => r.id != id || (int4Add r.stock d).toBool) = true := by
    rw [List.all_eq_true]
    intro r hr
    by_cases hrid : r.id = id
    · rw [huniq r hr hrid, hs]
      simp [int4Add, hsum, Except.toBool]
    · simp [hrid]
  obtain ⟨tl, htl⟩ :=
    returning_of_find (fun r : InventoryItem => r.id == id) (setStockDelta d) st.inventory it hfind
  refine ⟨tl, ?_⟩
  unfold updateStockDelta
  simp only [pgInt4, pgId, hd, hin, if_true]
  rw [if_pos hall, htl]

theorem findItem_updateRows (st : Store) (id : Int) (f : InventoryItem → InventoryItem)
    (hf : ∀ r, (f r).id = r.id) :
    findItem { st with inventory := updateRows (fun r => r.id == id) f st.inventory } id
      = (findItem st id).map f := by
  unfold findItem
  exact find_updateRows _ _ (fun r => by simp [hf]) _

theorem adjustStock_delta_in_range (lib : Lib) (st : Store) (id : Int) (it : InventoryItem)
    (s d : Int) (v : JsVal) (hwf : inventoryKeyed st) (hfind : findItem st id = some it)
    (hs : it.stock = some s) (hd : inInt4 d = true) (hsum : inInt4 (s + d) = true) :
    (adjustStock lib st id ⟨v, .num (.int d)⟩).1
        = ⟨200, .row (inventoryJson { it with stock := some (max 0 (s + d)) })⟩ ∧
      findItem (adjustStock lib st id ⟨v, .num (.int d)⟩).2 id
        = some { it with stock := some (max 0 (s + d)) } := by
  have hset : setStockDelta d it = { it with stock := some (max 0 (s + d)) } := by
    simp [setStockDelta, hs, greatest0]
  obtain ⟨tl, htl⟩ := updateStockDelta_in_range st id it s d hwf hfind hs hd hsum
  have hupd := findItem_updateRows st id (setStockDelta d) (fun r => rfl)
  rw [hfind] at hupd
  simp only [adjustStock, isNumber, htl, hset] at hupd ⊢
  simp [hset] at hupd ⊢
  exact hupd

theorem adjustStock_not_delta (lib : Lib) (st : Store) (id : Int) (t : JsNum) (v : JsVal)
    (hv : isNumber v = false) :
    adjustStock lib st id ⟨.num t, v⟩ =
      match updateStockAbs st.inventory t id with
      | .error _ => (serverError, st)
      | .ok ([], inv) => (⟨404, .message "Inventory item not found"⟩, { st with inventory := inv })
      | .ok (r :: _, inv) => (⟨200, .row (inventoryJson r)⟩, { st with inventory := inv }) := by
  cases v <;> simp_all [adjustStock, isNumber, jsNumber]

theorem adjustStock_abs_in_range (lib : Lib) (st : Store) (id : Int) (it : InventoryItem)
    (t : Int) (v : JsVal) (hwf : inventoryKeyed st) (hfind : findItem st id = some it)
    (hv : isNumber v = false) (ht : inInt4 t = true) :
    (adjustStock lib st id ⟨.num (.int t), v⟩).1
        = ⟨200, .row (inventoryJson { it with stock := some (max 0 t) })⟩ ∧
      findItem (adjustStock lib st id ⟨.num (.int t), v⟩).2 id
        = some { it with stock := some (max 0 t) } := by
  obtain ⟨hmem, hid, hin, huniq⟩ := keyed_facts st id it hwf hfind
  have hset : setStockAbs t it = { it with stock := some (max 0 t) } := by
    simp [setStockAbs, greatest0]
  obtain ⟨tl, htl⟩ :=
    returning_of_find (fun r : InventoryItem => r.id == id) (setStockAbs t) st.inventory it hfind
  have hupd := findItem_updateRows st id (setStockAbs t) (fun r => rfl)
  rw [hfind] at hupd
  rw [adjustStock_not_delta lib st id _ v hv]
  simp only [updateStockAbs, pgInt4, pgId, ht, hin, if_true, htl]
  simp [hset] at hupd ⊢
  exact hupd

theorem adjustStock_delta_overflow (lib : Lib) (st : Store) (id : Int) (it : InventoryItem)
    (s d : Int) (v : JsVal) (hfind : findItem st id = some it)
    (hs : it.stock = some s) (h : (inInt4 d && inInt4 (s + d)) = false) :
    adjustStock lib st id ⟨v, .num (.int d)⟩ = (serverError, st) := by
  have hmem : it ∈ st.inventory := List.mem_of_find?_eq_some hfind
  have hid : it.id = id := by
    have := List.find?_some hfind
    simpa using this
  have herr : ∃ e, updateStockDelta st.inventory (.int d) id = .error e := by
    unfold updateStockDelta
    by_cases hd : inInt4 d = true
    · by_cases hin : inInt4 id = true
      · simp only [pgInt4, pgId, hd, hin, if_true]
        have hall : ¬ (st.inventory.all fun r => r.id != id || (int4Add r.stock d).toBool) = true := by
          rw [List.all_eq_true]
          intro hall
          have := hall it hmem
          simp [hd] at h
          simp [hid, hs, int4Add, h, Except.toBool] at this
        rw [if_neg hall]
        exact ⟨_, rfl⟩
      · simp [pgInt4, pgId, hd, hin]
    · simp [pgInt4, hd]
  obtain ⟨e, he⟩ := herr
  simp [adjustStock, isNumber, he]

theorem adjustStock_abs_overflow (lib : Lib) (st : Store) (id : Int)
    (t : Int) (v : JsVal) (hv : isNumber v = false) (h : inInt4 t = false) :
    adjustStock lib st id ⟨.num (.int t), v⟩ = (serverError, st) := by
  rw [adjustStock_not_delta lib st id _ v hv]
  simp [updateStockAbs, pgInt4, h]

theorem adjustStock_delta_eq (lib : Lib) (st : Store) (id : Int) (d : JsNum) (v : JsVal) :
    adjustStock lib st id ⟨v, .num d⟩ =
      match updateStockDelta st.inventory d id with
      | .error _ => (serverError, st)
      | .ok ([], inv) => (⟨404, .message "Inventory item not found"⟩, { st with inventory := inv })
      | .ok (r :: _, inv) => (⟨200, .row (inventoryJson r)⟩, { st with inventory := inv }) := by
  simp [adjustStock, isNumber]

theorem store_inventory_self (st : Store) : { st with inventory := st.inventory } = st := by
  cases st; rfl

theorem adjustStock_delta_not_found (lib : Lib) (st : Store) (id d : Int) (v : JsVal)
    (hd : inInt4 d = true) (hin : inInt4 id = true) (hno : ∀ r ∈ st.inventory, r.id ≠ id) :
    adjustStock lib st id ⟨v, .num (.int d)⟩
      = (⟨404, .message "Inventory item not found"⟩, st) := by
  have hp : ∀ r ∈ st.inventory, (fun r : InventoryItem => r.id == id) r = false := by
    intro r hr; simpa using hno r hr
  have hall : (st.inventory.all fun r => r.id != id || (int4Add r.stock d).toBool) = true := by
    rw [List.all_eq_true]
    intro r hr
    simp [hno r hr]
  rw [adjustStock_delta_eq]
  simp only [updateStockDelta, pgInt4, pgId, hd, hin, if_true]
  rw [if_pos hall, returning_nil _ _ _ hp, updateRows_none _ _ _ hp]

theorem adjustStock_abs_not_found (lib : Lib) (st : Store) (id t : Int) (v : JsVal)
    (hv : isNumber v = false)
    (ht : inInt4 t = true) (hin : inInt4 id = true) (hno : ∀ r ∈ st.inventory, r.id ≠ id) :
    adjustStock lib st id ⟨.num (.int t), v⟩
      = (⟨404, .message "Inventory item not found"⟩, st) := by
  have hp : ∀ r ∈ st.inventory, (fun r : InventoryItem => r.id == id) r = false := by
    intro r hr; simpa using hno r hr
  rw [adjustStock_not_delta lib st id _ v hv]
  simp only [updateStockAbs, pgInt4, pgId, ht, hin, if_true]
  rw [returning_nil _ _ _ hp, updateRows_none _ _ _ hp]

/-- C1 (amended): for an inventory item with stock `s` in a table that
satisfies its key constraint, `adjustStock` with an integer delta `d` such
that `d` and `s + d` fit the INTEGER column answers 200 and leaves the item
with stock `max 0 (s + d)`; with an integer target `t` that fits the column
(and no numeric delta) it leaves the item with stock `max 0 t`; so the new
stock is never negative.  When `d`, `s + d` or `t` does not fit the column
the statement raises: the answer is 500 and the store is unchanged. -/
theorem adjustStock_clamps (lib : Lib) (st : Store) (id : Int) (it : InventoryItem) (s : Int)
    (hwf : inventoryKeyed st) (hfind : findItem st id = some it) (hs : it.stock = some s) :
    (∀ (v : JsVal) (d : Int), inInt4 d = true → inInt4 (s + d) = true →
      (adjustStock lib st id ⟨v, .num (.int d)⟩).1.status = 200 ∧
      findItem (adjustStock lib st id ⟨v, .num (.int d)⟩).2 id
        = some { it with stock := some (max 0 (s + d)) } ∧ 0 ≤ max 0 (s + d)) ∧
    (∀ (v : JsVal) (t : Int), isNumber v = false → inInt4 t = true →
      (adjustStock lib st id ⟨.num (.int t), v⟩).1.status = 200 ∧
      findItem (adjustStock lib st id ⟨.num (.int t), v⟩).2 id
        = some { it with stock := some (max 0 t) } ∧ 0 ≤ max 0 t) ∧
    (∀ (v : JsVal) (d : Int), (inInt4 d && inInt4 (s + d)) = false →
      adjustStock lib st id ⟨v, .num (.int d)⟩ = (serverError, st)) ∧
    (∀ (v : JsVal) (t : Int), isNumber v = false → inInt4 t = false →
      adjustStock lib st id ⟨.num (.int t), v⟩ = (serverError, st)) := by
  refine ⟨?_, ?_, ?_, ?_⟩
  · intro v d hd hsum
    have h := adjustStock_delta_in_range lib st id it s d v hwf hfind hs hd hsum
    exact ⟨by rw [h.1], h.2, le_max_left _ _⟩
  · intro v t hv ht
    have h := adjustStock_abs_in_range lib st id it t v hwf hfind hv ht
    exact ⟨by rw [h.1], h.2, le_max_left _ _⟩
  · intro v d h
    exact adjustStock_delta_overflow lib st id it s d v hfind hs h
  · intro v t hv h
    exact adjustStock_abs_overflow lib st id t v hv h

/-- Witness of `adjustStock_clamps`: stock 5 with delta -100 gives stock 0. -/
theorem adjustStock_clamps_witness :
    findItem (adjustStock demoLib demoStore 1 ⟨.undefined, .num (.int (-100))⟩).2 1
      = some (demoItem 1 0) :=
  ((adjustStock_clamps demoLib demoStore 1 (demoItem 1 5) 5
      (by unfold inventoryKeyed; decide) (by decide) rfl).1
    .undefined (-100) (by decide) (by decide)).2.1

/-- C1 as stated fails: the item has stock 5, the delta 2147483647 is an
integer, and the sum leaves the INTEGER range, so the statement raises; the
answer is 500 and the stock stays 5, not `max 0 (5 + 2147483647)`. -/
theorem adjustStock_delta_overflow_counterexample :
    findItem demoStore 1 = some (demoItem 1 5) ∧
    (adjustStock demoLib demoStore 1 ⟨.undefined, .num (.int 2147483647)⟩).1 = serverError ∧
    findItem (adjustStock demoLib demoStore 1 ⟨.undefined, .num (.int 2147483647)⟩).2 1
      = some (demoItem 1 5) ∧
    (demoItem 1 5).stock ≠ some (max 0 (5 + 2147483647)) := by
  decide

/-- C2 (code at the failing inputs): in a store whose stocks are all
non-negative, `PUT /api/inventory/1` with stock -5 answers 200 and stores
stock -5, and `POST /api/inventory` with stock -3 answers 201 and stores a
row with stock -3; neither statement clamps, so the invariant is lost. -/
theorem inventory_negative_stock :
    stockNonneg demoStore ∧
    (putInventory demoLib demoStore 1
      ⟨.undefined, .undefined, .undefined, .num (.int (-5)), .undefined⟩).1.status = 200 ∧
    findItem (putInventory demoLib demoStore 1
      ⟨.undefined, .undefined, .undefined, .num (.int (-5)), .undefined⟩).2 1
      = some (demoItem 1 (-5)) ∧
    ¬ stockNonneg (putInventory demoLib demoStore 1
      ⟨.undefined, .undefined, .undefined, .num (.int (-5)), .undefined⟩).2 ∧
    (postInventory demoLib demoStore 7
      ⟨.undefined, .undefined, .str "Aspirin", .undefined, .undefined, .undefined, .undefined,
        .num (.int (-3)), .undefined⟩).1.status = 201 ∧
    (findItem (postInventory demoLib demoStore 7
      ⟨.undefined, .undefined, .str "Aspirin", .undefined, .undefined, .undefined, .undefined,
        .num (.int (-3)), .undefined⟩).2 2).bind (fun r => r.stock) = some (-3) ∧
    ¬ stockNonneg (postInventory demoLib demoStore 7
      ⟨.undefined, .undefined, .str "Aspirin", .undefined, .undefined, .undefined, .undefined,
        .num (.int (-3)), .undefined⟩).2 := by
  unfold stockNonneg
  decide

/-- C3 as stated fails: a body with both a numeric stock and a numeric
delta is not rejected; the answer is 200 and the delta is applied. -/
theorem adjustStock_both_counterexample :
    isNumber (.num (.int 7)) = true ∧ isNumber (.num (.int 1)) = true ∧
    (adjustStock demoLib demoStore 1 ⟨.num (.int 7), .num (.int 1)⟩).1.status = 200 ∧
    (adjustStock demoLib demoStore 1 ⟨.num (.int 7), .num (.int 1)⟩).2.inventory
      = [demoItem 1 6] ∧
    (adjustStock demoLib demoStore 1 ⟨.num (.int 7), .num (.int 1)⟩).2 ≠ demoStore := by
  decide

/-- C3 (amended): a body with neither a numeric stock nor a numeric delta is
answered 400 and the store is unchanged; a body with both is not rejected,
it is handled as the body with the delta alone; and a request with one
number, an integer that fits the INTEGER column, and an identifier in range
that matches no item, is answered 404 and leaves the store unchanged. -/
theorem adjustStock_validation (lib : Lib) (st : Store) (id : Int) :
    (∀ b : StockBody, isNumber b.stock = false → isNumber b.delta = false →
      adjustStock lib st id b = (⟨400, .message "Provide stock or delta as a number"⟩, st)) ∧
    (∀ b : StockBody, isNumber b.stock = true → isNumber b.delta = true →
      adjustStock lib st id b = adjustStock lib st id ⟨.undefined, b.delta⟩ ∧
      (adjustStock lib st id b).1.status ≠ 400) ∧
    (inInt4 id = true → (∀ r ∈ st.inventory, r.id ≠ id) →
      (∀ (v : JsVal) (d : Int), isNumber v = false → inInt4 d = true →
        adjustStock lib st id ⟨v, .num (.int d)⟩
          = (⟨404, .message "Inventory item not found"⟩, st)) ∧
      (∀ (v : JsVal) (t : Int), isNumber v = false → inInt4 t = true →
        adjustStock lib st id ⟨.num (.int t), v⟩
          = (⟨404, .message "Inventory item not found"⟩, st))) := by
  refine ⟨?_, ?_, ?_⟩
  · intro b hs hd
    simp [adjustStock, hs, hd]
  · intro b hs hd
    obtain ⟨s, d⟩ := b
    cases d <;> simp [isNumber] at hd
    refine ⟨by simp [adjustStock, isNumber], ?_⟩
    rw [adjustStock_delta_eq]
    split <;> simp [serverError]
  · intro hin hno
    exact ⟨fun v d _ hd => adjustStock_delta_not_found lib st id d v hd hin hno,
      fun v t hv ht => adjustStock_abs_not_found lib st id t v hv ht hin hno⟩

/-- Witness of `adjustStock_validation`: an empty body is answered 400, and
a delta for the unknown identifier 9 is answered 404. -/
theorem adjustStock_validation_witness :
    adjustStock demoLib demoStore 9 ⟨.undefined, .undefined⟩
      = (⟨400, .message "Provide stock or delta as a number"⟩, demoStore) ∧
    adjustStock demoLib demoStore 9 ⟨.undefined, .num (.int 3)⟩
      = (⟨404, .message "Inventory item not found"⟩, demoStore) :=
  ⟨(adjustStock_validation demoLib demoStore 9).1 ⟨.undefined, .undefined⟩ rfl rfl,
   ((adjustStock_validation demoLib demoStore 9).2.2 (by decide) (by decide)).1
     .undefined 3 rfl (by decide)⟩

theorem emailExists_append (users : List User) (u : User) (e : String) (h : u.email = some e) :
    emailExists (users ++ [u]) e = true := by
  simp [emailExists, h]

theorem insertUser_ok (users users2 : List User) (u : User)
    (h : insertUser users u = .ok users2) : users2 = users ++ [u] := by
  unfold insertUser at h
  split at h
  · cases h
  · split at h
    · cases h
    · cases h; rfl

theorem postUsers_created (lib : Lib) (st : Store) (now : Nat) (body : UserCreateBody)
    (e : String) (out : Response × Store) (h : postUsers lib st now body = out)
    (he : body.email = .str e) (hc : created out.1 = true) :
    emailExists out.2.users (normalizeEmail lib e) = true := by
  unfold postUsers at h
  dsimp only at h
  repeat' split at h
  all_goals subst h
  all_goals first
    | (simp [created, errorResponse] at hc; done)
    | (have hu := insertUser_ok _ _ _ ‹insertUser _ _ = Except.ok _›
       simp only [hu]
       exact emailExists_append _ _ _ (by simp [he, jsString]))

theorem postRegister_created (lib : Lib) (st : Store) (now : Nat) (body : RegisterBody)
    (e : String) (out : Response × Store) (h : postRegister lib st now body = out)
    (he : body.email = .str e) (hc : created out.1 = true) :
    emailExists out.2.users (normalizeEmail lib e) = true := by
  unfold postRegister at h
  dsimp only at h
  repeat' split at h
  all_goals subst h
  all_goals first
    | (simp [created] at hc; done)
    | (have hu := insertUser_ok _ _ _ ‹insertUser _ _ = Except.ok _›
       have hee : body.email = JsVal.str _ := ‹body.email = JsVal.str _›
       rw [he] at hee
       cases hee
       simp only [hu]
       exact emailExists_append _ _ _ rfl)

theorem created_email_stored (lib : Lib) (st : Store) (now : Nat) (r : CreateRequest)
    (e : String) (he : r.email = .str e) (hc : created (createUser lib st now r).1 = true) :
    emailExists (createUser lib st now r).2.users (normalizeEmail lib e) = true := by
  cases r with
  | users body => exact postUsers_created lib st now body e _ rfl he hc
  | register body => exact postRegister_created lib st now body e _ rfl he hc

theorem conflict_of_exists (lib : Lib) (st : Store) (now : Nat) (r : CreateRequest)
    (e : String) (he : r.email = .str e) (ho : r.requiredPresent = true)
    (hex : emailExists st.users (normalizeEmail lib e) = true) :
    (createUser lib st now r).1.status = 409 ∧ (createUser lib st now r).2 = st := by
  cases r with
  | users body =>
    simp only [CreateRequest.email] at he
    simp only [CreateRequest.requiredPresent, Bool.and_eq_true] at ho
    have hex2 : emailExists st.users (normalizeEmail lib (jsString lib body.email)) = true := by
      rw [he]; exact hex
    simp [createUser, postUsers, ho.1.1.1, ho.1.1.2, ho.1.2, ho.2, hex2]
  | register body =>
    simp only [CreateRequest.email] at he
    simp only [CreateRequest.requiredPresent, Bool.and_eq_true] at ho
    have ht : truthy (.str e) = true := by rw [← he]; exact ho.1.2
    simp [createUser, postRegister, ho.1.1.1, ho.1.1.2, ho.2, he, ht, hex]

/-- C4: for email strings `e1`, `e2` that are equal after lower-casing and
trimming, once a user was created with `e1` through either route, a request
to create a user with `e2` through either route, its required fields
present, is answered 409 and leaves the store as it was, so no row is
inserted into `users`. -/
theorem duplicate_email_conflict (lib : Lib) (st : Store) (now1 now2 : Nat)
    (r1 r2 : CreateRequest) (e1 e2 : String)
    (h1 : r1.email = .str e1) (h2 : r2.email = .str e2)
    (hnorm : normalizeEmail lib e1 = normalizeEmail lib e2)
    (hpresent : r2.requiredPresent = true)
    (hfirst : created (createUser lib st now1 r1).1 = true) :
    (createUser lib (createUser lib st now1 r1).2 now2 r2).1.status = 409 ∧
    (createUser lib (createUser lib st now1 r1).2 now2 r2).2 = (createUser lib st now1 r1).2 := by
  have hex := created_email_stored lib st now1 r1 e1 h1 hfirst
  rw [hnorm] at hex
  exact conflict_of_exists lib _ now2 r2 e2 h2 hpresent hex

/-- Witness of `duplicate_email_conflict`: after `a@x.com` was registered,
creating a user with `A@X.com ` is answered 409. -/
theorem duplicate_email_conflict_witness :
    (createUser demoLib
      (createUser demoLib Store.empty 1
        (.register ⟨.str "Jane Doe", .str "nurse", .str "a@x.com", .str "secret"⟩)).2 2
      (.users ⟨.str "J. Doe", .str "A@X.com ", .str "doctor", .undefined, .str "pw"⟩)).1.status
      = 409 :=
  (duplicate_email_conflict demoLib Store.empty 1 2
    (.register ⟨.str "Jane Doe", .str "nurse", .str "a@x.com", .str "secret"⟩)
    (.users ⟨.str "J. Doe", .str "A@X.com ", .str "doctor", .undefined, .str "pw"⟩)
    "a@x.com" "A@X.com " rfl rfl (by decide) (by decide) (by decide)).1

theorem returning_head {α : Type} (p : α → Bool) (f : α → α) (rows : List α) (x : α)
    (tl : List α) (h : returning p f rows = x :: tl) : ∃ a ∈ rows, p a = true ∧ x = f a := by
  unfold returning at h
  have hx : x ∈ (rows.filter p).map f := by rw [h]; exact List.mem_cons_self _ _
  obtain ⟨a, ha, hfa⟩ := List.mem_map.mp hx
  rw [List.mem_filter] at ha
  exact ⟨a, ha.1, ha.2, hfa.symm⟩

theorem statusOf_doneParam (v : JsVal) :
    statusOf (some (doneParam v) == some true) = statusOf (doneParam v) := by
  cases h : doneParam v <;> rfl

theorem insertAppointment_ok (rows rows2 : List Appointment) (a : Appointment)
    (h : insertAppointment rows a = .ok rows2) :
    rows2 = rows ++ [a] ∧ ∀ x ∈ rows, x.id ≠ a.id := by
  unfold insertAppointment at h
  split at h
  · cases h
  · rename_i hfresh
    cases h
    refine ⟨rfl, ?_⟩
    intro x hx hxa
    apply hfresh
    rw [List.any_eq_true]
    exact ⟨x, hx, by simpa using hxa⟩

theorem mirrorStatement_ok {α : Type} (fault : Nat → Bool) (k : Nat) (run : Except Thrown α)
    (x : α) (h : mirrorStatement fault k run = .ok x) : run = .ok x := by
  unfold mirrorStatement at h
  split at h
  · cases h
  · exact h

theorem insertMirror_ok (fault : Nat → Bool) (rows rows2 : List AppointmentMirror)
    (m : AppointmentMirror) (h : mirrorStatement fault 0 (insertMirror rows m) = .ok rows2) :
    rows2 = rows ++ [m] := by
  unfold mirrorStatement at h
  split at h
  · cases h
  · unfold insertMirror at h
    split at h
    · cases h
    · cases h; rfl

theorem postAppointment_exact (lib : Lib) (fault : Nat → Bool) (st : Store) (now : Nat)
    (body : AppointmentBody) (out : Outcome) (h : postAppointment lib fault st now body = out)
    (hinv : mirrorExact st) (hok : out.resp.status < 300) (hm : out.mirrorFailed = false) :
    mirrorExact out.store := by
  unfold postAppointment at h
  split at h
  · subst h; simp at hok
  · cases hseq : nextval st.appointmentsSeq with
    | error e => simp only [hseq] at h; subst h; simp [serverError] at hok
    | ok id =>
      simp only [hseq] at h
      split at h
      · subst h; simp [serverError] at hok
      · rename_i rows hins
        obtain ⟨hrows, hfresh⟩ := insertAppointment_ok _ _ _ hins
        split at h
        · rename_i mirror hmir
          have hmirror := insertMirror_ok _ _ _ _ hmir
          subst h
          obtain ⟨hnd, heq⟩ := hinv
          refine ⟨?_, ?_⟩
          · simp only [hrows, List.map_append, List.map_cons, List.map_nil]
            rw [List.nodup_append]
            refine ⟨hnd, List.nodup_singleton _, ?_⟩
            intro x hx hx2
            rw [List.mem_singleton] at hx2
            obtain ⟨a, ha, hax⟩ := List.mem_map.mp hx
            exact hfresh a ha (by rw [hax, hx2])
          · simp only [hmirror, hrows, List.map_append, List.map_cons, List.map_nil, heq, mirrorOf,
              statusOf_doneParam]
        · subst h; simp at hm

theorem setMirror_mirrorOf (lib : Lib) (body : AppointmentBody) (a : Appointment) :
    setMirror (setAppointment lib body a) (mirrorOf a) = mirrorOf (setAppointment lib body a) := by
  simp [setMirror, mirrorOf, setAppointment, coalesce]

theorem putAppointment_exact (lib : Lib) (fault : Nat → Bool) (st : Store) (id : Int)
    (body : AppointmentBody) (out : Outcome) (h : putAppointment lib fault st id body = out)
    (hinv : mirrorExact st) (hok : out.resp.status < 300) (hm : out.mirrorFailed = false) :
    mirrorExact out.store := by
  unfold putAppointment at h
  cases hpid : pgId id with
  | error e => simp only [hpid] at h; subst h; simp [serverError] at hok
  | ok i =>
    simp only [hpid] at h
    cases hret : returning (fun a : Appointment => a.id == i) (setAppointment lib body)
        st.appointments with
    | nil => simp only [hret] at h; subst h; simp at hok
    | cons updated tl =>
      simp only [hret] at h
      obtain ⟨hnd, heq⟩ := hinv
      obtain ⟨a0, ha0, hp0, hupd⟩ := returning_head _ _ _ _ _ hret
      have hid0 : a0.id = i := by simpa using hp0
      have huid : updated.id = i := by rw [hupd]; simpa [setAppointment] using hid0
      have hin : pgId updated.id = .ok i := by
        rw [huid]
        unfold pgId at hpid ⊢
        split at hpid
        · cases hpid; rename_i hr; simp [hr]
        · cases hpid
      simp only [hin] at h
      split at h
      case h_2 => subst h; simp at hm
      case h_1 mirror hmir =>
        have hmirror := mirrorStatement_ok _ _ _ _ hmir
        cases hmirror
        subst h
        refine ⟨?_, ?_⟩
        · have : (updateRows (fun a => a.id == i) (setAppointment lib body) st.appointments).map
              (fun a => a.id) = st.appointments.map (fun a => a.id) := by
            unfold updateRows
            rw [List.map_map]
            apply List.map_congr_left
            intro a _
            by_cases hak : a.id = i <;> simp [hak, setAppointment]
          simpa [this] using hnd
        · simp only [heq]
          unfold updateRows
          rw [List.map_map, List.map_map]
          apply List.map_congr_left
          intro a ha
          by_cases hak : a.id = i
          · have haa : a = a0 :=
              List.inj_on_of_nodup_map hnd ha ha0 (by simp [hak, hid0])
            subst haa
            simp [hak, mirrorOf, hupd, setMirror, setAppointment, coalesce]
          · simp [hak, mirrorOf]

theorem deleteAppointment_exact (fault : Nat → Bool) (st : Store) (id : Int)
    (out : Outcome) (h : deleteAppointment fault st id = out)
    (hinv : mirrorExact st) (hok : out.resp.status < 300) (hm : out.mirrorFailed = false) :
    mirrorExact out.store := by
  unfold deleteAppointment at h
  cases hpid : pgId id with
  | error e => simp only [hpid] at h; subst h; simp [serverError] at hok
  | ok i =>
    simp only [hpid] at h
    split at h
    · subst h; simp at hok
    · split at h
      case h_2 => subst h; simp at hm
      case h_1 mirror hmir =>
        have hmirror := mirrorStatement_ok _ _ _ _ hmir
        cases hmirror
        subst h
        obtain ⟨hnd, heq⟩ := hinv
        refine ⟨?_, ?_⟩
        · exact hnd.sublist (List.Sublist.map _ (List.filter_sublist _))
        · simp only [heq, List.filter_map]
          congr 1

theorem reachable_exact (lib : Lib) (st : Store) (h : AppointmentsReachable lib st) :
    mirrorExact st := by
  induction h with
  | start st h1 h2 => simp [mirrorExact, h1, h2]
  | step st fault req _ hok hmirror ih =>
    cases req with
    | create now body => exact postAppointment_exact lib fault st now body _ rfl ih hok hmirror
    | update id body => exact putAppointment_exact lib fault st id body _ rfl ih hok hmirror
    | delete id => exact deleteAppointment_exact fault st id _ rfl ih hok hmirror

/-- C5: in every store reached from empty `appointments` and `appointment`
tables by successful create, update and delete requests in which no mirror
statement failed, the primary identifiers are pairwise distinct and the
mirror rows are, up to order, exactly the rows `mirrorOf a` of the primary
rows `a`: one mirror row per primary row, linked by `appointment_id = id`,
with the primary row's patient, date and time and the status `done` when
its flag is true and `pending` otherwise. -/
theorem appointments_mirror_consistent (lib : Lib) (st : Store)
    (h : AppointmentsReachable lib st) : mirrorConsistent st := by
  obtain ⟨hnd, heq⟩ := reachable_exact lib st h
  exact ⟨hnd, by rw [heq]⟩

/-- Witness of `appointments_mirror_consistent`: after the appointment of
Jane Doe was created and marked done the store is consistent, its mirror
row has status `done`, and after the deletion neither table holds a row. -/
theorem appointments_mirror_consistent_witness :
    mirrorConsistent janeDone ∧
    janeDone.appointment
      = [⟨some "Jane Doe", some "2024-01-01", some "09:00", some "done", some 1⟩] ∧
    (appointmentStep demoLib noFault janeDone (.delete 1)).store.appointments = [] ∧
    (appointmentStep demoLib noFault janeDone (.delete 1)).store.appointment = [] :=
  ⟨appointments_mirror_consistent demoLib janeDone
      (.step janeCreated noFault (.update 1 markDone)
        (.step Store.empty noFault (.create 1 janeBody) (.start Store.empty rfl rfl)
          (by decide) (by decide))
        (by decide) (by decide)),
    by decide, by decide, by decide⟩

theorem postAppointment_primary (lib : Lib) (f g : Nat → Bool) (st : Store) (now : Nat)
    (body : AppointmentBody) :
    (postAppointment lib f st now body).resp = (postAppointment lib g st now body).resp ∧
    (postAppointment lib f st now body).store.appointments
      = (postAppointment lib g st now body).store.appointments := by
  unfold postAppointment
  split
  · exact ⟨rfl, rfl⟩
  · cases nextval st.appointmentsSeq with
    | error e => exact ⟨rfl, rfl⟩
    | ok id =>
      dsimp only
      split
      · exact ⟨rfl, rfl⟩
      · (repeat' split) <;> exact ⟨rfl, rfl⟩

theorem putAppointment_primary (lib : Lib) (f g : Nat → Bool) (st : Store) (id : Int)
    (body : AppointmentBody) :
    (putAppointment lib f st id body).resp = (putAppointment lib g st id body).resp ∧
    (putAppointment lib f st id body).store.appointments
      = (putAppointment lib g st id body).store.appointments := by
  unfold putAppointment
  cases pgId id with
  | error e => exact ⟨rfl, rfl⟩
  | ok i =>
    dsimp only
    cases returning (fun a : Appointment => a.id == i) (setAppointment lib body)
        st.appointments with
    | nil => exact ⟨rfl, rfl⟩
    | cons updated tl =>
      dsimp only
      (repeat' split) <;> exact ⟨rfl, rfl⟩

theorem deleteAppointment_primary (f g : Nat → Bool) (st : Store) (id : Int) :
    (deleteAppointment f st id).resp = (deleteAppointment g st id).resp ∧
    (deleteAppointment f st id).store.appointments
      = (deleteAppointment g st id).store.appointments := by
  unfold deleteAppointment
  cases pgId id with
  | error e => exact ⟨rfl, rfl⟩
  | ok i =>
    dsimp only
    split
    · exact ⟨rfl, rfl⟩
    · (repeat' split) <;> exact ⟨rfl, rfl⟩

theorem putUser_primary (lib : Lib) (f g : Nat → Bool) (st : Store) (now : Nat) (id : Int)
    (body : UserUpdateBody) :
    (putUser lib f st now id body).resp = (putUser lib g st now id body).resp ∧
    (putUser lib f st now id body).store.users = (putUser lib g st now id body).store.users := by
  unfold putUser
  split
  · exact ⟨rfl, rfl⟩
  · dsimp only
    generalize (match pgId id with
      | .error e => (Except.error e : Except Thrown (List User × List User))
      | .ok i =>
        if truthy body.password = true then
          updateUsers st.users i (normalizeEmail lib (jsString lib body.email))
            (setUserWithPassword lib body)
        else
          updateUsers st.users i (normalizeEmail lib (jsString lib body.email))
            (setUser lib body)) = result
    match result with
    | .error e => exact ⟨rfl, rfl⟩
    | .ok ([], users) => exact ⟨rfl, rfl⟩
    | .ok (u :: _, users) =>
      dsimp only
      (repeat' split) <;> exact ⟨rfl, rfl⟩

/-- C6: for appointment create, update and delete and for user update, the
response (status and body) and the resulting primary table (`appointments`,
`users`) are the same under any two failure schedules of the mirror
statements, so they do not depend on whether the mirror statements on
`appointment` and `profile` succeed or throw. -/
theorem primary_independent_of_mirror (lib : Lib) (f g : Nat → Bool) (st : Store) :
    (∀ (now : Nat) (body : AppointmentBody),
      (postAppointment lib f st now body).resp = (postAppointment lib g st now body).resp ∧
      (postAppointment lib f st now body).store.appointments
        = (postAppointment lib g st now body).store.appointments) ∧
    (∀ (id : Int) (body : AppointmentBody),
      (putAppointment lib f st id body).resp = (putAppointment lib g st id body).resp ∧
      (putAppointment lib f st id body).store.appointments
        = (putAppointment lib g st id body).store.appointments) ∧
    (∀ id : Int,
      (deleteAppointment f st id).resp = (deleteAppointment g st id).resp ∧
      (deleteAppointment f st id).store.appointments
        = (deleteAppointment g st id).store.appointments) ∧
    (∀ (now : Nat) (id : Int) (body : UserUpdateBody),
      (putUser lib f st now id body).resp = (putUser lib g st now id body).resp ∧
      (putUser lib f st now id body).store.users
        = (putUser lib g st now id body).store.users) :=
  ⟨fun now body => postAppointment_primary lib f g st now body,
   fun id body => putAppointment_primary lib f g st id body,
   fun id => deleteAppointment_primary f g st id,
   fun now id body => putUser_primary lib f g st now id body⟩

/-- C7 (code at the failing input): the user and its profile both store the
phone `555-0100`; `PUT /api/users/1` with valid name, email and role and
the phone `""` answers 200 with the phone `""`, the `users` row now stores
the empty string, and only the `profile` row keeps the old phone. -/
theorem putUser_blank_phone :
    userStore.users.map (fun u => u.phone) = [some "555-0100"] ∧
    (putUser demoLib noFault userStore 5 1 blankPhone).resp.status = 200 ∧
    (putUser demoLib noFault userStore 5 1 blankPhone).mirrorFailed = false ∧
    (putUser demoLib noFault userStore 5 1 blankPhone).store.users.map (fun u => u.phone)
      = [some ""] ∧
    (putUser demoLib noFault userStore 5 1 blankPhone).store.profile.map (fun p => p.phone)
      = [some "555-0100"] ∧
    (putUser demoLib noFault userStore 5 1 blankPhone).resp.body
      = .row (userDetailJson { demoUser with phone := some "" }) := by
  decide

/-- C9 (code at the failing input): `DELETE /api/users/1` answers 204 and
removes the `users` row, but the `profile` row with identifier 1 stays, and
the following `GET /api/users/1` answers 200 with that profile row. -/
theorem deleteUser_keeps_profile :
    (deleteUser userStore 1).1.status = 204 ∧
    (deleteUser userStore 1).2.users = [] ∧
    (deleteUser userStore 1).2.profile = [demoProfile] ∧
    getUser (deleteUser userStore 1).2 1 = ⟨200, .row (profileJson demoProfile)⟩ := by
  decide

theorem jsTrim_empty : jsTrim "" = "" := by decide

theorem cleanField_ok (v : JsVal) (x : Option String) (h : cleanField v = .ok x) :
    x = suppliedText v := by
  cases v with
  | str s =>
    unfold cleanField at h
    unfold suppliedText
    by_cases ht : jsTrim s = ""
    · simp [ht] at h ⊢
      exact h.symm
    · have hs : s ≠ "" := by
        intro hs; apply ht; rw [hs]; exact jsTrim_empty
      simp [ht, hs] at h ⊢
      exact h.symm
  | undefined => simp [cleanField, truthy] at h; simp [suppliedText, h]
  | null => simp [cleanField, truthy] at h; simp [suppliedText, h]
  | bool b =>
    cases b <;> simp [cleanField, truthy] at h
    simp [suppliedText, h]
  | num n =>
    simp only [cleanField] at h
    split at h
    · cases h
    · cases h; rfl
  | obj a b c => simp [cleanField, truthy] at h

theorem syncProfile_ok (lib : Lib) (fault : Nat → Bool) (profile prof2 : List Profile)
    (now : Nat) (id : Int) (body : UserUpdateBody)
    (h : syncProfile lib fault profile now id body = .ok prof2) :
    ((∃ p ∈ profile, p.id = id) →
      prof2 = profile.map (fun p => if p.id = id then syncedProfile lib body now p else p)) ∧
    ((∀ p ∈ profile, p.id ≠ id) → prof2 = profile ++ [freshProfile lib body now id]) := by
  unfold syncProfile at h
  dsimp only at h
  split at h
  · cases h
  · rename_i profileExists hsel
    have hsel2 := mirrorStatement_ok _ _ _ _ hsel
    have hex : profileExists = profile.any (fun p => p.id == id) := by
      cases hp : pgId id with
      | error e => rw [hp] at hsel2; cases hsel2
      | ok i =>
        rw [hp] at hsel2
        have hi : i = id := by
          unfold pgId at hp
          split at hp
          · cases hp; rfl
          · cases hp
        cases hsel2
        rw [hi]
    split at h
    · rename_i phone address birthdate gender h1 h2 h3 h4
      have e1 := cleanField_ok _ _ h1
      have e2 := cleanField_ok _ _ h2
      have e3 := cleanField_ok _ _ h3
      have e4 := cleanField_ok _ _ h4
      subst e1 e2 e3 e4
      split at h
      · rename_i hyes
        have hu := mirrorStatement_ok _ _ _ _ h
        cases hu
        refine ⟨fun _ => ?_, fun hno => ?_⟩
        · unfold updateRows
          apply List.map_congr_left
          intro p _
          by_cases hp : p.id = id <;> simp [hp, setProfile, syncedProfile]
        · exfalso
          rw [hex, List.any_eq_true] at hyes
          obtain ⟨p, hp, hpid⟩ := hyes
          exact hno p hp (by simpa using hpid)
      · rename_i hnot
        have hu := mirrorStatement_ok _ _ _ _ h
        unfold insertProfile at hu
        split at hu
        · cases hu
        · cases hu
          refine ⟨fun hyes => ?_, fun _ => rfl⟩
          exfalso
          apply hnot
          rw [hex, List.any_eq_true]
          obtain ⟨p, hp, hpid⟩ := hyes
          exact ⟨p, hp, by simpa using hpid⟩
    · cases h

theorem putUser_profile (lib : Lib) (fault : Nat → Bool) (st : Store) (now : Nat) (id : Int)
    (body : UserUpdateBody) (out : Outcome) (h : putUser lib fault st now id body = out)
    (hok : out.resp.status = 200) (hm : out.mirrorFailed = false) :
    syncProfile lib fault st.profile now id body = .ok out.store.profile := by
  unfold putUser at h
  split at h
  · subst h; simp at hok
  · dsimp only at h
    split at h
    · subst h; simp [errorResponse] at hok
    · subst h; simp at hok
    · split at h
      · rename_i hs
        subst h
        exact hs
      · subst h; simp at hm

theorem cleanField_total (v : JsVal) (h : textOrFalsy v = true) :
    cleanField v = .ok (suppliedText v) := by
  cases v with
  | str s =>
    unfold cleanField suppliedText
    by_cases ht : jsTrim s = ""
    · simp [ht]
    · have hs : s ≠ "" := by
        intro hs; apply ht; rw [hs]; exact jsTrim_empty
      simp [ht, hs]
  | undefined => rfl
  | null => rfl
  | bool b =>
    cases b
    · rfl
    · simp [textOrFalsy, isString, truthy] at h
  | num n =>
    have hf : truthy (.num n) = false := by
      simpa [textOrFalsy, isString] using h
    simp [cleanField, hf, suppliedText]
  | obj a b c => simp [textOrFalsy, isString, truthy] at h

theorem syncProfile_total (lib : Lib) (fault : Nat → Bool) (profile : List Profile)
    (now : Nat) (id : Int) (body : UserUpdateBody) (hid : inInt4 id = true)
    (h0 : fault 0 = false) (h1 : fault 1 = false) (hc : cleanFields body = true) :
    ∃ prof2, syncProfile lib fault profile now id body = .ok prof2 := by
  unfold cleanFields at hc
  simp only [Bool.and_eq_true] at hc
  obtain ⟨⟨⟨c1, c2⟩, c3⟩, c4⟩ := hc
  unfold syncProfile
  simp only [mirrorStatement, h0, h1, pgId, hid, if_true, Bool.false_eq_true, if_false,
    cleanField_total _ c1, cleanField_total _ c2, cleanField_total _ c3, cleanField_total _ c4]
  by_cases hany : (profile.any fun p => p.id == id) = true
  · simp only [hany, if_true]
    exact ⟨_, rfl⟩
  · simp only [hany, Bool.false_eq_true, if_false, insertProfile]
    exact ⟨_, rfl⟩

theorem putUser_synced (lib : Lib) (fault : Nat → Bool) (st : Store) (now : Nat) (id : Int)
    (body : UserUpdateBody) (out : Outcome) (h : putUser lib fault st now id body = out)
    (hok : out.resp.status = 200) :
    inInt4 id = true ∧
    ((∃ prof2, syncProfile lib fault st.profile now id body = .ok prof2) →
      out.mirrorFailed = false) := by
  unfold putUser at h
  split at h
  · subst h; simp at hok
  · dsimp only at h
    cases hid : pgId id with
    | error e =>
      simp only [hid] at h
      subst h
      simp [errorResponse] at hok
    | ok i =>
      have hin : inInt4 id = true := by
        unfold pgId at hid
        split at hid
        · assumption
        · cases hid
      refine ⟨hin, ?_⟩
      rintro ⟨prof2, hp⟩
      simp only [hid] at h
      split at h
      · subst h; simp [errorResponse] at hok
      · subst h; simp at hok
      · simp only [hp] at h
        subst h
        rfl

/-- C8: for every user update of `id` answered 200: when no statement of
the profile sync is made to fail and each of phone, address, birthdate and
gender is a string or falsy, the sync does not fail; and whenever the sync
did not fail: if a profile row with that identifier existed, the table keeps
its rows and each row with the identifier gets fullname, role and normalised
email from the request, gets phone, address, birthdate and gender replaced
only where a non-blank value was supplied, and is stamped `last_edited`;
otherwise exactly one row with the identifier is appended; rows with other
identifiers are unchanged, and identifiers that were pairwise distinct
remain so. -/
theorem profile_upsert (lib : Lib) (fault : Nat → Bool) (st : Store) (now : Nat) (id : Int)
    (body : UserUpdateBody)
    (hok : (putUser lib fault st now id body).resp.status = 200) :
    (fault 0 = false → fault 1 = false → cleanFields body = true →
      (putUser lib fault st now id body).mirrorFailed = false) ∧
    ((putUser lib fault st now id body).mirrorFailed = false →
      ((∃ p ∈ st.profile, p.id = id) →
        (putUser lib fault st now id body).store.profile
          = st.profile.map (fun p => if p.id = id then syncedProfile lib body now p else p)) ∧
      ((∀ p ∈ st.profile, p.id ≠ id) →
        (putUser lib fault st now id body).store.profile
          = st.profile ++ [freshProfile lib body now id]) ∧
      ((st.profile.map (fun p => p.id)).Nodup →
        ((putUser lib fault st now id body).store.profile.map (fun p => p.id)).Nodup)) := by
  obtain ⟨hid, hsynced⟩ := putUser_synced lib fault st now id body _ rfl hok
  refine ⟨fun h0 h1 hc =>
    hsynced (syncProfile_total lib fault st.profile now id body hid h0 h1 hc), ?_⟩
  intro hm
  have hsync := syncProfile_ok lib fault st.profile _ now id body
    (putUser_profile lib fault st now id body _ rfl hok hm)
  refine ⟨hsync.1, hsync.2, ?_⟩
  intro hnd
  by_cases hex : ∃ p ∈ st.profile, p.id = id
  · rw [hsync.1 hex, List.map_map]
    have : (fun p : Profile => p.id) ∘
        (fun p => if p.id = id then syncedProfile lib body now p else p) = fun p => p.id := by
      funext p
      by_cases hp : p.id = id <;> simp [hp, syncedProfile]
    rw [this]
    exact hnd
  · have hno : ∀ p ∈ st.profile, p.id ≠ id := fun p hp hpid => hex ⟨p, hp, hpid⟩
    rw [hsync.2 hno, List.map_append, List.nodup_append]
    refine ⟨hnd, List.nodup_singleton _, ?_⟩
    intro x hx hx2
    simp only [List.map_cons, List.map_nil, List.mem_singleton] at hx2
    obtain ⟨p, hp, hpx⟩ := List.mem_map.mp hx
    exact hno p hp (by rw [hpx, hx2]; rfl)

/-- Witness of `profile_upsert`: with a profile row stored, the update with
a blank phone rewrites that row in place and keeps its phone; with no
profile row stored, the same update does not fail and inserts exactly one
row, whose phone is NULL. -/
theorem profile_upsert_witness :
    (putUser demoLib noFault userStore 5 1 blankPhone).store.profile
      = [{ demoProfile with last_edited := 5 }] ∧
    (putUser demoLib noFault userOnlyStore 5 1 blankPhone).mirrorFailed = false ∧
    (putUser demoLib noFault userOnlyStore 5 1 blankPhone).store.profile
      = [{ demoProfile with phone := none, created_at := 5, last_edited := 5 }] :=
  ⟨(((profile_upsert demoLib noFault userStore 5 1 blankPhone (by decide)).2
      ((profile_upsert demoLib noFault userStore 5 1 blankPhone (by decide)).1
        rfl rfl (by decide))).1 ⟨demoProfile, by decide, rfl⟩).trans (by decide),
   (profile_upsert demoLib noFault userOnlyStore 5 1 blankPhone (by decide)).1
      rfl rfl (by decide),
   (((profile_upsert demoLib noFault userOnlyStore 5 1 blankPhone (by decide)).2
      ((profile_upsert demoLib noFault userOnlyStore 5 1 blankPhone (by decide)).1
        rfl rfl (by decide))).2.1 (by decide)).trans (by decide)⟩

theorem latestRecord_none (rows : List PatientRecord) (patient : String)
    (h : rows.filter (fun r => r.patient == patient) = []) :
    latestRecord rows patient = none := by
  unfold latestRecord
  rw [h]
  rfl

theorem insertRecord_ok (rows rows2 : List PatientRecord) (r : PatientRecord)
    (h : insertRecord rows r = .ok rows2) :
    rows2 = rows ++ [r] ∧ ∀ x ∈ rows, x.id ≠ r.id := by
  unfold insertRecord at h
  split at h
  · cases h
  · rename_i hfresh
    cases h
    refine ⟨rfl, ?_⟩
    intro x hx hxa
    apply hfresh
    rw [List.any_eq_true]
    exact ⟨x, hx, by simpa using hxa⟩

theorem mergeLatest_insert (lib : Lib) (st : Store) (now : Nat) (body : MergeBody)
    (hnone : recordsOf st (jsTrim (jsString lib body.patient)) = [])
    (hok : (mergeLatest lib st now body).1.status = 200) :
    ∃ id, (mergeLatest lib st now body).2.patient_records
        = st.patient_records ++ [firstRecord lib body now id] ∧
      ∀ x ∈ st.patient_records, x.id ≠ id := by
  have hlat := latestRecord_none _ _ hnone
  have hp : ∀ r ∈ st.patient_records,
      (fun r : PatientRecord => some r.id == (none : Option Int)) r = false := by
    intro r _; rfl
  generalize hout : mergeLatest lib st now body = out at hok ⊢
  unfold mergeLatest at hout
  split at hout
  · subst hout; simp at hok
  · simp only [hlat, Option.map_none', returning_nil _ _ _ hp, updateRows_none _ _ _ hp] at hout
    cases hseq : nextval st.patientRecordsSeq with
    | error e => simp only [hseq] at hout; subst hout; simp [serverError] at hok
    | ok id =>
      simp only [hseq] at hout
      split at hout
      · subst hout; simp [serverError] at hok
      · rename_i rows hins
        obtain ⟨hrows, hfresh⟩ := insertRecord_ok _ _ _ hins
        subst hout
        exact ⟨id, by simp [hrows, firstRecord], hfresh⟩

theorem mergeLatest_update (lib : Lib) (rows : List PatientRecord) (st : Store) (now : Nat)
    (body : MergeBody) (r : PatientRecord) (hp : truthy body.patient = true)
    (hst : st.patient_records = rows ++ [r])
    (hr : r.patient = jsTrim (jsString lib body.patient))
    (hnone : rows.filter (fun x => x.patient == jsTrim (jsString lib body.patient)) = [])
    (hfresh : ∀ x ∈ rows, x.id ≠ r.id) :
    (mergeLatest lib st now body).1.status = 200 ∧
    (mergeLatest lib st now body).2.patient_records = rows ++ [setRecord lib body r] := by
  have hlat : latestRecord st.patient_records (jsTrim (jsString lib body.patient)) = some r := by
    unfold latestRecord
    rw [hst, List.filter_append, hnone]
    simp [List.filter, hr]
  have hupd : updateRows (fun x : PatientRecord => some x.id == some r.id) (setRecord lib body)
      st.patient_records = rows ++ [setRecord lib body r] := by
    unfold updateRows
    rw [hst, List.map_append]
    congr 1
    · conv_rhs => rw [← List.map_id rows]
      apply List.map_congr_left
      intro x hx
      simp [hfresh x hx]
    · simp
  have hret : ∃ tl, returning (fun x : PatientRecord => some x.id == some r.id)
      (setRecord lib body) st.patient_records = setRecord lib body r :: tl := by
    apply returning_of_find
    rw [hst, List.find?_append]
    have : rows.find? (fun x : PatientRecord => some x.id == some r.id) = none := by
      rw [List.find?_eq_none]
      intro x hx
      simp [hfresh x hx]
    rw [this]
    simp
  obtain ⟨tl, htl⟩ := hret
  unfold mergeLatest
  simp only [hp, hlat, Option.map_some', htl, hupd]
  simp

theorem find_unique {α : Type} (p : α → Bool) (l : List α) (r : α) (hr : r ∈ l)
    (hp : p r = true) (hu : ∀ x ∈ l, p x = true → x = r) : l.find? p = some r := by
  induction l with
  | nil => cases hr
  | cons y ys ih =>
    by_cases hy : p y = true
    · have := hu y (List.mem_cons_self _ _) hy
      subst this
      simp [List.find?, hy]
    · have hne : r ≠ y := fun h => hy (h ▸ hp)
      have hr2 : r ∈ ys := by
        rcases List.mem_cons.mp hr with h | h
        · exact absurd h hne
        · exact h
      simp only [List.find?, hy]
      exact ih hr2 (fun x hx => hu x (List.mem_cons_of_mem _ hx))

theorem foldl_latest (l : List PatientRecord) (b : PatientRecord) :
    ∃ r, l.foldl
        (fun best r =>
          match best with
          | none => some r
          | some b => if b.created_at < r.created_at then some r else some b)
        (some b) = some r ∧
      (r = b ∨ r ∈ l) ∧ b.created_at ≤ r.created_at ∧ ∀ x ∈ l, x.created_at ≤ r.created_at := by
  induction l generalizing b with
  | nil => exact ⟨b, rfl, Or.inl rfl, le_refl _, by simp⟩
  | cons y ys ih =>
    simp only [List.foldl_cons]
    by_cases hlt : b.created_at < y.created_at
    · simp only [hlt, if_true]
      obtain ⟨r, hr, hmem, hle, hall⟩ := ih y
      refine ⟨r, hr, ?_, by omega, ?_⟩
      · rcases hmem with h | h
        · exact Or.inr (by rw [h]; exact List.mem_cons_self _ _)
        · exact Or.inr (List.mem_cons_of_mem _ h)
      · intro x hx
        rcases List.mem_cons.mp hx with h | h
        · rw [h]; exact hle
        · exact hall x h
    · simp only [hlt, if_false]
      obtain ⟨r, hr, hmem, hle, hall⟩ := ih b
      refine ⟨r, hr, ?_, hle, ?_⟩
      · rcases hmem with h | h
        · exact Or.inl h
        · exact Or.inr (List.mem_cons_of_mem _ h)
      · intro x hx
        rcases List.mem_cons.mp hx with h | h
        · rw [h]; omega
        · exact hall x h

theorem latestRecord_some (rows : List PatientRecord) (patient : String)
    (h : rows.filter (fun r => r.patient == patient) ≠ []) :
    ∃ r, latestRecord rows patient = some r ∧ r ∈ rows ∧ r.patient = patient ∧
      ∀ x ∈ rows, x.patient = patient → x.created_at ≤ r.created_at := by
  unfold latestRecord
  cases hf : rows.filter (fun r => r.patient == patient) with
  | nil => exact absurd hf h
  | cons y ys =>
    simp only [List.foldl_cons]
    obtain ⟨r, hr, hmem, hle, hall⟩ := foldl_latest ys y
    have hin : r ∈ rows.filter (fun r => r.patient == patient) := by
      rw [hf]
      rcases hmem with h1 | h1
      · rw [h1]; exact List.mem_cons_self _ _
      · exact List.mem_cons_of_mem _ h1
    rw [List.mem_filter] at hin
    refine ⟨r, hr, hin.1, by simpa using hin.2, ?_⟩
    intro x hx hxp
    have hxin : x ∈ y :: ys := by
      rw [← hf, List.mem_filter]
      exact ⟨hx, by simpa using hxp⟩
    rcases List.mem_cons.mp hxin with h1 | h1
    · rw [h1]; exact hle
    · exact hall x h1

theorem mergeLatest_updates (lib : Lib) (st : Store) (now : Nat) (body : MergeBody)
    (hp : truthy body.patient = true) (hkey : recordsKeyed st)
    (hsome : recordsOf st (jsTrim (jsString lib body.patient)) ≠ []) :
    ∃ r ∈ st.patient_records, r.patient = jsTrim (jsString lib body.patient) ∧
      (∀ x ∈ st.patient_records, x.patient = jsTrim (jsString lib body.patient) →
        x.created_at ≤ r.created_at) ∧
      mergeLatest lib st now body =
        (⟨200, .row (recordJson (setRecord lib body r))⟩,
         { st with patient_records :=
            st.patient_records.map (fun x => if x = r then setRecord lib body r else x) }) := by
  obtain ⟨r, hlat, hmem, hpat, hmax⟩ := latestRecord_some _ _ hsome
  refine ⟨r, hmem, hpat, hmax, ?_⟩
  have hfind : st.patient_records.find? (fun x : PatientRecord => some x.id == some r.id)
      = some r := by
    apply find_unique _ _ _ hmem (by simp)
    intro x hx hpx
    exact List.inj_on_of_nodup_map hkey hx hmem (by simpa using hpx)
  obtain ⟨tl, htl⟩ := returning_of_find _ (setRecord lib body) _ _ hfind
  have hupd : updateRows (fun x : PatientRecord => some x.id == some r.id) (setRecord lib body)
      st.patient_records
      = st.patient_records.map (fun x => if x = r then setRecord lib body r else x) := by
    unfold updateRows
    apply List.map_congr_left
    intro x hx
    by_cases hxr : x = r
    · simp [hxr]
    · have hne : x.id ≠ r.id := fun heq =>
        hxr (List.inj_on_of_nodup_map hkey hx hmem heq)
      simp [hxr, hne]
  unfold mergeLatest
  simp only [hp, hlat, Option.map_some', htl, hupd]
  simp

theorem mergeLatest_inserts (lib : Lib) (st : Store) (now : Nat) (body : MergeBody)
    (hp : truthy body.patient = true)
    (hnone : recordsOf st (jsTrim (jsString lib body.patient)) = [])
    (hseq : recordsSeqFresh st) :
    mergeLatest lib st now body =
      (⟨200, .row (recordJson (firstRecord lib body now (st.patientRecordsSeq + 1)))⟩,
       { st with
         patientRecordsSeq := st.patientRecordsSeq + 1
         patient_records :=
           st.patient_records ++ [firstRecord lib body now (st.patientRecordsSeq + 1)] }) := by
  have hlat := latestRecord_none _ _ hnone
  have hq : ∀ r ∈ st.patient_records,
      (fun r : PatientRecord => some r.id == (none : Option Int)) r = false := by
    intro r _; rfl
  have hany : (st.patient_records.any fun x => x.id == st.patientRecordsSeq + 1) = false := by
    rw [List.any_eq_false]
    intro x hx
    simpa using hseq.2 x hx
  have hins : insertRecord st.patient_records
      (firstRecord lib body now (st.patientRecordsSeq + 1))
      = .ok (st.patient_records ++ [firstRecord lib body now (st.patientRecordsSeq + 1)]) := by
    unfold insertRecord
    rw [show (firstRecord lib body now (st.patientRecordsSeq + 1)).id
      = st.patientRecordsSeq + 1 from rfl, hany]
    rfl
  unfold firstRecord at hins
  unfold mergeLatest
  simp only [hp, hlat, Option.map_none', returning_nil _ _ _ hq, updateRows_none _ _ _ hq,
    nextval, hseq.1, firstRecord]
  simp only [Bool.not_true, Bool.false_eq_true, if_false, if_true]
  rw [hins]

/-- C11 as stated fails: no record's patient equals the supplied name
` Jane` exactly, yet the call inserts nothing; it trims the name, finds the
record stored under `Jane` and overwrites its doctor. -/
theorem mergeLatest_exact_counterexample :
    (∀ r ∈ janeRecordStore.patient_records, r.patient ≠ " Jane") ∧
    (mergeLatest demoLib janeRecordStore 5 paddedJane).1.status = 200 ∧
    (mergeLatest demoLib janeRecordStore 5 paddedJane).2.patient_records
      = [⟨1, "Jane", none, none, some "old note", some "Dr. B", none, none, 1⟩] ∧
    (mergeLatest demoLib janeRecordStore 5 paddedJane).2.patient_records
      ≠ janeRecordStore.patient_records := by
  decide

/-- C11 (amended): let `key` be the supplied, non-empty patient name with
surrounding white space trimmed.  If some record is stored under `key` (and
`id` is a key of the table), the call answers 200 and rewrites one record
`r` stored under `key` whose creation timestamp is greatest among them; the
table keeps its rows and every other record, older records of `key` and
records of other names included, is unchanged.  If no record is stored
under `key` (and the sequence can hand out its next value), the call answers
200 and appends exactly one record with the supplied fields, changing no
existing record. -/
theorem mergeLatest_frame (lib : Lib) (st : Store) (now : Nat) (body : MergeBody)
    (hp : truthy body.patient = true) :
    (recordsKeyed st → recordsOf st (jsTrim (jsString lib body.patient)) ≠ [] →
      ∃ r ∈ st.patient_records, r.patient = jsTrim (jsString lib body.patient) ∧
        (∀ x ∈ st.patient_records, x.patient = jsTrim (jsString lib body.patient) →
          x.created_at ≤ r.created_at) ∧
        mergeLatest lib st now body =
          (⟨200, .row (recordJson (setRecord lib body r))⟩,
           { st with patient_records :=
              st.patient_records.map (fun x => if x = r then setRecord lib body r else x) })) ∧
    (recordsSeqFresh st → recordsOf st (jsTrim (jsString lib body.patient)) = [] →
      mergeLatest lib st now body =
        (⟨200, .row (recordJson (firstRecord lib body now (st.patientRecordsSeq + 1)))⟩,
         { st with
           patientRecordsSeq := st.patientRecordsSeq + 1
           patient_records :=
             st.patient_records ++ [firstRecord lib body now (st.patientRecordsSeq + 1)] })) :=
  ⟨fun hkey hsome => mergeLatest_updates lib st now body hp hkey hsome,
   fun hseq hnone => mergeLatest_inserts lib st now body hp hnone hseq⟩

/-- Witness of `mergeLatest_frame`: the padded name rewrites the one record
stored under `Jane`, and a first merge for Jane Doe appends one record. -/
theorem mergeLatest_frame_witness :
    (∃ r ∈ janeRecordStore.patient_records, r.patient = "Jane" ∧
      (∀ x ∈ janeRecordStore.patient_records, x.patient = "Jane" →
        x.created_at ≤ r.created_at) ∧
      mergeLatest demoLib janeRecordStore 5 paddedJane =
        (⟨200, .row (recordJson (setRecord demoLib paddedJane r))⟩,
         { janeRecordStore with patient_records :=
            (janeRecordStore.patient_records.map
              (fun x => if x = r then setRecord demoLib paddedJane r else x)) })) ∧
    mergeLatest demoLib Store.empty 1 drA =
      (⟨200, .row (recordJson (firstRecord demoLib drA 1 1))⟩,
       { Store.empty with
         patientRecordsSeq := 1
         patient_records := [firstRecord demoLib drA 1 1] }) :=
  ⟨(mergeLatest_frame demoLib janeRecordStore 5 paddedJane (by decide)).1
      (by unfold recordsKeyed; decide) (by decide),
   (mergeLatest_frame demoLib Store.empty 1 drA (by decide)).2
      (by unfold recordsSeqFresh; decide) (by decide)⟩

/-- C10 as stated fails: no record is stored under the supplied name
` Jane`, yet after the two merges (a doctor, then a medicine) there is still
no record under that name; both calls trimmed the name and rewrote the
record stored under `Jane`, whose notes stay `old note` although neither
call supplied notes. -/
theorem mergeLatest_twice_counterexample :
    recordsOf janeRecordStore " Jane" = [] ∧
    (mergeLatest demoLib janeRecordStore 5 paddedJane).1.status = 200 ∧
    (mergeLatest demoLib (mergeLatest demoLib janeRecordStore 5 paddedJane).2 6
        paddedIbuprofen).1.status = 200 ∧
    recordsOf (mergeLatest demoLib (mergeLatest demoLib janeRecordStore 5 paddedJane).2 6
        paddedIbuprofen).2 " Jane" = [] ∧
    (mergeLatest demoLib (mergeLatest demoLib janeRecordStore 5 paddedJane).2 6
        paddedIbuprofen).2.patient_records
      = [⟨1, "Jane", none, none, some "old note", some "Dr. B", some "Ibuprofen", none, 1⟩] := by
  decide

/-- C10 (amended): let `key` be the supplied, non-empty patient name with
surrounding white space trimmed, the name records are stored under.  If no
record is stored under `key` and the sequence can hand out its next value,
two sequential `mergeLatest` calls with the fields `b1` then `b2` both
answer 200; the first adds one row and the second adds none; exactly one
record is stored under `key` afterwards, and each of doctor, medicine,
dosage, notes, date and time of it holds the value of `b2` if `b2` supplied
one, otherwise the value of `b1` if `b1` supplied one, otherwise NULL. -/
theorem mergeLatest_twice (lib : Lib) (st : Store) (now1 now2 : Nat) (b1 b2 : MergeBody)
    (hp : truthy b1.patient = true) (hsame : b2.patient = b1.patient)
    (hnone : recordsOf st (jsTrim (jsString lib b1.patient)) = [])
    (hseq : recordsSeqFresh st) :
    (mergeLatest lib st now1 b1).1.status = 200 ∧
    (mergeLatest lib st now1 b1).2.patient_records.length = st.patient_records.length + 1 ∧
    (mergeLatest lib (mergeLatest lib st now1 b1).2 now2 b2).1.status = 200 ∧
    (mergeLatest lib (mergeLatest lib st now1 b1).2 now2 b2).2.patient_records.length
      = (mergeLatest lib st now1 b1).2.patient_records.length ∧
    ∃ r, recordsOf (mergeLatest lib (mergeLatest lib st now1 b1).2 now2 b2).2
          (jsTrim (jsString lib b1.patient)) = [r] ∧
      r.patient = jsTrim (jsString lib b1.patient) ∧
      r.doctor = coalesce (pgText lib b2.doctor) (pgText lib b1.doctor) ∧
      r.medicine = coalesce (pgText lib b2.medicine) (pgText lib b1.medicine) ∧
      r.dosage = coalesce (pgText lib b2.dosage) (pgText lib b1.dosage) ∧
      r.notes = coalesce (pgText lib b2.notes) (pgText lib b1.notes) ∧
      r.date = coalesce (pgText lib b2.date) (pgText lib b1.date) ∧
      r.time = coalesce (pgText lib b2.time) (pgText lib b1.time) := by
  have hfirst := mergeLatest_inserts lib st now1 b1 hp hnone hseq
  have hrows : (mergeLatest lib st now1 b1).2.patient_records
      = st.patient_records ++ [firstRecord lib b1 now1 (st.patientRecordsSeq + 1)] := by
    rw [hfirst]
  have hp2 : truthy b2.patient = true := by rw [hsame]; exact hp
  have hnone2 : st.patient_records.filter
      (fun x => x.patient == jsTrim (jsString lib b2.patient)) = [] := by
    rw [hsame]; exact hnone
  obtain ⟨hstatus, hsecond⟩ := mergeLatest_update lib st.patient_records
    (mergeLatest lib st now1 b1).2 now2 b2
    (firstRecord lib b1 now1 (st.patientRecordsSeq + 1)) hp2 hrows
    (by rw [hsame]; rfl) hnone2 hseq.2
  refine ⟨by rw [hfirst], by rw [hrows]; simp, hstatus, by rw [hsecond, hrows]; simp,
    setRecord lib b2 (firstRecord lib b1 now1 (st.patientRecordsSeq + 1)),
    ?_, rfl, rfl, rfl, rfl, rfl, rfl, rfl⟩
  unfold recordsOf at hnone ⊢
  rw [hsecond, List.filter_append, hnone]
  simp [List.filter, setRecord, firstRecord]

/-- Witness of `mergeLatest_twice`: for Jane Doe, a doctor and then a
medicine give one row holding both. -/
theorem mergeLatest_twice_witness :
    (mergeLatest demoLib Store.empty 1 drA).1.status = 200 ∧
    (mergeLatest demoLib (mergeLatest demoLib Store.empty 1 drA).2 2 ibuprofen).1.status = 200 ∧
    (mergeLatest demoLib (mergeLatest demoLib Store.empty 1 drA).2 2 ibuprofen).2.patient_records
      = [⟨1, "Jane Doe", none, none, none, some "Dr. A", some "Ibuprofen", none, 1⟩] :=
  ⟨(mergeLatest_twice demoLib Store.empty 1 2 drA ibuprofen (by decide) rfl (by decide)
      (by unfold recordsSeqFresh; decide)).1,
   (mergeLatest_twice demoLib Store.empty 1 2 drA ibuprofen (by decide) rfl (by decide)
      (by unfold recordsSeqFresh; decide)).2.2.1, by decide⟩

theorem hasTable_map (g : Table → Table) (hg : ∀ tb, (g tb).name = tb.name) (s : Schema)
    (t : String) : hasTable (s.map g) t = hasTable s t := by
  unfold hasTable
  induction s with
  | nil => rfl
  | cons tb rest ih => simp only [List.map_cons, List.any_cons, hg, ih]

theorem hasColumnIn_map (g : Table → Table) (hg : ∀ tb, (g tb).name = tb.name)
    (hcol : ∀ tb c, hasColumn tb c = true → hasColumn (g tb) c = true) (s : Schema)
    (t c : String) (h : hasColumnIn s t c = true) : hasColumnIn (s.map g) t c = true := by
  unfold hasColumnIn at h ⊢
  rw [List.any_eq_true] at h ⊢
  obtain ⟨tb, htb, hp⟩ := h
  rw [Bool.and_eq_true] at hp
  exact ⟨g tb, List.mem_map_of_mem g htb, by rw [Bool.and_eq_true, hg]; exact ⟨hp.1, hcol tb c hp.2⟩⟩

theorem rowCount_map (g : Table → Table) (hg : ∀ tb, (g tb).name = tb.name)
    (hrows : ∀ tb, (g tb).rows.length = tb.rows.length) (s : Schema) (t : String) :
    rowCount (s.map g) t = rowCount s t := by
  unfold rowCount
  induction s with
  | nil => rfl
  | cons tb rest ih =>
    simp only [List.map_cons, List.filter_cons, hg]
    by_cases h : (tb.name == t) = true
    · simp only [h, if_true, List.map_cons, List.sum_cons, hrows]
      rw [ih]
    · simp only [h, if_false]
      exact ih

theorem hasColumn_addColumnTo (tb : Table) (d : ColumnDef) (c : String)
    (h : hasColumn tb c = true) : hasColumn (addColumnTo tb d) c = true := by
  unfold hasColumn addColumnTo at *
  simp only [List.any_append, h, Bool.true_or]

theorem addColumnIfMissing_name (t : String) (c : ColumnDef) (tb : Table) :
    (addColumnIfMissing t c tb).name = tb.name := by
  unfold addColumnIfMissing; split <;> rfl

theorem dropConstraintIn_name (t k : String) (tb : Table) :
    (dropConstraintIn t k tb).name = tb.name := by
  unfold dropConstraintIn; split <;> rfl

theorem addColumnIfMissing_hasColumn (t : String) (c : ColumnDef) (tb : Table) (x : String)
    (h : hasColumn tb x = true) : hasColumn (addColumnIfMissing t c tb) x = true := by
  unfold addColumnIfMissing
  split
  · exact hasColumn_addColumnTo tb c x h
  · exact h

theorem dropConstraintIn_hasColumn (t k : String) (tb : Table) (x : String)
    (h : hasColumn tb x = true) : hasColumn (dropConstraintIn t k tb) x = true := by
  unfold dropConstraintIn
  split
  · exact h
  · exact h

theorem exec_createTable (t : String) (cols : List ColumnDef) (s s2 : Schema)
    (h : exec (.createTable t cols) s = .ok s2) :
    (hasTable s t = true ∧ s2 = s) ∨
    (hasTable s t = false ∧
      s2 = s ++ [{ name := t, columns := cols.map ColumnDef.column,
                   constraints := cols.foldr (fun c acc => columnConstraints t c ++ acc) [],
                   rows := [] }]) := by
  simp only [exec] at h
  by_cases ht : hasTable s t = true
  · rw [if_pos ht] at h; cases h; exact Or.inl ⟨ht, rfl⟩
  · rw [if_neg ht] at h; cases h; exact Or.inr ⟨by simpa using ht, rfl⟩

theorem exec_addColumn (t : String) (c : ColumnDef) (s s2 : Schema)
    (h : exec (.addColumn t c) s = .ok s2) :
    hasTable s t = true ∧ s2 = s.map (addColumnIfMissing t c) := by
  simp only [exec] at h
  by_cases ht : hasTable s t = true
  · rw [if_pos ht] at h; cases h; exact ⟨ht, rfl⟩
  · rw [if_neg ht] at h; cases h

theorem exec_dropConstraint (t k : String) (s s2 : Schema)
    (h : exec (.dropConstraint t k) s = .ok s2) :
    hasTable s t = true ∧ s2 = s.map (dropConstraintIn t k) := by
  simp only [exec] at h
  by_cases ht : hasTable s t = true
  · rw [if_pos ht] at h; cases h; exact ⟨ht, rfl⟩
  · rw [if_neg ht] at h; cases h

theorem exec_nothingRemoved (d : Ddl) (s s2 : Schema) (h : exec d s = .ok s2) :
    nothingRemoved s s2 := by
  cases d with
  | createTable t cols =>
    rcases exec_createTable t cols s s2 h with ⟨_, rfl⟩ | ⟨_, rfl⟩
    · exact ⟨fun _ h => h, fun _ _ h => h, fun _ => rfl⟩
    · refine ⟨?_, ?_, ?_⟩
      · intro t2 ht
        unfold hasTable at ht ⊢
        simp only [List.any_append, ht, Bool.true_or]
      · intro t2 c hc
        unfold hasColumnIn at hc ⊢
        simp only [List.any_append, hc, Bool.true_or]
      · intro t2
        unfold rowCount
        simp only [List.filter_append, List.map_append, List.sum_append]
        by_cases ht : (t == t2) = true
        · simp [List.filter, ht]
        · simp [List.filter, ht]
  | addColumn t c =>
    obtain ⟨_, rfl⟩ := exec_addColumn t c s s2 h
    refine ⟨?_, ?_, ?_⟩
    · intro t2 ht
      rw [hasTable_map _ (addColumnIfMissing_name t c)]; exact ht
    · intro t2 c2 hc
      exact hasColumnIn_map _ (addColumnIfMissing_name t c)
        (addColumnIfMissing_hasColumn t c) _ _ _ hc
    · intro t2
      apply rowCount_map _ (addColumnIfMissing_name t c)
      intro tb
      unfold addColumnIfMissing
      split
      · simp [addColumnTo]
      · rfl
  | dropConstraint t k =>
    obtain ⟨_, rfl⟩ := exec_dropConstraint t k s s2 h
    refine ⟨?_, ?_, ?_⟩
    · intro t2 ht
      rw [hasTable_map _ (dropConstraintIn_name t k)]; exact ht
    · intro t2 c2 hc
      exact hasColumnIn_map _ (dropConstraintIn_name t k)
        (dropConstraintIn_hasColumn t k) _ _ _ hc
    · intro t2
      apply rowCount_map _ (dropConstraintIn_name t k)
      intro tb
      unfold dropConstraintIn
      split <;> rfl

theorem nothingRemoved_refl (s : Schema) : nothingRemoved s s :=
  ⟨fun _ h => h, fun _ _ h => h, fun _ => rfl⟩

theorem nothingRemoved_trans (a b c : Schema) (h1 : nothingRemoved a b)
    (h2 : nothingRemoved b c) : nothingRemoved a c :=
  ⟨fun t h => h2.1 t (h1.1 t h), fun t x h => h2.2.1 t x (h1.2.1 t x h),
   fun t => (h2.2.2 t).trans (h1.2.2 t)⟩

theorem execAt_ok (fault : Nat → Bool) (k : Nat) (d : Ddl) (s s2 : Schema)
    (h : execAt fault k d s = .ok s2) : fault k = false ∧ exec d s = .ok s2 := by
  unfold execAt at h
  split at h
  · cases h
  · rename_i hf
    exact ⟨by simpa using hf, h⟩

theorem runBlock_nothingRemoved (fault : Nat → Bool) (steps : List Step) (k : Nat)
    (s : Schema) : nothingRemoved s (runBlock fault k steps s).schema := by
  induction steps generalizing k s with
  | nil => exact nothingRemoved_refl s
  | cons step rest ih =>
    unfold runBlock
    cases hx : execAt fault k step.ddl s with
    | ok s1 =>
      simp only
      exact nothingRemoved_trans _ _ _
        (exec_nothingRemoved _ _ _ (execAt_ok _ _ _ _ _ hx).2) (ih (k + 1) s1)
    | error e =>
      simp only
      split
      · exact ih (k + 1) s
      · exact nothingRemoved_refl s

theorem reconcile_schema (fault : Nat → Bool) (s : Schema) :
    (reconcile fault s).schema
      = (runBlock fault ensureSchemaSteps.length patientRecordsSteps
          (runBlock fault 0 ensureSchemaSteps s).schema).schema ∧
    (reconcile fault s).trace
      = (runBlock fault 0 ensureSchemaSteps s).trace ++
        (runBlock fault ensureSchemaSteps.length patientRecordsSteps
          (runBlock fault 0 ensureSchemaSteps s).schema).trace ∧
    (reconcile fault s).escaped = none := by
  unfold reconcile ensureSchema
  generalize runBlock fault 0 ensureSchemaSteps s = r1
  obtain ⟨s1, t1, th1⟩ := r1
  cases th1 <;> simp only <;>
    (generalize runBlock fault ensureSchemaSteps.length patientRecordsSteps s1 = r2
     obtain ⟨s2, t2, th2⟩ := r2
     cases th2 <;> exact ⟨rfl, rfl, rfl⟩)

theorem reconcile_nothingRemoved (fault : Nat → Bool) (s : Schema) :
    nothingRemoved s (reconcile fault s).schema := by
  rw [(reconcile_schema fault s).1]
  exact nothingRemoved_trans _ _ _ (runBlock_nothingRemoved _ _ _ _)
    (runBlock_nothingRemoved _ _ _ _)

theorem map_eq_self {α : Type} (f : α → α) (l : List α) (h : ∀ x ∈ l, f x = x) :
    l.map f = l := by
  induction l with
  | nil => rfl
  | cons x xs ih =>
    rw [List.map_cons, h x (List.mem_cons_self _ _),
      ih (fun y hy => h y (List.mem_cons_of_mem _ hy))]

theorem exec_of_satisfied (d : Ddl) (s : Schema) (h : satisfied d s = true) :
    exec d s = .ok s := by
  cases d with
  | createTable t cols =>
    simp only [satisfied] at h
    simp only [exec, h, if_true]
  | addColumn t c =>
    simp only [satisfied, Bool.and_eq_true, List.all_eq_true] at h
    simp only [exec, h.1, if_true]
    rw [map_eq_self]
    intro tb htb
    have := h.2 tb htb
    unfold addColumnIfMissing
    by_cases hn : tb.name = t
    · simp [hn] at this
      simp [hn, this]
    · simp [hn]
  | dropConstraint t k =>
    simp only [satisfied, Bool.and_eq_true, List.all_eq_true] at h
    simp only [exec, h.1, if_true]
    rw [map_eq_self]
    intro tb htb
    have := h.2 tb htb
    unfold dropConstraintIn
    by_cases hn : tb.name = t
    · simp [hn] at this
      have hf : tb.constraints.filter (fun x => x != k) = tb.constraints := by
        rw [List.filter_eq_self]
        intro x hx
        have : x ≠ k := fun hxk => this (hxk ▸ hx)
        simpa using this
      rw [if_pos (by simp [hn]), hf]
    · simp [hn]

theorem exec_satisfied (d : Ddl) (s s2 : Schema) (h : exec d s = .ok s2) :
    satisfied d s2 = true := by
  cases d with
  | createTable t cols =>
    rcases exec_createTable t cols s s2 h with ⟨ht, rfl⟩ | ⟨_, rfl⟩
    · exact ht
    · simp [satisfied, hasTable]
  | addColumn t c =>
    obtain ⟨ht, rfl⟩ := exec_addColumn t c s s2 h
    simp only [satisfied, Bool.and_eq_true, List.all_eq_true]
    refine ⟨by rw [hasTable_map _ (addColumnIfMissing_name t c)]; exact ht, ?_⟩
    intro tb2 htb2
    obtain ⟨tb, _, rfl⟩ := List.mem_map.mp htb2
    rw [addColumnIfMissing_name]
    by_cases hn : tb.name = t
    · by_cases hc : hasColumn tb c.name = true
      · simp [hn, addColumnIfMissing, hc]
      · have hcond : (tb.name == t && !hasColumn tb c.name) = true := by simp [hn, hc]
        simp only [addColumnIfMissing, hcond, if_true]
        simp [addColumnTo, hasColumn, ColumnDef.column]
    · simp [hn]
  | dropConstraint t k =>
    obtain ⟨ht, rfl⟩ := exec_dropConstraint t k s s2 h
    simp only [satisfied, Bool.and_eq_true, List.all_eq_true]
    refine ⟨by rw [hasTable_map _ (dropConstraintIn_name t k)]; exact ht, ?_⟩
    intro tb2 htb2
    obtain ⟨tb, _, rfl⟩ := List.mem_map.mp htb2
    rw [dropConstraintIn_name]
    by_cases hn : tb.name = t
    · have hcond : (tb.name == t) = true := by simp [hn]
      simp only [dropConstraintIn, hcond, if_true]
      simp [List.mem_filter]
    · simp [hn]

theorem satisfied_addColumn_iff (t : String) (c : ColumnDef) (s : Schema) :
    satisfied (.addColumn t c) s = true ↔ hasTable s t = true ∧ allHaveColumn s t c.name := by
  simp only [satisfied, Bool.and_eq_true, List.all_eq_true, allHaveColumn]
  constructor
  · rintro ⟨h1, h2⟩
    refine ⟨h1, fun tb htb hn => ?_⟩
    have := h2 tb htb
    simpa [hn] using this
  · rintro ⟨h1, h2⟩
    refine ⟨h1, fun tb htb => ?_⟩
    by_cases hn : tb.name = t
    · simp [h2 tb htb hn]
    · simp [hn]

theorem satisfied_dropConstraint_iff (t k : String) (s : Schema) :
    satisfied (.dropConstraint t k) s = true ↔
      hasTable s t = true ∧ noneHasConstraint s t k := by
  simp only [satisfied, Bool.and_eq_true, List.all_eq_true, noneHasConstraint]
  constructor
  · rintro ⟨h1, h2⟩
    refine ⟨h1, fun tb htb hn => ?_⟩
    have := h2 tb htb
    simpa [hn] using this
  · rintro ⟨h1, h2⟩
    refine ⟨h1, fun tb htb => ?_⟩
    by_cases hn : tb.name = t
    · simp [h2 tb htb hn]
    · simp [hn]

theorem hasTable_of_mem (s : Schema) (tb : Table) (h : tb ∈ s) : hasTable s tb.name = true := by
  unfold hasTable
  rw [List.any_eq_true]
  exact ⟨tb, h, by simp⟩

theorem exec_allHaveColumn (d : Ddl) (s s2 : Schema) (t c : String)
    (h : exec d s = .ok s2) (ht : hasTable s t = true) (hall : allHaveColumn s t c) :
    allHaveColumn s2 t c := by
  cases d with
  | createTable t2 cols =>
    rcases exec_createTable t2 cols s s2 h with ⟨_, rfl⟩ | ⟨hno, rfl⟩
    · exact hall
    · intro tb htb hn
      rcases List.mem_append.mp htb with h1 | h1
      · exact hall tb h1 hn
      · rw [List.mem_singleton] at h1
        subst h1
        simp only at hn
        rw [hn, ht] at hno
        cases hno
  | addColumn t2 c2 =>
    obtain ⟨_, rfl⟩ := exec_addColumn t2 c2 s s2 h
    intro tb2 htb2 hn
    obtain ⟨tb, htb, rfl⟩ := List.mem_map.mp htb2
    rw [addColumnIfMissing_name] at hn
    exact addColumnIfMissing_hasColumn t2 c2 tb c (hall tb htb hn)
  | dropConstraint t2 k =>
    obtain ⟨_, rfl⟩ := exec_dropConstraint t2 k s s2 h
    intro tb2 htb2 hn
    obtain ⟨tb, htb, rfl⟩ := List.mem_map.mp htb2
    rw [dropConstraintIn_name] at hn
    exact dropConstraintIn_hasColumn t2 k tb c (hall tb htb hn)

theorem exec_noneHasConstraint (d : Ddl) (s s2 : Schema) (t k : String)
    (h : exec d s = .ok s2) (ht : hasTable s t = true) (hall : noneHasConstraint s t k)
    (hclash : noClash (.dropConstraint t k) d = true) :
    noneHasConstraint s2 t k := by
  cases d with
  | createTable t2 cols =>
    rcases exec_createTable t2 cols s s2 h with ⟨_, rfl⟩ | ⟨hno, rfl⟩
    · exact hall
    · intro tb htb hn
      rcases List.mem_append.mp htb with h1 | h1
      · exact hall tb h1 hn
      · rw [List.mem_singleton] at h1
        subst h1
        simp only at hn
        rw [hn, ht] at hno
        cases hno
  | addColumn t2 c2 =>
    obtain ⟨_, rfl⟩ := exec_addColumn t2 c2 s s2 h
    intro tb2 htb2 hn
    obtain ⟨tb, htb, rfl⟩ := List.mem_map.mp htb2
    rw [addColumnIfMissing_name] at hn
    have hold := hall tb htb hn
    unfold addColumnIfMissing
    split
    · rename_i hcond
      simp only [Bool.and_eq_true, beq_iff_eq] at hcond
      simp only [addColumnTo, List.mem_append, not_or]
      refine ⟨hold, ?_⟩
      simp only [noClash, Bool.not_eq_true', Bool.and_eq_false_iff] at hclash
      rcases hclash with h1 | h1
      · rw [← hcond.1, hn] at h1
        simp at h1
      · rw [hcond.1]
        intro hk
        have : (columnConstraints t2 c2).contains k = true := by simpa using hk
        rw [this] at h1
        cases h1
    · exact hold
  | dropConstraint t2 k2 =>
    obtain ⟨_, rfl⟩ := exec_dropConstraint t2 k2 s s2 h
    intro tb2 htb2 hn
    obtain ⟨tb, htb, rfl⟩ := List.mem_map.mp htb2
    rw [dropConstraintIn_name] at hn
    have hold := hall tb htb hn
    unfold dropConstraintIn
    split
    · simp only [List.mem_filter, not_and]
      intro hk
      exact absurd hk hold
    · exact hold

theorem satisfied_exec (d d2 : Ddl) (s s2 : Schema) (hs : satisfied d s = true)
    (hclash : noClash d d2 = true) (h : exec d2 s = .ok s2) : satisfied d s2 = true := by
  have hkeep := exec_nothingRemoved d2 s s2 h
  cases d with
  | createTable t cols =>
    simp only [satisfied] at hs ⊢
    exact hkeep.1 t hs
  | addColumn t c =>
    rw [satisfied_addColumn_iff] at hs ⊢
    exact ⟨hkeep.1 t hs.1, exec_allHaveColumn d2 s s2 t c.name h hs.1 hs.2⟩
  | dropConstraint t k =>
    rw [satisfied_dropConstraint_iff] at hs ⊢
    exact ⟨hkeep.1 t hs.1, exec_noneHasConstraint d2 s s2 t k h hs.1 hs.2 hclash⟩

theorem execAll_append (l1 l2 : List Ddl) (s s1 s2 : Schema) (h1 : execAll l1 s = .ok s1)
    (h2 : execAll l2 s1 = .ok s2) : execAll (l1 ++ l2) s = .ok s2 := by
  induction l1 generalizing s with
  | nil => cases h1; exact h2
  | cons d ds ih =>
    simp only [List.cons_append, execAll] at h1 ⊢
    cases hx : exec d s with
    | error e => rw [hx] at h1; cases h1
    | ok s3 =>
      rw [hx] at h1
      simp only
      exact ih s3 h1

theorem execAll_keeps_satisfied (d : Ddl) (ds : List Ddl) (s s2 : Schema)
    (hs : satisfied d s = true) (hclash : ∀ d2 ∈ ds, noClash d d2 = true)
    (h : execAll ds s = .ok s2) : satisfied d s2 = true := by
  induction ds generalizing s with
  | nil => cases h; exact hs
  | cons d2 rest ih =>
    simp only [execAll] at h
    cases hx : exec d2 s with
    | error e => rw [hx] at h; cases h
    | ok s3 =>
      rw [hx] at h
      exact ih s3 (satisfied_exec d d2 s s3 hs (hclash d2 (List.mem_cons_self _ _)) hx)
        (fun x hx2 => hclash x (List.mem_cons_of_mem _ hx2)) h

theorem execAll_satisfied (ds : List Ddl) (s s2 : Schema)
    (hpair : ds.Pairwise (fun a b => noClash a b = true)) (h : execAll ds s = .ok s2) :
    ∀ d ∈ ds, satisfied d s2 = true := by
  induction ds generalizing s with
  | nil => intro d hd; cases hd
  | cons d rest ih =>
    simp only [execAll] at h
    rw [List.pairwise_cons] at hpair
    cases hx : exec d s with
    | error e => rw [hx] at h; cases h
    | ok s3 =>
      rw [hx] at h
      intro x hxm
      rcases List.mem_cons.mp hxm with h1 | h1
      · rw [h1]
        exact execAll_keeps_satisfied d rest s3 s2 (exec_satisfied d s s3 hx) hpair.1 h
      · exact ih s3 hpair.2 h x h1

theorem runBlock_allOk (fault : Nat → Bool) (steps : List Step) (k : Nat) (s : Schema)
    (h : ∀ e ∈ (runBlock fault k steps s).trace, e.2 = true) :
    (∀ i, i < steps.length → fault (k + i) = false) ∧
    execAll (steps.map (fun st => st.ddl)) s = .ok (runBlock fault k steps s).schema := by
  induction steps generalizing k s with
  | nil => exact ⟨fun i hi => absurd hi (Nat.not_lt_zero _), rfl⟩
  | cons step rest ih =>
    unfold runBlock at h ⊢
    cases hx : execAt fault k step.ddl s with
    | ok s1 =>
      rw [hx] at h
      simp only at h ⊢
      obtain ⟨hf, he⟩ := execAt_ok _ _ _ _ _ hx
      obtain ⟨hfaults, hrest⟩ := ih (k + 1) s1 (fun e hemem => h e (List.mem_cons_of_mem _ hemem))
      refine ⟨?_, ?_⟩
      · intro i hi
        cases i with
        | zero => exact hf
        | succ j =>
          have := hfaults j (by simpa using hi)
          rw [show k + (j + 1) = k + 1 + j by omega]
          exact this
      · simp only [List.map_cons, execAll, he]
        exact hrest
    | error e =>
      rw [hx] at h
      simp only at h
      exfalso
      split at h
      · have := h (k, false) (List.mem_cons_self _ _)
        cases this
      · have := h (k, false) (List.mem_cons_self _ _)
        cases this

theorem runBlock_noop (fault : Nat → Bool) (steps : List Step) (k : Nat) (s : Schema)
    (hs : ∀ st ∈ steps, satisfied st.ddl s = true)
    (hf : ∀ i, i < steps.length → fault (k + i) = false) :
    (runBlock fault k steps s).schema = s ∧
    (∀ e ∈ (runBlock fault k steps s).trace, e.2 = true) := by
  induction steps generalizing k with
  | nil => exact ⟨rfl, fun e he => by cases he⟩
  | cons step rest ih =>
    have hx : execAt fault k step.ddl s = .ok s := by
      unfold execAt
      have := hf 0 (by simp)
      simp only [Nat.add_zero] at this
      rw [this]
      exact exec_of_satisfied _ _ (hs step (List.mem_cons_self _ _))
    unfold runBlock
    rw [hx]
    simp only
    obtain ⟨h1, h2⟩ := ih (k + 1) (fun st hst => hs st (List.mem_cons_of_mem _ hst))
      (fun i hi => by
        have := hf (i + 1) (by simpa using hi)
        rw [show k + 1 + i = k + (i + 1) by omega]
        exact this)
    refine ⟨h1, ?_⟩
    intro e he
    rcases List.mem_cons.mp he with h3 | h3
    · rw [h3]
    · exact h2 e h3

theorem reconcileStatements_noClash :
    reconcileStatements.Pairwise (fun a b => noClash a b = true) := by
  decide

theorem reconcile_noop (fault : Nat → Bool) (s2 : Schema)
    (hs : ∀ d ∈ reconcileStatements, satisfied d s2 = true)
    (hf1 : ∀ i, i < ensureSchemaSteps.length → fault (0 + i) = false)
    (hf2 : ∀ i, i < patientRecordsSteps.length → fault (ensureSchemaSteps.length + i) = false) :
    (reconcile fault s2).schema = s2 ∧ allSucceeded (reconcile fault s2) := by
  have hs1 : ∀ st ∈ ensureSchemaSteps, satisfied st.ddl s2 = true := by
    intro st hst
    apply hs
    unfold reconcileStatements
    exact List.mem_map_of_mem _ (List.mem_append_left _ hst)
  have hs2 : ∀ st ∈ patientRecordsSteps, satisfied st.ddl s2 = true := by
    intro st hst
    apply hs
    unfold reconcileStatements
    exact List.mem_map_of_mem _ (List.mem_append_right _ hst)
  obtain ⟨h1, h2⟩ := runBlock_noop fault ensureSchemaSteps 0 s2 hs1 hf1
  obtain ⟨hschema, htrace, _⟩ := reconcile_schema fault s2
  rw [h1] at hschema htrace
  obtain ⟨h3, h4⟩ := runBlock_noop fault patientRecordsSteps ensureSchemaSteps.length s2 hs2 hf2
  refine ⟨by rw [hschema, h3], ?_⟩
  unfold allSucceeded
  rw [htrace]
  intro e he
  rcases List.mem_append.mp he with h5 | h5
  · exact h2 e h5
  · exact h4 e h5

/-- C12: when a reconciliation (the statements of `ensureSchema` and of the
`patient_records` block, in order) runs from a schema without any statement
failing, a second run from the schema it left has no failing statement
either, lets no error reach the caller, and leaves that schema exactly as it
was; and no run, failing or not, removes a table, a column or a row. -/
theorem reconcile_idempotent (fault : Nat → Bool) (s : Schema)
    (hok : allSucceeded (reconcile fault s)) :
    allSucceeded (reconcile fault (reconcile fault s).schema) ∧
    (reconcile fault (reconcile fault s).schema).escaped = none ∧
    (reconcile fault (reconcile fault s).schema).schema = (reconcile fault s).schema ∧
    (∀ (f2 : Nat → Bool) (s0 : Schema), nothingRemoved s0 (reconcile f2 s0).schema) := by
  obtain ⟨hschema, htrace, _⟩ := reconcile_schema fault s
  unfold allSucceeded at hok
  rw [htrace] at hok
  obtain ⟨hf1, he1⟩ := runBlock_allOk fault ensureSchemaSteps 0 s
    (fun e he => hok e (List.mem_append_left _ he))
  obtain ⟨hf2, he2⟩ := runBlock_allOk fault patientRecordsSteps ensureSchemaSteps.length
    (runBlock fault 0 ensureSchemaSteps s).schema
    (fun e he => hok e (List.mem_append_right _ he))
  have hall : execAll reconcileStatements s = .ok (reconcile fault s).schema := by
    unfold reconcileStatements
    rw [List.map_append, hschema]
    exact execAll_append _ _ _ _ _ he1 he2
  have hsat := execAll_satisfied _ _ _ reconcileStatements_noClash hall
  obtain ⟨h1, h2⟩ := reconcile_noop fault _ hsat hf1 hf2
  exact ⟨h2, (reconcile_schema fault _).2.2, h1, fun f2 s0 => reconcile_nothingRemoved f2 s0⟩

/-- Witness of `reconcile_idempotent`: the legacy schema is reconciled
without failure, and a second run leaves the result as it is. -/
theorem reconcile_idempotent_witness :
    (reconcile noFault (reconcile noFault legacySchema).schema).schema
      = (reconcile noFault legacySchema).schema :=
  (reconcile_idempotent noFault legacySchema (by unfold allSucceeded; decide)).2.2.1

theorem runBlock_index (fault : Nat → Bool) (steps : List Step) (k : Nat) (s : Schema)
    (j : Nat) (b : Bool) (h : (j, b) ∈ (runBlock fault k steps s).trace) :
    k ≤ j ∧ j < k + steps.length := by
  induction steps generalizing k s with
  | nil => cases h
  | cons step rest ih =>
    unfold runBlock at h
    cases hx : execAt fault k step.ddl s with
    | ok s1 =>
      rw [hx] at h
      simp only at h
      rcases List.mem_cons.mp h with h1 | h1
      · cases h1; simp
      · have := ih (k + 1) s1 h1
        simp only [List.length_cons]; omega
    | error e =>
      rw [hx] at h
      simp only at h
      split at h
      · rcases List.mem_cons.mp h with h1 | h1
        · cases h1; simp
        · have := ih (k + 1) s h1
          simp only [List.length_cons]; omega
      · rcases List.mem_cons.mp h with h1 | h1
        · cases h1; simp
        · cases h1

theorem runBlock_stops (fault : Nat → Bool) (steps : List Step) (k : Nat) (s : Schema)
    (j : Nat) (h : (j, false) ∈ (runBlock fault k steps s).trace)
    (hg : ∀ st, steps[j - k]? = some st → st.guarded = false) :
    ∀ i b, j < i → (i, b) ∉ (runBlock fault k steps s).trace := by
  induction steps generalizing k s with
  | nil => cases h
  | cons step rest ih =>
    have hrest : ∀ s1, (j, false) ∈ (runBlock fault (k + 1) rest s1).trace →
        ∀ i b, j < i → (i, b) ∉ (runBlock fault (k + 1) rest s1).trace := by
      intro s1 h1 i b hji
      have hidx := runBlock_index fault rest (k + 1) s1 j false h1
      exact ih (k + 1) s1 h1 (by
        intro st hst
        apply hg st
        rw [show j - k = (j - (k + 1)) + 1 by omega, List.getElem?_cons_succ]
        exact hst) i b hji
    unfold runBlock at h ⊢
    cases hx : execAt fault k step.ddl s with
    | ok s1 =>
      rw [hx] at h
      simp only at h ⊢
      rcases List.mem_cons.mp h with h1 | h1
      · cases h1
      · intro i b hji hmem
        rcases List.mem_cons.mp hmem with h2 | h2
        · cases h2
          have := (runBlock_index fault rest (k + 1) s1 j false h1).1
          omega
        · exact hrest s1 h1 i b hji h2
    | error e =>
      rw [hx] at h
      simp only at h ⊢
      by_cases hgd : step.guarded = true
      · rw [if_pos hgd] at h ⊢
        simp only at h ⊢
        rcases List.mem_cons.mp h with h1 | h1
        · cases h1
          have := hg step (by simp)
          rw [this] at hgd
          cases hgd
        · intro i b hji hmem
          rcases List.mem_cons.mp hmem with h2 | h2
          · cases h2
            have := (runBlock_index fault rest (k + 1) s j false h1).1
            omega
          · exact hrest s h1 i b hji h2
      · rw [if_neg hgd] at h ⊢
        simp only at h ⊢
        rcases List.mem_cons.mp h with h1 | h1
        · cases h1
          intro i b hji hmem
          rcases List.mem_cons.mp hmem with h2 | h2
          · cases h2; omega
          · cases h2
        · cases h1

theorem runBlock_first (fault : Nat → Bool) (step : Step) (rest : List Step) (k : Nat)
    (s : Schema) : ∃ b, (k, b) ∈ (runBlock fault k (step :: rest) s).trace := by
  unfold runBlock
  cases hx : execAt fault k step.ddl s with
  | ok s1 => exact ⟨true, List.mem_cons_self _ _⟩
  | error e =>
    simp only
    split
    · exact ⟨false, List.mem_cons_self _ _⟩
    · exact ⟨false, List.mem_cons_self _ _⟩

theorem runBlock_continues (fault : Nat → Bool) (steps : List Step) (k : Nat) (s : Schema)
    (j : Nat) (b : Bool) (h : (j, b) ∈ (runBlock fault k steps s).trace)
    (hg : b = true ∨ ∃ st, steps[j - k]? = some st ∧ st.guarded = true)
    (hlen : j + 1 < k + steps.length) :
    ∃ b2, (j + 1, b2) ∈ (runBlock fault k steps s).trace := by
  induction steps generalizing k s with
  | nil => cases h
  | cons step rest ih =>
    have hnext : ∀ s1, j = k → ∃ b2, (j + 1, b2) ∈ (runBlock fault (k + 1) rest s1).trace := by
      intro s1 hjk
      subst hjk
      cases rest with
      | nil => simp at hlen
      | cons st2 rest2 => exact runBlock_first fault st2 rest2 (j + 1) s1
    have hlater : ∀ s1, (j, b) ∈ (runBlock fault (k + 1) rest s1).trace →
        ∃ b2, (j + 1, b2) ∈ (runBlock fault (k + 1) rest s1).trace := by
      intro s1 h1
      have hidx := runBlock_index fault rest (k + 1) s1 j b h1
      apply ih (k + 1) s1 h1
      · rcases hg with hb | ⟨st, hst, hgd⟩
        · exact Or.inl hb
        · refine Or.inr ⟨st, ?_, hgd⟩
          rw [show j - k = (j - (k + 1)) + 1 by omega, List.getElem?_cons_succ] at hst
          exact hst
      · simp only [List.length_cons] at hlen; omega
    unfold runBlock at h ⊢
    cases hx : execAt fault k step.ddl s with
    | ok s1 =>
      rw [hx] at h
      simp only at h ⊢
      rcases List.mem_cons.mp h with h1 | h1
      · cases h1
        obtain ⟨b2, hb2⟩ := hnext s1 rfl
        exact ⟨b2, List.mem_cons_of_mem _ hb2⟩
      · obtain ⟨b2, hb2⟩ := hlater s1 h1
        exact ⟨b2, List.mem_cons_of_mem _ hb2⟩
    | error e =>
      rw [hx] at h
      simp only at h ⊢
      by_cases hgd : step.guarded = true
      · rw [if_pos hgd] at h ⊢
        simp only at h ⊢
        rcases List.mem_cons.mp h with h1 | h1
        · cases h1
          obtain ⟨b2, hb2⟩ := hnext s rfl
          exact ⟨b2, List.mem_cons_of_mem _ hb2⟩
        · obtain ⟨b2, hb2⟩ := hlater s h1
          exact ⟨b2, List.mem_cons_of_mem _ hb2⟩
      · rw [if_neg hgd] at h
        simp only at h
        rcases List.mem_cons.mp h with h1 | h1
        · cases h1
          rcases hg with hb | ⟨st, hst, hgd2⟩
          · cases hb
          · simp at hst
            rw [hst] at hgd
            exact absurd hgd2 hgd
        · cases h1

theorem ensureSchemaSteps_unguarded (k : Nat) (hk : k < 18) (h3 : k ≠ 3) (st : Step)
    (h : ensureSchemaSteps[k - 0]? = some st) : st.guarded = false := by
  simp only [Nat.sub_zero] at h
  interval_cases k <;> first
    | exact absurd rfl h3
    | (simp [ensureSchemaSteps, addText] at h; rw [← h])

/-- C13 (code at the failing input): with the schema empty and the
statement that adds `active` to `users` (statement 1) failing, the later
statements of `ensureSchema` are not executed; the tables `appointments`,
`appointment`, `inventory` and `profile` are not created, though none of
them depends on `users`.  Only the `patient_records` block, a `try` of its
own, still runs. -/
theorem reconcile_abort_counterexample :
    ensureSchemaSteps[1]?
      = some ⟨.addColumn "users" { plainColumn "active" "BOOLEAN" with dflt := some "TRUE" },
          false⟩ ∧
    (reconcile (failOnly 1) []).trace
      = [(0, true), (1, false), (18, true), (19, true), (20, true), (21, true)] ∧
    hasTable (reconcile (failOnly 1) []).schema "appointments" = false ∧
    hasTable (reconcile (failOnly 1) []).schema "appointment" = false ∧
    hasTable (reconcile (failOnly 1) []).schema "inventory" = false ∧
    hasTable (reconcile (failOnly 1) []).schema "profile" = false := by
  decide

/-- C13 (where the code isolates a failure and where it does not): the
reconciliation never lets an error reach its caller; the `patient_records`
block (statements from 18 on) is started whatever happened in
`ensureSchema`; a failure of the constraint drop (statement 3, the one
statement with a `try` of its own) does not stop the statement after it;
but a failure of any other statement of `ensureSchema` ends that function,
so that no later statement of it is executed, dependent on the failed one
or not. -/
theorem reconcile_isolation (fault : Nat → Bool) (s : Schema) :
    (reconcile fault s).escaped = none ∧
    (∃ b, (18, b) ∈ (reconcile fault s).trace) ∧
    ((3, false) ∈ (reconcile fault s).trace → ∃ b, (4, b) ∈ (reconcile fault s).trace) ∧
    (∀ k, k < 18 → k ≠ 3 → (k, false) ∈ (reconcile fault s).trace →
      ∀ j b, k < j → j < 18 → (j, b) ∉ (reconcile fault s).trace) := by
  obtain ⟨_, htrace, hesc⟩ := reconcile_schema fault s
  have hsecond : ∀ j b, j < 18 →
      (j, b) ∉ (runBlock fault ensureSchemaSteps.length patientRecordsSteps
        (runBlock fault 0 ensureSchemaSteps s).schema).trace := by
    intro j b hj hmem
    have := (runBlock_index _ _ _ _ j b hmem).1
    have hlen : ensureSchemaSteps.length = 18 := rfl
    omega
  refine ⟨hesc, ?_, ?_, ?_⟩
  · obtain ⟨b, hb⟩ := runBlock_first fault
      ⟨.createTable "patient_records"
        [serialKey, { plainColumn "patient" "TEXT" with notNull := true },
         plainColumn "date" "TEXT", plainColumn "time" "TEXT", plainColumn "notes" "TEXT",
         plainColumn "doctor" "TEXT", plainColumn "medicine" "TEXT",
         plainColumn "dosage" "TEXT", createdAt], false⟩
      [addText "patient_records" "doctor", addText "patient_records" "medicine",
       addText "patient_records" "dosage"] 18 (runBlock fault 0 ensureSchemaSteps s).schema
    exact ⟨b, by rw [htrace]; exact List.mem_append_right _ hb⟩
  · intro h3
    rw [htrace] at h3 ⊢
    rcases List.mem_append.mp h3 with h | h
    · obtain ⟨b, hb⟩ := runBlock_continues fault ensureSchemaSteps 0 s 3 false h
        (Or.inr ⟨⟨.dropConstraint "users" "users_role_key", true⟩, rfl, rfl⟩) (by decide)
      exact ⟨b, List.mem_append_left _ hb⟩
    · exact absurd h (hsecond 3 false (by decide))
  · intro k hk hk3 hfail j b hkj hj hmem
    rw [htrace] at hfail hmem
    rcases List.mem_append.mp hfail with h | h
    · rcases List.mem_append.mp hmem with h2 | h2
      · exact runBlock_stops fault ensureSchemaSteps 0 s k h
          (fun st hst => ensureSchemaSteps_unguarded k hk hk3 st hst) j b hkj h2
      · exact hsecond j b hj h2
    · exact hsecond k false hk h

/-- Witness of `reconcile_isolation`: when only the constraint drop fails,
statement 4 is still executed; when only statement 1 fails, statement 8
(the creation of `appointments`) is not. -/
theorem reconcile_isolation_witness :
    (∃ b, (4, b) ∈ (reconcile (failOnly 3) []).trace) ∧
    (8, true) ∉ (reconcile (failOnly 1) []).trace :=
  ⟨(reconcile_isolation (failOnly 3) []).2.2.1 (by decide),
   (reconcile_isolation (failOnly 1) []).2.2.2 1 (by decide) (by decide) (by decide) 8 true
     (by decide) (by decide)⟩

theorem createdBefore_sound (ds : List Ddl) (made : List String)
    (h : createdBefore made ds = true) (i : Nat) (t : String) (c : ColumnDef)
    (hi : ds[i]? = some (.addColumn t c)) :
    t ∈ made ∨ ∃ j cols, j < i ∧ ds[j]? = some (.createTable t cols) := by
  induction ds generalizing made i with
  | nil => simp at hi
  | cons d rest ih =>
    cases i with
    | zero =>
      simp only [List.getElem?_cons_zero, Option.some.injEq] at hi
      subst hi
      simp only [createdBefore, Bool.and_eq_true] at h
      exact Or.inl (by simpa using h.1)
    | succ n =>
      simp only [List.getElem?_cons_succ] at hi
      cases d with
      | createTable t2 cols2 =>
        simp only [createdBefore] at h
        rcases ih (t2 :: made) h n hi with h1 | ⟨j, cols, hj, hget⟩
        · rcases List.mem_cons.mp h1 with h2 | h2
          · exact Or.inr ⟨0, cols2, Nat.succ_pos _, by simp [h2]⟩
          · exact Or.inl h2
        · exact Or.inr ⟨j + 1, cols, by omega, by simpa using hget⟩
      | addColumn t2 c2 =>
        simp only [createdBefore, Bool.and_eq_true] at h
        rcases ih made h.2 n hi with h1 | ⟨j, cols, hj, hget⟩
        · exact Or.inl h1
        · exact Or.inr ⟨j + 1, cols, by omega, by simpa using hget⟩
      | dropConstraint t2 k2 =>
        simp only [createdBefore] at h
        rcases ih made h n hi with h1 | ⟨j, cols, hj, hget⟩
        · exact Or.inl h1
        · exact Or.inr ⟨j + 1, cols, by omega, by simpa using hget⟩

theorem reconcileStatements_ordered : createdBeforeAltered reconcileStatements := by
  intro i t c hi
  rcases createdBefore_sound reconcileStatements [] (by decide) i t c hi with h | h
  · cases h
  · exact h

theorem hasActive_addColumnTo (tb : Table) (c : ColumnDef) (h : hasActive tb)
    (hc : hasColumn tb c.name = false) : hasActive (addColumnTo tb c) := by
  obtain ⟨h1, h2, h3⟩ := h
  have hne : c.name ≠ "active" := by
    intro heq
    unfold hasColumn at hc
    rw [List.any_eq_false] at hc
    have := hc activeColumn h1
    simp [activeColumn, heq] at this
  refine ⟨?_, ?_, ?_⟩
  · simp only [addColumnTo, List.mem_append]
    exact Or.inl h1
  · intro x hx hxn
    simp only [addColumnTo, List.mem_append, List.mem_singleton] at hx
    rcases hx with hx | hx
    · exact h2 x hx hxn
    · rw [hx] at hxn
      exact absurd hxn hne
  · intro r hr
    simp only [addColumnTo, List.mem_map] at hr
    obtain ⟨r0, hr0, rfl⟩ := hr
    exact List.mem_append_left _ (h3 r0 hr0)

theorem exec_hasActive (d : Ddl) (s s2 : Schema) (h : exec d s = .ok s2)
    (ht : hasTable s "users" = true)
    (hall : ∀ tb ∈ s, tb.name = "users" → hasActive tb) :
    ∀ tb ∈ s2, tb.name = "users" → hasActive tb := by
  cases d with
  | createTable t2 cols =>
    rcases exec_createTable t2 cols s s2 h with ⟨_, rfl⟩ | ⟨hno, rfl⟩
    · exact hall
    · intro tb htb hn
      rcases List.mem_append.mp htb with h1 | h1
      · exact hall tb h1 hn
      · rw [List.mem_singleton] at h1
        subst h1
        simp only at hn
        rw [hn, ht] at hno
        cases hno
  | addColumn t2 c2 =>
    obtain ⟨_, rfl⟩ := exec_addColumn t2 c2 s s2 h
    intro tb2 htb2 hn
    obtain ⟨tb, htb, rfl⟩ := List.mem_map.mp htb2
    rw [addColumnIfMissing_name] at hn
    have hold := hall tb htb hn
    unfold addColumnIfMissing
    split
    · rename_i hcond
      simp only [Bool.and_eq_true, Bool.not_eq_true'] at hcond
      exact hasActive_addColumnTo tb c2 hold hcond.2
    · exact hold
  | dropConstraint t2 k =>
    obtain ⟨_, rfl⟩ := exec_dropConstraint t2 k s s2 h
    intro tb2 htb2 hn
    obtain ⟨tb, htb, rfl⟩ := List.mem_map.mp htb2
    rw [dropConstraintIn_name] at hn
    have hold := hall tb htb hn
    unfold dropConstraintIn
    split
    · exact hold
    · exact hold

theorem execAll_hasActive (ds : List Ddl) (s s2 : Schema) (h : execAll ds s = .ok s2)
    (ht : hasTable s "users" = true)
    (hall : ∀ tb ∈ s, tb.name = "users" → hasActive tb) :
    hasTable s2 "users" = true ∧ ∀ tb ∈ s2, tb.name = "users" → hasActive tb := by
  induction ds generalizing s with
  | nil => cases h; exact ⟨ht, hall⟩
  | cons d rest ih =>
    simp only [execAll] at h
    cases hx : exec d s with
    | error e => rw [hx] at h; cases h
    | ok s3 =>
      rw [hx] at h
      exact ih s3 h ((exec_nothingRemoved d s s3 hx).1 _ ht) (exec_hasActive d s s3 hx ht hall)

theorem execAll_cons (d : Ddl) (ds : List Ddl) (s s2 : Schema)
    (h : execAll (d :: ds) s = .ok s2) : ∃ s1, exec d s = .ok s1 ∧ execAll ds s1 = .ok s2 := by
  simp only [execAll] at h
  cases hx : exec d s with
  | error e => rw [hx] at h; cases h
  | ok s1 => rw [hx] at h; exact ⟨s1, rfl, h⟩

theorem reconcile_execAll (fault : Nat → Bool) (s : Schema)
    (hok : allSucceeded (reconcile fault s)) :
    execAll reconcileStatements s = .ok (reconcile fault s).schema := by
  obtain ⟨hschema, htrace, _⟩ := reconcile_schema fault s
  unfold allSucceeded at hok
  rw [htrace] at hok
  obtain ⟨_, he1⟩ := runBlock_allOk fault ensureSchemaSteps 0 s
    (fun e he => hok e (List.mem_append_left _ he))
  obtain ⟨_, he2⟩ := runBlock_allOk fault patientRecordsSteps ensureSchemaSteps.length
    (runBlock fault 0 ensureSchemaSteps s).schema
    (fun e he => hok e (List.mem_append_right _ he))
  unfold reconcileStatements
  rw [List.map_append, hschema]
  exact execAll_append _ _ _ _ _ he1 he2

theorem addActive_hasActive (tb : Table) (h : hasColumn tb "active" = false) :
    hasActive (addColumnTo tb { plainColumn "active" "BOOLEAN" with dflt := some "TRUE" }) := by
  refine ⟨?_, ?_, ?_⟩
  · simp only [addColumnTo, List.mem_append, List.mem_singleton]
    exact Or.inr rfl
  · intro x hx hxn
    simp only [addColumnTo, List.mem_append, List.mem_singleton] at hx
    rcases hx with hx | hx
    · unfold hasColumn at h
      rw [List.any_eq_false] at h
      have := h x hx
      simp [hxn] at this
    · rw [hx]; rfl
  · intro r hr
    simp only [addColumnTo, List.mem_map] at hr
    obtain ⟨r0, _, rfl⟩ := hr
    exact List.mem_append_right _ (by simp [plainColumn])

/-- C14: when a reconciliation runs without any statement failing from a
schema whose `users` table, if there is one, lacks the `active` column (an
empty store included), the schema it leaves has a `users` table, and every
table of that name has the column `active BOOLEAN DEFAULT TRUE`, no other
column of that name, and the default in every row, pre-existing rows
included; and in the list of statements each `ADD COLUMN` on a table comes
after a `CREATE TABLE` of that table. -/
theorem reconcile_adds_active (fault : Nat → Bool) (s : Schema)
    (hok : allSucceeded (reconcile fault s))
    (hlack : ∀ tb ∈ s, tb.name = "users" → hasColumn tb "active" = false) :
    hasTable (reconcile fault s).schema "users" = true ∧
    (∀ tb ∈ (reconcile fault s).schema, tb.name = "users" → hasActive tb) ∧
    createdBeforeAltered reconcileStatements := by
  have hall := reconcile_execAll fault s hok
  obtain ⟨rest, hsplit⟩ : ∃ rest, reconcileStatements
      = .createTable "users"
          [serialKey, plainColumn "full_name" "TEXT", plainColumn "role" "TEXT",
           { plainColumn "email" "TEXT" with key := .unique },
           plainColumn "password_hash" "TEXT", createdAt] ::
        .addColumn "users" { plainColumn "active" "BOOLEAN" with dflt := some "TRUE" } ::
        rest := ⟨_, rfl⟩
  rw [hsplit] at hall
  obtain ⟨sa, h0, hall⟩ := execAll_cons _ _ _ _ hall
  obtain ⟨sb, h1, hall⟩ := execAll_cons _ _ _ _ hall
  have hta : hasTable sa "users" = true := exec_satisfied _ _ _ h0
  have hlacka : ∀ tb ∈ sa, tb.name = "users" → hasColumn tb "active" = false := by
    rcases exec_createTable _ _ s sa h0 with ⟨_, rfl⟩ | ⟨_, rfl⟩
    · exact hlack
    · intro tb htb hn
      rcases List.mem_append.mp htb with h2 | h2
      · exact hlack tb h2 hn
      · rw [List.mem_singleton] at h2
        subst h2
        decide
  obtain ⟨_, hsb⟩ := exec_addColumn _ _ sa sb h1
  have htb : hasTable sb "users" = true := (exec_nothingRemoved _ sa sb h1).1 _ hta
  have hq : ∀ tb ∈ sb, tb.name = "users" → hasActive tb := by
    intro tb2 htb2 hn
    rw [hsb] at htb2
    obtain ⟨tb, htbm, rfl⟩ := List.mem_map.mp htb2
    rw [addColumnIfMissing_name] at hn
    have hl := hlacka tb htbm hn
    have hcond : (tb.name == "users" &&
        !hasColumn tb ({ plainColumn "active" "BOOLEAN" with dflt := some "TRUE" }
          : ColumnDef).name) = true := by
      rw [show ({ plainColumn "active" "BOOLEAN" with dflt := some "TRUE" }
          : ColumnDef).name = "active" from rfl, hl, hn]
      rfl
    unfold addColumnIfMissing
    rw [if_pos hcond]
    exact addActive_hasActive tb hl
  obtain ⟨hfin1, hfin2⟩ := execAll_hasActive _ sb _ hall htb hq
  exact ⟨hfin1, hfin2, reconcileStatements_ordered⟩

/-- Witness of `reconcile_adds_active`: the empty schema and the legacy
schema both end with a `users` table. -/
theorem reconcile_adds_active_witness :
    hasTable (reconcile noFault []).schema "users" = true ∧
    hasTable (reconcile noFault legacySchema).schema "users" = true :=
  ⟨(reconcile_adds_active noFault [] (by unfold allSucceeded; decide) (by decide)).1,
   (reconcile_adds_active noFault legacySchema (by unfold allSucceeded; decide)
     (by decide)).1⟩

theorem deleteKey_keys (k : String) (fields : List (String × JsVal)) :
    k ∉ (deleteKey k fields).map (fun f => f.1) := by
  intro h
  obtain ⟨f, hf, hfk⟩ := List.mem_map.mp h
  unfold deleteKey at hf
  rw [List.mem_filter] at hf
  have := hf.2
  simp [hfk] at this

theorem rows_keys (k : String) (json : User → List (String × JsVal)) (l : List User)
    (h : ∀ u, k ∉ (json u).map (fun f => f.1)) : k ∉ bodyKeys (.rows (l.map json)) := by
  unfold bodyKeys
  induction l with
  | nil => simp
  | cons u us ih =>
    simp only [List.map_cons, List.foldr_cons, List.mem_append, not_or]
    exact ⟨h u, ih⟩

theorem login_keys (lib : Lib) (compare : String → String → Bool) (st : Store)
    (body : LoginBody) : "password_hash" ∉ bodyKeys (login lib compare st body).body := by
  generalize h : login lib compare st body = out
  unfold login at h
  try dsimp only at h
  repeat' split at h
  all_goals subst h
  all_goals first
    | (simp only [bodyKeys]; decide)
    | (simp only [bodyKeys, List.mem_cons, not_or]
       exact ⟨by decide, by decide, deleteKey_keys _ _⟩)

theorem postRegister_keys (lib : Lib) (st : Store) (now : Nat) (body : RegisterBody) :
    "password_hash" ∉ bodyKeys (postRegister lib st now body).1.body := by
  generalize h : postRegister lib st now body = out
  unfold postRegister at h
  try dsimp only at h
  repeat' split at h
  all_goals subst h
  all_goals (simp only [bodyKeys, registeredJson, List.map]; decide)

theorem postUsers_keys (lib : Lib) (st : Store) (now : Nat) (body : UserCreateBody) :
    "password_hash" ∉ bodyKeys (postUsers lib st now body).1.body := by
  generalize h : postUsers lib st now body = out
  unfold postUsers at h
  try dsimp only at h
  repeat' split at h
  all_goals subst h
  all_goals (simp only [bodyKeys, errorResponse, userJson, List.map]; decide)

theorem putUser_keys (lib : Lib) (fault : Nat → Bool) (st : Store) (now : Nat) (id : Int)
    (body : UserUpdateBody) :
    "password_hash" ∉ bodyKeys (putUser lib fault st now id body).resp.body := by
  generalize h : putUser lib fault st now id body = out
  unfold putUser at h
  try dsimp only at h
  repeat' split at h
  all_goals subst h
  all_goals (simp only [bodyKeys, errorResponse, userDetailJson, List.map]; decide)

theorem patchActive_keys (st : Store) (id : Int) (body : ActiveBody) :
    "password_hash" ∉ bodyKeys (patchActive st id body).1.body := by
  generalize h : patchActive st id body = out
  unfold patchActive at h
  try dsimp only at h
  repeat' split at h
  all_goals subst h
  all_goals (simp only [bodyKeys, serverError, userJson, List.map]; decide)

theorem getUser_keys (st : Store) (id : Int) :
    "password_hash" ∉ bodyKeys (getUser st id).body := by
  generalize h : getUser st id = out
  unfold getUser at h
  try dsimp only at h
  repeat' split at h
  all_goals subst h
  all_goals (simp only [bodyKeys, profileJson, userDetailJson, List.map]; decide)

theorem listUsers_keys (st : Store) :
    "password_hash" ∉ bodyKeys (listUsers st).body ∧
    "password_hash" ∉ bodyKeys (getUsers st).body :=
  ⟨rows_keys _ _ _ (fun u => by simp only [userJson, List.map]; decide),
   rows_keys _ _ _ (fun u => by simp only [legacyUserJson, List.map]; decide)⟩

theorem insertById_map (g : User → User) (hid : ∀ u, (g u).id = u.id) (u : User)
    (l : List User) : insertById (g u) (l.map g) = (insertById u l).map g := by
  induction l with
  | nil => rfl
  | cons v vs ih =>
    simp only [List.map_cons, insertById, hid]
    by_cases h : v.id ≤ u.id
    · simp only [h, if_true, List.map_cons]
    · simp only [h, if_false, List.map_cons, ih]

theorem sortByIdDesc_map (g : User → User) (hid : ∀ u, (g u).id = u.id) (l : List User) :
    sortByIdDesc (l.map g) = (sortByIdDesc l).map g := by
  unfold sortByIdDesc
  induction l with
  | nil => rfl
  | cons v vs ih =>
    simp only [List.map_cons, List.foldr_cons, ih]
    exact insertById_map g hid v _

theorem filter_map_users (g : User → User) (p : User → Bool) (hp : ∀ u, p (g u) = p u)
    (l : List User) : (l.map g).filter p = (l.filter p).map g := by
  rw [List.filter_map]
  congr 1
  apply List.filter_congr
  intro u _
  exact hp u

theorem any_map_users (g : User → User) (p : User → Bool) (hp : ∀ u, p (g u) = p u)
    (l : List User) : (l.map g).any p = l.any p := by
  rw [List.any_map]
  congr 1
  funext u
  exact hp u

theorem listUsers_hashes (h : User → Option String) (st : Store) :
    listUsers (withHashes h st) = listUsers st ∧ getUsers (withHashes h st) = getUsers st := by
  unfold listUsers getUsers withHashes
  simp only
  rw [sortByIdDesc_map (setHash h) (fun _ => rfl), List.map_map, List.map_map]
  exact ⟨rfl, rfl⟩

theorem getUser_hashes (h : User → Option String) (st : Store) (id : Int) :
    getUser (withHashes h st) id = getUser st id := by
  unfold getUser withHashes
  cases pgId id with
  | error e => rfl
  | ok i =>
    simp only
    rw [filter_map_users (setHash h) (fun u => u.id == i) (fun _ => rfl)]
    cases st.profile.filter (fun p => p.id == i) with
    | cons p ps => rfl
    | nil =>
      simp only
      cases st.users.filter (fun u => u.id == i) with
      | nil => rfl
      | cons u us => rfl

theorem patchActive_hashes (h : User → Option String) (st : Store) (id : Int)
    (body : ActiveBody) :
    (patchActive (withHashes h st) id body).1 = (patchActive st id body).1 := by
  unfold patchActive withHashes
  cases body.active with
  | bool b =>
    simp only
    cases pgId id with
    | error e => rfl
    | ok i =>
      simp only [returning]
      rw [filter_map_users (setHash h) (fun u => u.id == i) (fun _ => rfl)]
      cases st.users.filter (fun u => u.id == i) with
      | nil => rfl
      | cons u us => rfl
  | undefined => rfl
  | null => rfl
  | num n => rfl
  | str s => rfl
  | obj a b c => rfl

theorem emailExists_hashes (h : User → Option String) (users : List User) (e : String) :
    emailExists (users.map (setHash h)) e
      = emailExists users e := by
  unfold emailExists
  exact any_map_users (setHash h) (fun u => u.email == some e) (fun _ => rfl) _

theorem insertUser_hashes (h : User → Option String) (users : List User) (u : User) :
    (insertUser (users.map (setHash h)) u).toBool
      = (insertUser users u).toBool := by
  unfold insertUser
  rw [any_map_users (setHash h) (fun x => x.id == u.id) (fun _ => rfl),
    any_map_users (setHash h) (fun x => x.email == u.email) (fun _ => rfl)]
  repeat' split
  all_goals rfl

theorem insertUser_error (users : List User) (u : User) (e : Thrown)
    (h : insertUser users u = .error e) : e = .uniqueViolation := by
  unfold insertUser at h
  repeat' split at h
  all_goals cases h
  all_goals rfl

theorem postUsers_hashes (lib : Lib) (h : User → Option String) (st : Store) (now : Nat)
    (body : UserCreateBody) :
    (postUsers lib (withHashes h st) now body).1 = (postUsers lib st now body).1 := by
  unfold postUsers
  split
  · rfl
  · simp only [withHashes, emailExists_hashes]
    split
    · rfl
    · cases nextval st.usersSeq with
      | error e => rfl
      | ok id =>
        simp only
        have hb := insertUser_hashes h st.users
          { id := id, full_name := pgText lib body.name, role := pgText lib body.role,
            email := some (normalizeEmail lib (jsString lib body.email)),
            password_hash := some (lib.bcryptHash (jsString lib body.password)),
            created_at := now, active := some (activeParam body.active),
            phone := none, address := none, birthdate := none, gender := none }
        generalize hL : insertUser (st.users.map (setHash h))
          { id := id, full_name := pgText lib body.name, role := pgText lib body.role,
            email := some (normalizeEmail lib (jsString lib body.email)),
            password_hash := some (lib.bcryptHash (jsString lib body.password)),
            created_at := now, active := some (activeParam body.active),
            phone := none, address := none, birthdate := none, gender := none } = rl at hb ⊢
        generalize hR : insertUser st.users
          { id := id, full_name := pgText lib body.name, role := pgText lib body.role,
            email := some (normalizeEmail lib (jsString lib body.email)),
            password_hash := some (lib.bcryptHash (jsString lib body.password)),
            created_at := now, active := some (activeParam body.active),
            phone := none, address := none, birthdate := none, gender := none } = rr at hb ⊢
        cases rl with
        | ok a =>
          cases rr with
          | ok b => rfl
          | error e => cases hb
        | error e1 =>
          cases rr with
          | ok b => cases hb
          | error e2 =>
            rw [insertUser_error _ _ _ hL, insertUser_error _ _ _ hR]

theorem insertUser_cases (h : User → Option String) (users : List User) (u : User) :
    (∃ a b, insertUser (users.map (setHash h)) u = .ok a ∧ insertUser users u = .ok b) ∨
    (∃ e, insertUser (users.map (setHash h)) u = .error e ∧ insertUser users u = .error e) := by
  have hb := insertUser_hashes h users u
  cases hL : insertUser (users.map (setHash h)) u with
  | ok a =>
    cases hR : insertUser users u with
    | ok b => exact Or.inl ⟨a, b, rfl, rfl⟩
    | error e => rw [hL, hR] at hb; cases hb
  | error e1 =>
    cases hR : insertUser users u with
    | ok b => rw [hL, hR] at hb; cases hb
    | error e2 =>
      rw [insertUser_error _ _ _ hL, insertUser_error _ _ _ hR]
      exact Or.inr ⟨_, rfl, rfl⟩

theorem postRegister_hashes (lib : Lib) (h : User → Option String) (st : Store) (now : Nat)
    (body : RegisterBody) :
    (postRegister lib (withHashes h st) now body).1 = (postRegister lib st now body).1 := by
  unfold postRegister
  split
  · rfl
  · cases body.email with
    | str email =>
      simp only [withHashes, emailExists_hashes]
      split
      · rfl
      · cases body.password with
        | str password =>
          simp only
          cases nextval st.usersSeq with
          | error e => rfl
          | ok id =>
            simp only
            rcases insertUser_cases h st.users
              { id := id, full_name := pgText lib body.fullName, role := pgText lib body.role,
                email := some (normalizeEmail lib email),
                password_hash := some (lib.bcryptHash password),
                created_at := now, active := some true,
                phone := none, address := none, birthdate := none, gender := none }
              with ⟨a, b, h1, h2⟩ | ⟨e, h1, h2⟩
            · rw [h1, h2]
            · rw [h1, h2]
        | undefined => rfl
        | null => rfl
        | bool b => rfl
        | num n => rfl
        | obj a b c => rfl
    | undefined => rfl
    | null => rfl
    | bool b => rfl
    | num n => rfl
    | obj a b c => rfl

theorem updateUsers_hashes (h : User → Option String) (users : List User) (i : Int)
    (email : String) (set : User → User)
    (hset : ∀ u, userDetailJson (set (setHash h u)) = userDetailJson (set u)) :
    (∃ e, updateUsers (users.map (setHash h)) i email set = .error e ∧
      updateUsers users i email set = .error e) ∨
    (∃ a b, updateUsers (users.map (setHash h)) i email set = .ok ([], a) ∧
      updateUsers users i email set = .ok ([], b)) ∨
    (∃ u v tl1 tl2 a b, updateUsers (users.map (setHash h)) i email set = .ok (u :: tl1, a) ∧
      updateUsers users i email set = .ok (v :: tl2, b) ∧
      userDetailJson u = userDetailJson v) := by
  unfold updateUsers
  rw [any_map_users (setHash h) (fun u => u.id == i) (fun _ => rfl),
    any_map_users (setHash h) (fun u => u.id != i && u.email == some email) (fun _ => rfl)]
  split
  · exact Or.inl ⟨_, rfl, rfl⟩
  · simp only [returning]
    rw [filter_map_users (setHash h) (fun u => u.id == i) (fun _ => rfl)]
    cases users.filter (fun u => u.id == i) with
    | nil => exact Or.inr (Or.inl ⟨_, _, rfl, rfl⟩)
    | cons u us =>
      exact Or.inr (Or.inr ⟨_, _, _, _, _, _, rfl, rfl, hset u⟩)

theorem putUser_hashes (lib : Lib) (fault : Nat → Bool) (h : User → Option String)
    (st : Store) (now : Nat) (id : Int) (body : UserUpdateBody) :
    (putUser lib fault (withHashes h st) now id body).resp
      = (putUser lib fault st now id body).resp := by
  unfold putUser
  split
  · rfl
  · simp only [withHashes]
    cases pgId id with
    | error e => rfl
    | ok i =>
      simp only
      by_cases hpw : truthy body.password = true
      · simp only [hpw, if_true]
        rcases updateUsers_hashes h st.users i (normalizeEmail lib (jsString lib body.email))
          (setUserWithPassword lib body) (fun _ => rfl)
          with ⟨e, h1, h2⟩ | ⟨a, b, h1, h2⟩ | ⟨u, v, tl1, tl2, a, b, h1, h2, h3⟩
        · rw [h1, h2]
        · rw [h1, h2]
        · rw [h1, h2]
          simp only [h3]
          cases syncProfile lib fault st.profile now id body <;> rfl
      · have hpw2 : truthy body.password = false := by simpa using hpw
        simp only [hpw2, Bool.false_eq_true, if_false]
        rcases updateUsers_hashes h st.users i (normalizeEmail lib (jsString lib body.email))
          (setUser lib body) (fun _ => rfl)
          with ⟨e, h1, h2⟩ | ⟨a, b, h1, h2⟩ | ⟨u, v, tl1, tl2, a, b, h1, h2, h3⟩
        · rw [h1, h2]
        · rw [h1, h2]
        · rw [h1, h2]
          simp only [h3]
          cases syncProfile lib fault st.profile now id body <;> rfl

theorem login_hashes (lib : Lib) (compare : String → String → Bool)
    (h : User → Option String) (st : Store) (body : LoginBody)
    (hsame : ∀ u ∈ st.users, checkPassword compare body.password (h u)
      = checkPassword compare body.password u.password_hash) :
    login lib compare (withHashes h st) body = login lib compare st body := by
  unfold login
  split
  · rfl
  · cases body.email with
    | str email =>
      simp only [withHashes]
      rw [filter_map_users (setHash h) (fun u => u.email == some (normalizeEmail lib email))
        (fun _ => rfl)]
      cases hf : st.users.filter (fun u => u.email == some (normalizeEmail lib email)) with
      | nil => rfl
      | cons u us =>
        have hu : u ∈ st.users := by
          have : u ∈ st.users.filter (fun u => u.email == some (normalizeEmail lib email)) := by
            rw [hf]; exact List.mem_cons_self _ _
          exact (List.mem_filter.mp this).1
        simp only [List.map_cons]
        rw [show (setHash h u).active = u.active from rfl,
          show (setHash h u).password_hash = h u from rfl, hsame u hu]
        split
        · rfl
        · cases checkPassword compare body.password u.password_hash with
          | none => rfl
          | some b =>
            cases b with
            | false => rfl
            | true =>
              simp only
              rfl
    | undefined => rfl
    | null => rfl
    | bool b => rfl
    | num n => rfl
    | obj a b c => rfl

theorem login_success (lib : Lib) (compare : String → String → Bool) (st : Store)
    (body : LoginBody) (hok : (login lib compare st body).status = 200) :
    ∃ u ∈ st.users, (login lib compare st body).body
      = .user (deleteKey "password_hash" (fullUserJson u)) := by
  generalize hout : login lib compare st body = out at hok ⊢
  unfold login at hout
  split at hout
  · subst hout; simp at hok
  · split at hout
    · rename_i email _
      cases hf : st.users.filter (fun u => u.email == some (normalizeEmail lib email)) with
      | nil => rw [hf] at hout; subst hout; simp at hok
      | cons u us =>
        rw [hf] at hout
        have hu : u ∈ st.users := by
          have : u ∈ st.users.filter (fun u => u.email == some (normalizeEmail lib email)) := by
            rw [hf]; exact List.mem_cons_self _ _
          exact (List.mem_filter.mp this).1
        simp only at hout
        split at hout
        · subst hout; simp at hok
        · split at hout
          · subst hout; simp at hok
          · subst hout; simp at hok
          · subst hout; exact ⟨u, hu, rfl⟩
    · subst hout; simp at hok

/-- C15: for every store and every request, the body answered by login,
register, user creation, user update, the two user listings, user lookup and
the activation toggle has no `password_hash` key; a login answered 200
returns the matching user row with `password_hash` deleted; and no stored
hash reaches a body: replacing the stored hashes by any others leaves the
response of every one of these handlers the same, for login as long as the
supplied password verifies alike. -/
theorem password_hash_never_returned (lib : Lib) (compare : String → String → Bool)
    (st : Store) :
    (∀ body, "password_hash" ∉ bodyKeys (login lib compare st body).body) ∧
    (∀ now body, "password_hash" ∉ bodyKeys (postRegister lib st now body).1.body) ∧
    (∀ now body, "password_hash" ∉ bodyKeys (postUsers lib st now body).1.body) ∧
    (∀ fault now id body,
      "password_hash" ∉ bodyKeys (putUser lib fault st now id body).resp.body) ∧
    "password_hash" ∉ bodyKeys (listUsers st).body ∧
    "password_hash" ∉ bodyKeys (getUsers st).body ∧
    (∀ id, "password_hash" ∉ bodyKeys (getUser st id).body) ∧
    (∀ id body, "password_hash" ∉ bodyKeys (patchActive st id body).1.body) ∧
    (∀ body, (login lib compare st body).status = 200 →
      ∃ u ∈ st.users, (login lib compare st body).body
        = .user (deleteKey "password_hash" (fullUserJson u))) ∧
    (∀ h : User → Option String,
      (∀ now body,
        (postRegister lib (withHashes h st) now body).1 = (postRegister lib st now body).1) ∧
      (∀ now body,
        (postUsers lib (withHashes h st) now body).1 = (postUsers lib st now body).1) ∧
      (∀ fault now id body,
        (putUser lib fault (withHashes h st) now id body).resp
          = (putUser lib fault st now id body).resp) ∧
      listUsers (withHashes h st) = listUsers st ∧
      getUsers (withHashes h st) = getUsers st ∧
      (∀ id, getUser (withHashes h st) id = getUser st id) ∧
      (∀ id body, (patchActive (withHashes h st) id body).1 = (patchActive st id body).1) ∧
      (∀ body,
        (∀ u ∈ st.users, checkPassword compare body.password (h u)
          = checkPassword compare body.password u.password_hash) →
        login lib compare (withHashes h st) body = login lib compare st body)) :=
  ⟨fun body => login_keys lib compare st body,
   fun now body => postRegister_keys lib st now body,
   fun now body => postUsers_keys lib st now body,
   fun fault now id body => putUser_keys lib fault st now id body,
   (listUsers_keys st).1, (listUsers_keys st).2,
   fun id => getUser_keys st id,
   fun id body => patchActive_keys st id body,
   fun body hok => login_success lib compare st body hok,
   fun h =>
    ⟨fun now body => postRegister_hashes lib h st now body,
     fun now body => postUsers_hashes lib h st now body,
     fun fault now id body => putUser_hashes lib fault h st now id body,
     (listUsers_hashes h st).1, (listUsers_hashes h st).2,
     fun id => getUser_hashes h st id,
     fun id body => patchActive_hashes h st id body,
     fun body hsame => login_hashes lib compare h st body hsame⟩⟩

/-- Witness of `password_hash_never_returned`: a successful login of the
stored user returns her row without the hash. -/
theorem password_hash_never_returned_witness :
    ∃ u ∈ userStore.users,
      (login demoLib demoCompare userStore ⟨.str " Jane@X.com", .str "secret"⟩).body
        = .user (deleteKey "password_hash" (fullUserJson u)) :=
  (password_hash_never_returned demoLib demoCompare userStore).2.2.2.2.2.2.2.2.1
    ⟨.str " Jane@X.com", .str "secret"⟩ (by decide)

theorem allSpace_nil : allSpace [] := fun c hc => by cases hc

theorem allSpace_append (a b : List Char) (ha : allSpace a) (hb : allSpace b) :
    allSpace (a ++ b) := by
  intro c hc
  rcases List.mem_append.mp hc with h | h
  · exact ha c h
  · exact hb c h

theorem greedySpace_some {β : Type} (k : List Char → Option β) (cs : List Char) (r : β)
    (h : greedySpace k cs = some r) :
    ∃ pre s, cs = pre ++ s ∧ allSpace pre ∧ k s = some r := by
  induction cs with
  | nil => exact ⟨[], [], rfl, allSpace_nil, h⟩
  | cons c cs ih =>
    unfold greedySpace at h
    by_cases hc : isJsSpace c = true
    · rw [if_pos hc] at h
      cases hg : greedySpace k cs with
      | some r2 =>
        rw [hg] at h
        simp only [Option.some.injEq] at h
        subst h
        obtain ⟨pre, s, hcs, hpre, hk⟩ := ih hg
        refine ⟨c :: pre, s, by rw [hcs]; rfl, ?_, hk⟩
        intro x hx
        rcases List.mem_cons.mp hx with h1 | h1
        · rw [h1]; exact hc
        · exact hpre x h1
      | none =>
        rw [hg] at h
        exact ⟨[], c :: cs, rfl, allSpace_nil, h⟩
    · rw [if_neg hc] at h
      exact ⟨[], c :: cs, rfl, allSpace_nil, h⟩

theorem greedySpace_prefix {β : Type} (k : List Char → Option β) (pre rest : List Char)
    (r : β) (hpre : allSpace pre) (h : greedySpace k rest = some r) :
    greedySpace k (pre ++ rest) = some r := by
  induction pre with
  | nil => exact h
  | cons c cs ih =>
    have hc : isJsSpace c = true := hpre c (List.mem_cons_self _ _)
    have := ih (fun x hx => hpre x (List.mem_cons_of_mem _ hx))
    show greedySpace k (c :: (cs ++ rest)) = some r
    unfold greedySpace
    rw [if_pos hc, this]

theorem greedySpace_of_some {β : Type} (k : List Char → Option β) (cs : List Char) (r : β)
    (hhead : ∀ c rest, cs = c :: rest → isJsSpace c = false) (h : k cs = some r) :
    greedySpace k cs = some r := by
  cases cs with
  | nil => exact h
  | cons c rest =>
    have hc := hhead c rest rfl
    simp only [greedySpace, hc, Bool.false_eq_true, if_false]
    exact h

theorem greedySpace_none {β : Type} (k : List Char → Option β) (cs : List Char)
    (h : ∀ pre s, cs = pre ++ s → allSpace pre → k s = none) : greedySpace k cs = none := by
  cases hg : greedySpace k cs with
  | none => rfl
  | some r =>
    obtain ⟨pre, s, hcs, hpre, hk⟩ := greedySpace_some k cs r hg
    rw [h pre s hcs hpre] at hk
    cases hk

theorem lazyDot_some {β : Type} (k : List Char → List Char → Option β) (acc cs : List Char)
    (r : β) (h : lazyDot k acc cs = some r) :
    ∃ g s, cs = g ++ s ∧ k (acc ++ g) s = some r := by
  induction cs generalizing acc with
  | nil =>
    unfold lazyDot at h
    exact ⟨[], [], rfl, by simpa using h⟩
  | cons c cs ih =>
    unfold lazyDot at h
    cases hk : k acc (c :: cs) with
    | some r2 =>
      rw [hk] at h
      simp only [Option.some.injEq] at h
      subst h
      exact ⟨[], c :: cs, rfl, by simpa using hk⟩
    | none =>
      rw [hk] at h
      simp only at h
      split at h
      · cases h
      · obtain ⟨g, s, hcs, hks⟩ := ih (acc ++ [c]) h
        refine ⟨c :: g, s, by rw [hcs]; rfl, ?_⟩
        simpa using hks

theorem lazyDot_first {β : Type} (k : List Char → List Char → Option β) (acc cs : List Char)
    (r : β) (h : k acc cs = some r) : lazyDot k acc cs = some r := by
  cases cs with
  | nil => unfold lazyDot; exact h
  | cons c rest => unfold lazyDot; rw [h]

theorem lazyDot_cons_none {β : Type} (k : List Char → List Char → Option β)
    (acc : List Char) (c : Char) (cs : List Char) (hk : k acc (c :: cs) = none)
    (hlt : isLineTerminator c = false) :
    lazyDot k acc (c :: cs) = lazyDot k (acc ++ [c]) cs := by
  conv_lhs => unfold lazyDot
  simp only [hk, hlt, Bool.false_eq_true, if_false]

theorem lazyDot_skip {β : Type} (k : List Char → List Char → Option β)
    (acc mid rest : List Char)
    (h : ∀ p c q, mid = p ++ c :: q →
      k (acc ++ p) (c :: q ++ rest) = none ∧ isLineTerminator c = false) :
    lazyDot k acc (mid ++ rest) = lazyDot k (acc ++ mid) rest := by
  induction mid generalizing acc with
  | nil => simp
  | cons c cs ih =>
    obtain ⟨hk, hlt⟩ := h [] c cs rfl
    simp only [List.append_nil] at hk
    show lazyDot k acc (c :: (cs ++ rest)) = lazyDot k (acc ++ c :: cs) rest
    rw [lazyDot_cons_none k acc c (cs ++ rest) hk hlt, ih (acc ++ [c])]
    · simp
    · intro p c2 q hsplit
      have := h (c :: p) c2 q (by rw [hsplit]; rfl)
      simpa using this

theorem spaceThenEnd_some {β : Type} (r x : β) (cs : List Char)
    (h : spaceThenEnd r cs = some x) : x = r ∧ allSpace cs := by
  unfold spaceThenEnd at h
  obtain ⟨pre, s, hcs, hpre, hk⟩ := greedySpace_some _ cs x h
  cases s with
  | nil =>
    simp only [List.isEmpty_nil, if_true, Option.some.injEq] at hk
    rw [List.append_nil] at hcs
    exact ⟨hk.symm, by rw [hcs]; exact hpre⟩
  | cons c s => simp at hk

theorem spaceThenEnd_of_allSpace {β : Type} (r : β) (cs : List Char) (h : allSpace cs) :
    spaceThenEnd r cs = some r := by
  unfold spaceThenEnd
  have := greedySpace_prefix (fun rest => if rest.isEmpty then some r else none) cs [] r h rfl
  simpa using this

theorem spaceThenEnd_none {β : Type} (r : β) (cs : List Char) (y : Char) (hy : y ∈ cs)
    (hsp : isJsSpace y = false) : spaceThenEnd r cs = none := by
  cases h : spaceThenEnd r cs with
  | none => rfl
  | some x =>
    have := (spaceThenEnd_some r x cs h).2 y hy
    rw [hsp] at this
    cases this

theorem brandGroup_some (g1 cs : List Char) (x : List Char) (y : Option (List Char))
    (h : brandGroup g1 cs = some (x, y)) :
    x = g1 ∧ ((y = none ∧ allSpace cs) ∨
      ∃ g c, y = some g ∧ cs = '(' :: g ++ ')' :: c ∧ allSpace c) := by
  unfold brandGroup at h
  simp only at h
  split at h
  · rename_i r hw
    simp only [Option.some.injEq] at h
    subst h
    split at hw
    · rename_i r4
      obtain ⟨g, s, hr4, hk⟩ := lazyDot_some _ [] r4 _ hw
      simp only [List.nil_append] at hk
      split at hk
      · rename_i r6
        obtain ⟨h1, h2⟩ := spaceThenEnd_some _ _ _ hk
        simp only [Prod.mk.injEq] at h1
        exact ⟨h1.1, Or.inr ⟨g, r6, h1.2, by rw [hr4]; rfl, h2⟩⟩
      · cases hk
    · cases hw
  · obtain ⟨h1, h2⟩ := spaceThenEnd_some _ _ _ h
    simp only [Prod.mk.injEq] at h1
    exact ⟨h1.1, Or.inl ⟨h1.2, h2⟩⟩

theorem matchName_some (name g1 : List Char) (g2 : Option (List Char))
    (h : matchName name = some (g1, g2)) :
    ∃ a b, allSpace a ∧ allSpace b ∧
      ((g2 = none ∧ name = a ++ g1 ++ b) ∨
       ∃ g c, g2 = some g ∧ allSpace c ∧ name = a ++ g1 ++ b ++ '(' :: g ++ ')' :: c) := by
  unfold matchName at h
  obtain ⟨a, s1, hname, ha, h1⟩ := greedySpace_some _ name _ h
  obtain ⟨g, s2, hs1, h2⟩ := lazyDot_some _ [] s1 _ h1
  simp only [List.nil_append] at h2
  obtain ⟨b, s3, hs2, hb, h3⟩ := greedySpace_some _ s2 _ h2
  obtain ⟨hg, hrest⟩ := brandGroup_some g s3 g1 g2 h3
  subst hg
  rcases hrest with ⟨hnone, hs3⟩ | ⟨gg, c, hsome, hs3, hc⟩
  · refine ⟨a, b ++ s3, ha, allSpace_append _ _ hb hs3, Or.inl ⟨hnone, ?_⟩⟩
    rw [hname, hs1, hs2]
    simp
  · refine ⟨a, b, ha, hb, Or.inr ⟨gg, c, hsome, hc, ?_⟩⟩
    rw [hname, hs1, hs2, hs3]
    simp

theorem dropWhile_allSpace_append (a x : List Char) (ha : allSpace a) :
    (a ++ x).dropWhile isJsSpace = x.dropWhile isJsSpace := by
  induction a with
  | nil => rfl
  | cons c cs ih =>
    have hc : isJsSpace c = true := ha c (List.mem_cons_self _ _)
    simp only [List.cons_append, List.dropWhile_cons, hc, if_true]
    exact ih (fun y hy => ha y (List.mem_cons_of_mem _ hy))

theorem dropWhile_allSpace (a : List Char) (ha : allSpace a) :
    a.dropWhile isJsSpace = [] := by
  have := dropWhile_allSpace_append a [] ha
  simpa using this

theorem dropWhile_append_nonspace (g b : List Char) (y : Char) (hy : y ∈ g)
    (hsp : isJsSpace y = false) :
    (g ++ b).dropWhile isJsSpace = g.dropWhile isJsSpace ++ b := by
  induction g with
  | nil => cases hy
  | cons c cs ih =>
    by_cases hc : isJsSpace c = true
    · simp only [List.cons_append, List.dropWhile_cons, hc, if_true]
      rcases List.mem_cons.mp hy with h | h
      · rw [h, hc] at hsp; cases hsp
      · exact ih h
    · simp only [List.cons_append, List.dropWhile_cons, hc]
      rfl

theorem dropWhile_head (l : List Char) (x : Char) (xs : List Char)
    (h : l.dropWhile isJsSpace = x :: xs) : isJsSpace x = false := by
  induction l with
  | nil => cases h
  | cons c cs ih =>
    by_cases hc : isJsSpace c = true
    · simp only [List.dropWhile_cons, hc, if_true] at h
      exact ih h
    · simp only [List.dropWhile_cons, hc] at h
      simp only [Bool.false_eq_true, if_false, List.cons.injEq] at h
      rw [← h.1]
      simpa using hc

theorem allSpace_reverse (a : List Char) (ha : allSpace a) : allSpace a.reverse :=
  fun c hc => ha c (List.mem_reverse.mp hc)

theorem trimChars_strip (a g b : List Char) (ha : allSpace a) (hb : allSpace b) :
    trimChars (a ++ g ++ b) = trimChars g := by
  unfold trimChars
  rw [List.append_assoc, dropWhile_allSpace_append a _ ha]
  by_cases hg : allSpace g
  · rw [dropWhile_allSpace _ (allSpace_append _ _ hg hb), dropWhile_allSpace _ hg]
  · unfold allSpace at hg
    push_neg at hg
    obtain ⟨y, hy, hsp⟩ := hg
    rw [dropWhile_append_nonspace g b y hy (by simpa using hsp), List.reverse_append,
      dropWhile_allSpace_append _ _ (allSpace_reverse b hb)]

theorem trimChars_decomp (g : List Char) :
    ∃ l t, g = l ++ trimChars g ++ t ∧ allSpace l ∧ allSpace t ∧
      (∀ x xs, trimChars g = x :: xs → isJsSpace x = false) ∧
      (∀ xs x, trimChars g = xs ++ [x] → isJsSpace x = false) := by
  have h1 : g = g.takeWhile isJsSpace ++ g.dropWhile isJsSpace :=
    (List.takeWhile_append_dropWhile _ _).symm
  have h2 : (g.dropWhile isJsSpace).reverse
      = (g.dropWhile isJsSpace).reverse.takeWhile isJsSpace ++
        (g.dropWhile isJsSpace).reverse.dropWhile isJsSpace :=
    (List.takeWhile_append_dropWhile _ _).symm
  have h3 : g.dropWhile isJsSpace
      = trimChars g ++ ((g.dropWhile isJsSpace).reverse.takeWhile isJsSpace).reverse := by
    unfold trimChars
    rw [← List.reverse_append, ← h2, List.reverse_reverse]
  have hlast : ∀ xs x, trimChars g = xs ++ [x] → isJsSpace x = false := by
    intro xs x hx
    have : (g.dropWhile isJsSpace).reverse.dropWhile isJsSpace = x :: xs.reverse := by
      have h4 : (trimChars g).reverse = x :: xs.reverse := by rw [hx]; simp
      unfold trimChars at h4
      rw [List.reverse_reverse] at h4
      exact h4
    exact dropWhile_head _ x _ this
  refine ⟨g.takeWhile isJsSpace,
    ((g.dropWhile isJsSpace).reverse.takeWhile isJsSpace).reverse, ?_, ?_, ?_, ?_, hlast⟩
  · rw [List.append_assoc, ← h3]
    exact h1
  · intro c hc
    exact (List.mem_takeWhile_imp hc)
  · apply allSpace_reverse
    intro c hc
    exact (List.mem_takeWhile_imp hc)
  · intro x xs hx
    rw [hx] at h3
    exact dropWhile_head g x _ h3

theorem brandGroup_paren (g1 b tail : List Char)
    (hb : ∀ c ∈ b, c ≠ ')' ∧ isLineTerminator c = false) (htail : allSpace tail) :
    brandGroup g1 ('(' :: (b ++ ')' :: tail)) = some (g1, some b) := by
  have hskip := lazyDot_skip
    (fun g2 r5 =>
      match r5 with
      | ')' :: r6 => spaceThenEnd (g1, some g2) r6
      | _ => none) [] b (')' :: tail)
    (by
      intro p c q hsplit
      have hc := hb c (by rw [hsplit]; simp)
      refine ⟨?_, hc.2⟩
      simp only [List.cons_append]
      split
      · rename_i r6 heq
        simp only [List.cons.injEq] at heq
        exact absurd heq.1 hc.1
      · rfl)
  have hfirst := lazyDot_first
    (fun g2 r5 =>
      match r5 with
      | ')' :: r6 => spaceThenEnd (g1, some g2) r6
      | _ => none) ([] ++ b) (')' :: tail) (g1, some b)
    (by simp only [List.nil_append]; exact spaceThenEnd_of_allSpace _ _ htail)
  rw [← hskip] at hfirst
  unfold brandGroup
  simp only
  rw [hfirst]

theorem brandGroup_none (g1 s : List Char) (a : Char) (rest : List Char) (hs : s = a :: rest)
    (ha : a ≠ '(') (y : Char) (hy : y ∈ s) (hsp : isJsSpace y = false) :
    brandGroup g1 s = none := by
  subst hs
  unfold brandGroup
  simp only
  have hw : (match a :: rest with
      | '(' :: r4 =>
        lazyDot (fun g2 r5 =>
          match r5 with
          | ')' :: r6 => spaceThenEnd (g1, some g2) r6
          | _ => none) [] r4
      | _ => (none : Option (List Char × Option (List Char)))) = none := by
    split
    · rename_i r4 heq
      simp only [List.cons.injEq] at heq
      exact absurd heq.1 ha
    · rfl
  rw [hw]
  exact spaceThenEnd_none _ _ y hy hsp

theorem split_space_prefix (pre s q rest : List Char) (y : Char)
    (h : q ++ y :: rest = pre ++ s) (hpre : allSpace pre) (hy : isJsSpace y = false) :
    ∃ u, s = u ++ y :: rest ∧ q = pre ++ u := by
  induction pre generalizing q with
  | nil => exact ⟨q, by simpa using h.symm, rfl⟩
  | cons c cs ih =>
    cases q with
    | nil =>
      simp only [List.nil_append, List.cons_append, List.cons.injEq] at h
      have := hpre c (List.mem_cons_self _ _)
      rw [← h.1, hy] at this
      cases this
    | cons d ds =>
      simp only [List.cons_append, List.cons.injEq] at h
      obtain ⟨u, hu1, hu2⟩ := ih ds h.2 (fun x hx => hpre x (List.mem_cons_of_mem _ hx))
      exact ⟨u, hu1, by rw [h.1, hu2]; rfl⟩

theorem matchName_combined (g ws b tail : List Char)
    (hg : ∀ c ∈ g, c ≠ '(' ∧ isLineTerminator c = false)
    (hws : allSpace ws)
    (hb : ∀ c ∈ b, c ≠ ')' ∧ isLineTerminator c = false) (htail : allSpace tail) :
    matchName (g ++ ws ++ '(' :: (b ++ ')' :: tail)) = some (trimChars g, some b) := by
  obtain ⟨l, t, hdec, hl, ht, hfirst, hlast⟩ := trimChars_decomp g
  have hcore : ∀ c ∈ trimChars g, c ≠ '(' ∧ isLineTerminator c = false := by
    intro c hc
    apply hg
    rw [hdec]
    simp [hc]
  generalize trimChars g = core at hdec hfirst hlast hcore ⊢
  have hname : g ++ ws ++ '(' :: (b ++ ')' :: tail)
      = l ++ (core ++ ((t ++ ws) ++ '(' :: (b ++ ')' :: tail))) := by
    rw [hdec]; simp
  have hW : allSpace (t ++ ws) := allSpace_append _ _ ht hws
  generalize t ++ ws = w at hname hW
  rw [hname]
  unfold matchName
  apply greedySpace_prefix _ _ _ _ hl
  have hparen : ∀ g1, greedySpace (fun r3 => brandGroup g1 r3)
      (w ++ '(' :: (b ++ ')' :: tail)) = some (g1, some b) := by
    intro g1
    apply greedySpace_prefix _ _ _ _ hW
    apply greedySpace_of_some
    · intro c rest hc
      simp only [List.cons.injEq] at hc
      rw [← hc.1]
      decide
    · exact brandGroup_paren g1 b tail hb htail
  cases core with
  | nil =>
    simp only [List.nil_append]
    apply greedySpace_prefix _ _ _ _ hW
    apply greedySpace_of_some
    · intro c rest hc
      simp only [List.cons.injEq] at hc
      rw [← hc.1]
      decide
    · apply lazyDot_first
      apply greedySpace_of_some
      · intro c rest hc
        simp only [List.cons.injEq] at hc
        rw [← hc.1]
        decide
      · exact brandGroup_paren [] b tail hb htail
  | cons x xs =>
    apply greedySpace_of_some
    · intro c rest hc
      simp only [List.cons_append, List.cons.injEq] at hc
      rw [← hc.1]
      exact hfirst x xs rfl
    · rw [lazyDot_skip _ [] (x :: xs) (w ++ '(' :: (b ++ ')' :: tail))]
      · apply lazyDot_first
        simp only [List.nil_append]
        exact hparen (x :: xs)
      · intro p c q hsplit
        have hc := hcore c (by rw [hsplit]; simp)
        refine ⟨?_, hc.2⟩
        apply greedySpace_none
        intro pre s hs hpre
        rcases List.eq_nil_or_concat (c :: q) with hnil | ⟨q2, y, hq2⟩
        · cases hnil
        · rw [List.concat_eq_append] at hq2
          have hy : isJsSpace y = false := by
            apply hlast (p ++ q2) y
            rw [hsplit, hq2]
            simp
          have hs2 : q2 ++ y :: (w ++ '(' :: (b ++ ')' :: tail)) = pre ++ s := by
            rw [← hs, hq2]
            simp
          obtain ⟨u, hu1, hu2⟩ := split_space_prefix pre s q2 _ y hs2 hpre hy
          have hmem : ∀ z ∈ q2 ++ [y], z ≠ '(' := by
            intro z hz
            apply (hcore z _).1
            rw [hsplit, hq2]
            simp only [List.mem_append] at hz ⊢
            exact Or.inr hz
          cases u with
          | nil =>
            exact brandGroup_none _ s y _ (by rw [hu1]; rfl)
              (hmem y (by simp)) y (by rw [hu1]; simp) hy
          | cons z zs =>
            exact brandGroup_none _ s z _ (by rw [hu1]; rfl)
              (hmem z (by rw [hu2]; simp)) y (by rw [hu1]; simp) hy

theorem trimChars_idem (g : List Char) : trimChars (trimChars g) = trimChars g := by
  obtain ⟨l, t, hdec, hl, ht, _, _⟩ := trimChars_decomp g
  have := trimChars_strip l (trimChars g) t hl ht
  rw [← hdec] at this
  exact this.symm

theorem splitName_combined (lib : Lib) (gn bn cat stock : JsVal) (g ws b : List Char)
    (hgn : truthy gn = false)
    (hg : ∀ c ∈ g, c ≠ '(' ∧ c ≠ ')' ∧ isLineTerminator c = false)
    (hws : allSpace ws)
    (hb : ∀ c ∈ b, c ≠ '(' ∧ c ≠ ')' ∧ isLineTerminator c = false) :
    splitName lib ⟨gn, bn, cat, stock, .str (String.mk (g ++ ws ++ '(' :: (b ++ [')'])))⟩
      = (.str (jsTrim (String.mk g)),
         if jsTrim (String.mk b) != "" then .str (jsTrim (String.mk b)) else .null) := by
  have hm := matchName_combined g ws b [] (fun c hc => ⟨(hg c hc).1, (hg c hc).2.2⟩) hws
    (fun c hc => ⟨(hb c hc).2.1, (hb c hc).2.2⟩) allSpace_nil
  unfold splitName
  simp only [hgn, isString, Bool.not_false, Bool.and_self, if_true, jsString]
  rw [hm]
  simp only [Option.getD_some]
  have h1 : jsTrim (String.mk (trimChars g)) = jsTrim (String.mk g) := by
    unfold jsTrim
    rw [trimChars_idem]
  rw [h1]

theorem splitName_plain (lib : Lib) (gn bn cat stock : JsVal) (name : String)
    (hgn : truthy gn = false)
    (hno : ¬ ∃ x y z, name.data = x ++ '(' :: (y ++ ')' :: z)) :
    splitName lib ⟨gn, bn, cat, stock, .str name⟩ = (.str (jsTrim name), .null) := by
  unfold splitName
  simp only [hgn, isString, Bool.not_false, Bool.and_self, if_true, jsString]
  cases hm : matchName name.data with
  | none => rfl
  | some r =>
    obtain ⟨g1, g2⟩ := r
    obtain ⟨a, b, ha, hb, hcase⟩ := matchName_some name.data g1 g2 hm
    rcases hcase with ⟨hnone, hname⟩ | ⟨g, c, _, _, hname⟩
    · subst hnone
      have ht : trimChars name.data = trimChars g1 := by
        rw [hname]; exact trimChars_strip a g1 b ha hb
      have h1 : jsTrim (String.mk g1) = jsTrim name := by
        unfold jsTrim
        rw [ht]
      simp only [Option.getD_none, h1]
      have h2 : jsTrim (String.mk []) = "" := jsTrim_empty
      rw [h2]
      rfl
    · exact absurd ⟨a ++ g1 ++ b, g, c, hname.trans (by simp)⟩ hno

theorem putInventory_bound (lib : Lib) (st : Store) (id : Int) (body : InventoryUpdateBody)
    (s : Option Int) (g b : JsVal) (hsplit : splitName lib body = (g, b))
    (hs : stockParam lib body.stock none = .ok s) (hid : inInt4 id = true) :
    putInventory lib st id body
      = detailsOutcome st id
          (setDetails (pgText lib g) (pgText lib b) (pgText lib body.category) s) := by
  have hupd : ∀ set : InventoryItem → InventoryItem,
      updateRows (fun r : InventoryItem => r.id == id) set st.inventory
        = st.inventory.map (fun r => if r.id = id then set r else r) := by
    intro set
    unfold updateRows
    apply List.map_congr_left
    intro r _
    by_cases hr : r.id = id <;> simp [hr]
  unfold putInventory detailsOutcome
  simp only [hsplit, hs, pgId, hid, if_true, hupd]
  cases hfind : findItem st id with
  | some r =>
    unfold findItem at hfind
    obtain ⟨tl, htl⟩ := returning_of_find _
      (setDetails (pgText lib g) (pgText lib b) (pgText lib body.category) s) _ _ hfind
    simp only [htl]
  | none =>
    unfold findItem at hfind
    have hnil := returning_nil (fun r : InventoryItem => r.id == id)
      (setDetails (pgText lib g) (pgText lib b) (pgText lib body.category) s) st.inventory
      (by
        intro r hr
        have := List.find?_eq_none.mp hfind r hr
        simpa using this)
    simp only [hnil]

/-- C16 as stated fails: with the generic name `""` supplied, `name` is not
ignored; the handler parses `Paracetamol (Tylenol)`, stores both parts and
drops the supplied brand name `Motrin`, whereas the same body without `name`
stores the generic name `""` and the brand name `Motrin`. -/
theorem combined_name_empty_generic_counterexample :
    emptyGeneric.genericName = .str "" ∧
    (putInventory demoLib demoStore 1 emptyGeneric).1.status = 200 ∧
    (putInventory demoLib demoStore 1 emptyGeneric).2.inventory.map
        (fun r => (r.generic_name, r.brand_name)) = [("Paracetamol", some "Tylenol")] ∧
    (putInventory demoLib demoStore 1 { emptyGeneric with name := .undefined }).2.inventory.map
        (fun r => (r.generic_name, r.brand_name)) = [("", some "Motrin")] := by
  decide

/-- C16 (amended): in `PUT /api/inventory/:id` with a stock parameter the
column accepts and an identifier in range, the generic name counts as
supplied when it is truthy.  When it is falsy (absent, null or `""`) and
`name` is the string `G`, optional white space, `(B)`, with `G` and `B` free
of parentheses and line terminators, the handler answers and stores what the
UPDATE with generic name `G` trimmed and brand name `B` trimmed (NULL when
`B` is blank) does; when it is falsy and `name` is a string without a
parenthesised part, what the UPDATE with generic name `name` trimmed and
brand name NULL does; when it is truthy, what the UPDATE with the supplied
generic and brand names does, whatever `name` is.  In that UPDATE every row
with the identifier gets the generic name, and gets the brand name unless
that is NULL, in which case the stored brand name is kept. -/
theorem combined_name_parsing (lib : Lib) (st : Store) (id : Int) (cat stock : JsVal)
    (s : Option Int) (hs : stockParam lib stock none = .ok s) (hid : inInt4 id = true) :
    (∀ (gn bn : JsVal) (g ws b : List Char), truthy gn = false →
      (∀ c ∈ g, c ≠ '(' ∧ c ≠ ')' ∧ isLineTerminator c = false) → allSpace ws →
      (∀ c ∈ b, c ≠ '(' ∧ c ≠ ')' ∧ isLineTerminator c = false) →
      putInventory lib st id
          ⟨gn, bn, cat, stock, .str (String.mk (g ++ ws ++ '(' :: (b ++ [')'])))⟩
        = detailsOutcome st id
            (setDetails (some (jsTrim (String.mk g)))
              (if jsTrim (String.mk b) = "" then none else some (jsTrim (String.mk b)))
              (pgText lib cat) s)) ∧
    (∀ (gn bn : JsVal) (name : String), truthy gn = false →
      (¬ ∃ x y z, name.data = x ++ '(' :: (y ++ ')' :: z)) →
      putInventory lib st id ⟨gn, bn, cat, stock, .str name⟩
        = detailsOutcome st id (setDetails (some (jsTrim name)) none (pgText lib cat) s)) ∧
    (∀ gn bn name : JsVal, truthy gn = true →
      putInventory lib st id ⟨gn, bn, cat, stock, name⟩
        = detailsOutcome st id
            (setDetails (pgText lib gn) (pgText lib bn) (pgText lib cat) s)) ∧
    (∀ (g x : String) (c : Option String) (r : InventoryItem),
      (setDetails (some g) (some x) c s r).generic_name = g ∧
      (setDetails (some g) (some x) c s r).brand_name = some x ∧
      (setDetails (some g) none c s r).generic_name = g ∧
      (setDetails (some g) none c s r).brand_name = r.brand_name) := by
  refine ⟨?_, ?_, ?_, fun g x c r => ⟨rfl, rfl, rfl, rfl⟩⟩
  · intro gn bn g ws b hgn hg hws hb
    have hsplit := splitName_combined lib gn bn cat stock g ws b hgn hg hws hb
    rw [putInventory_bound lib st id _ s _ _ hsplit hs hid]
    by_cases hblank : jsTrim (String.mk b) = ""
    · simp [hblank, pgText]
    · simp [hblank, pgText]
  · intro gn bn name hgn hno
    have hsplit := splitName_plain lib gn bn cat stock name hgn hno
    rw [putInventory_bound lib st id _ s _ _ hsplit hs hid]
    rfl
  · intro gn bn name hgn
    have hsplit : splitName lib ⟨gn, bn, cat, stock, name⟩ = (gn, bn) := by
      unfold splitName
      simp [hgn]
    rw [putInventory_bound lib st id _ s _ _ hsplit hs hid]

/-- Witness of `combined_name_parsing` on the store with the one item
Ibuprofen (Advil): the name `Paracetamol  ( Tylenol )` stores Paracetamol
and Tylenol; the name `Aspirin ` stores Aspirin and keeps the brand Advil;
and with the generic name Naproxen supplied the name is not read. -/
theorem combined_name_parsing_witness :
    (putInventory demoLib demoStore 1 ⟨.undefined, .undefined, .undefined, .undefined,
        .str (String.mk ("Paracetamol".data ++ "  ".data ++ '(' :: (" Tylenol ".data ++ [')'])))⟩
      ).2.inventory = [{ demoItem 1 5 with
        generic_name := "Paracetamol", brand_name := some "Tylenol" }] ∧
    (putInventory demoLib demoStore 1 ⟨.undefined, .undefined, .undefined, .undefined,
        .str "Aspirin "⟩).2.inventory
      = [{ demoItem 1 5 with generic_name := "Aspirin" }] ∧
    (putInventory demoLib demoStore 1 ⟨.str "Naproxen", .null, .undefined, .undefined,
        .str "Aspirin (Bayer)"⟩).2.inventory
      = [{ demoItem 1 5 with generic_name := "Naproxen" }] :=
  ⟨(congrArg (fun o => o.2.inventory)
      ((combined_name_parsing demoLib demoStore 1 .undefined .undefined none rfl rfl).1
        .undefined .undefined "Paracetamol".data "  ".data " Tylenol ".data rfl (by decide)
        (by unfold allSpace; decide) (by decide))).trans (by decide),
   (congrArg (fun o => o.2.inventory)
      ((combined_name_parsing demoLib demoStore 1 .undefined .undefined none rfl rfl).2.1
        .undefined .undefined "Aspirin " rfl (by
          rintro ⟨x, y, z, h⟩
          have hmem : '(' ∈ "Aspirin ".data := by
            rw [h]
            simp
          revert hmem
          decide))).trans (by decide),
   (congrArg (fun o => o.2.inventory)
      ((combined_name_parsing demoLib demoStore 1 .undefined .undefined none rfl rfl).2.2.1
        (.str "Naproxen") .null (.str "Aspirin (Bayer)") (by decide))).trans (by decide)⟩

end CareFlow
